import Mathlib

/-!
# Verification development for `Vector<T>` (src/Vector.h)

The container owns one raw heap block and tracks a capacity and a live-element
count.  The embedding keeps that level of detail:

* a heap block is a list of slots, a slot being `none` (raw memory or a
  destructed object) or `some x` (a constructed object with value `x`);
* `m_data` is `none` for the null pointer and `some block` otherwise;
* a `T*` into a block is the slot index;
* every operation returns `Except Fault _`: `bad_alloc` and `out_of_range` are
  the two C++ exceptions the header throws, `undefined_behaviour` is returned
  where the C++ abstract machine has no defined result (access outside the
  block, reading or destructing a slot that holds no object);
* `malloc` is an oracle `ok : Nat → Bool` telling whether a request for that
  many slots succeeds;
* `size_t` sums that take an operand from the caller wrap modulo `2 ^ 64`; the
  remaining counters are bounded by the length of the block they index;
* `m_capacity * growthFactor` (a `double` product truncated to `size_t`) is
  `m_capacity * 3 / 2`, which is exact for every capacity below `2 ^ 51`;
* element constructors and assignments of `T` do not throw, so the only
  exceptions are `bad_alloc` from `allocMany` and `out_of_range` from the
  checked accessors; the members that allocate are also given as container
  transformers (`Op`), whose exits carry the container as an exception leaves
  it;
* the copy constructor, whose handler exists for a throwing element copy, is
  given a second time with an oracle `throws : Nat → Bool` telling which element
  copy throws (`Vector.ctor_copy_throwing`);
* the growing members are given a second time under `Exact`, with the `size_t`
  byte count of `allocMany`, the `double` product of `growBuffer` and the
  `const T&` parameters as references that may point into the container; where
  no product wraps or rounds and the argument lies outside the container they
  are the members given first (`exact_growIfNeeded_eq`, `exact_insertAt_eq`);
* two containers that must be told apart by their blocks are objects in one
  heap (`Heap`, `Object`), their `m_data` being addresses.
-/

namespace CppVector

/-- Modulus of `size_t` arithmetic (a 64-bit target). -/
abbrev SIZE_MOD : Nat := 2 ^ 64

/-- Ways an operation can fail to return normally. -/
inductive Fault where
  | bad_alloc
  | out_of_range
  | undefined_behaviour
  deriving DecidableEq, Repr

/-- A heap block: one entry per element slot. -/
abbrev Buffer (T : Type) := List (Option T)

/-- The three data members of `Vector<T>`. -/
structure Vector (T : Type) where
  m_data : Option (Buffer T)
  m_capacity : Nat
  m_elemCount : Nat
  deriving DecidableEq, Repr

section Primitives
variable {T : Type}

/-- The expression `*p` used as a value: the slot must hold an object. -/
def readSlot (b : Buffer T) (i : Nat) : Except Fault T :=
  match b[i]? with
  | some (some x) => .ok x
  | _ => .error .undefined_behaviour

/-- Placement construction `new(p) T(x)`: the slot must lie inside the block. -/
def constructAt (b : Buffer T) (i : Nat) (x : T) : Except Fault (Buffer T) :=
  if i < b.length then .ok (b.set i (some x)) else .error .undefined_behaviour

/-- The call `p->~T()`: the slot must hold an object. -/
def destroyAt (b : Buffer T) (i : Nat) : Except Fault (Buffer T) :=
  match b[i]? with
  | some (some _) => .ok (b.set i none)
  | _ => .error .undefined_behaviour

/-- The block `m_data` points to; the null pointer addresses no slot. -/
def Vector.block (v : Vector T) : Buffer T := v.m_data.getD []

/-- Write back a block that was modified through `m_data` (null stays null). -/
def Vector.withBlock (v : Vector T) (b : Buffer T) (n : Nat) : Vector T :=
  ⟨v.m_data.map (fun _ => b), v.m_capacity, n⟩

/-- `allocMany`: `malloc` of `elemCount` slots, `bad_alloc` on a null result.
The byte count `elemCount * elemSize` is taken not to wrap here;
`Exact.allocMany` has the `size_t` product. -/
def allocMany (ok : Nat → Bool) (elemCount : Nat) : Except Fault (Buffer T) :=
  if ok elemCount then .ok (List.replicate elemCount none) else .error .bad_alloc

/-- The loop of `allocateBuffer`: move slot `i` of the old block to slot `i` of
the new one and destruct the original, for `n` consecutive `i`. -/
def allocateBufferLoop : Nat → Nat → Buffer T → Buffer T → Except Fault (Buffer T × Buffer T)
  | 0, _, old, tmp => .ok (old, tmp)
  | n + 1, i, old, tmp => do
    let x ← readSlot old i
    let tmp1 ← constructAt tmp i x
    let old1 ← destroyAt old i
    allocateBufferLoop n (i + 1) old1 tmp1

/-- `allocateBuffer(bufferSize)`. -/
def allocateBuffer (ok : Nat → Bool) (v : Vector T) (bufferSize : Nat) :
    Except Fault (Vector T) := do
  let tmpBuffer ← allocMany ok bufferSize
  let r ← allocateBufferLoop v.m_elemCount 0 v.block tmpBuffer
  pure ⟨some r.2, bufferSize, v.m_elemCount⟩

/-- `growBuffer(elemCount)`.  The product with `growthFactor` is taken exactly
here; `Exact.growBuffer` has the `double` product. -/
def growBuffer (ok : Nat → Bool) (v : Vector T) (elemCount : Nat) : Except Fault (Vector T) :=
  let nextCapacity := v.m_capacity * 3 / 2
  let actualNewCapacity := max nextCapacity ((v.m_elemCount + elemCount) % SIZE_MOD)
  allocateBuffer ok v actualNewCapacity

/-- `shouldResizeBuffer(elemCount)`. -/
def shouldResizeBuffer (v : Vector T) (elemCount : Nat) : Bool :=
  decide ((v.m_elemCount + elemCount) % SIZE_MOD > v.m_capacity)

/-- `growIfNeeded(minRequiredCapacity)`; the returned write pointer is slot
`m_elemCount` of the resulting container. -/
def growIfNeeded (ok : Nat → Bool) (v : Vector T) (minRequiredCapacity : Nat) :
    Except Fault (Vector T) :=
  if shouldResizeBuffer v minRequiredCapacity then growBuffer ok v minRequiredCapacity
  else .ok v

/-- `insertElem(value)` for a `value` that is not an element of the container;
`Exact.insertElem` has the reference. -/
def insertElem (ok : Nat → Bool) (v : Vector T) (value : T) : Except Fault (Vector T) := do
  let v1 ← growIfNeeded ok v 1
  let b ← constructAt v1.block v1.m_elemCount value
  pure (v1.withBlock b (v1.m_elemCount + 1))

/-- The loop of `destructElems` and of the two destruct loops of `eraseAt`:
destruct `n` consecutive slots starting at `i`. -/
def destructLoop : Nat → Nat → Buffer T → Except Fault (Buffer T)
  | 0, _, b => .ok b
  | n + 1, i, b => do
    let b1 ← destroyAt b i
    destructLoop n (i + 1) b1

/-- The loop of `shiftElemsRight`: `endPtr` walks down from slot `e`, each
element is move-constructed `amount` slots to the right and then destructed. -/
def shiftLoop (amount : Nat) : Nat → Nat → Buffer T → Except Fault (Buffer T)
  | 0, _, b => .ok b
  | n + 1, e, b => do
    let x ← readSlot b e
    let b1 ← constructAt b (e + amount) x
    let b2 ← destroyAt b1 e
    shiftLoop amount n (e - 1) b2

/-- `shiftElemsRight(from, amount)`: the loop runs while `endPtr >= startPtr`,
that is for the slots `m_elemCount - 1` down to `from`. -/
def shiftElemsRight (b : Buffer T) (elemCount fromIdx amount : Nat) : Except Fault (Buffer T) :=
  shiftLoop amount (elemCount - fromIdx) (elemCount - 1) b

/-- The loop of `moveElemsToOtherBuffer`: `n` elements starting at slot `s` of
`src` are move-constructed into `dest` from slot `d` on, each source being
destructed right after its move. -/
def moveLoop : Nat → Nat → Nat → Buffer T → Buffer T → Except Fault (Buffer T × Buffer T)
  | 0, _, _, dest, src => .ok (dest, src)
  | n + 1, d, s, dest, src => do
    let x ← readSlot src s
    let dest1 ← constructAt dest d x
    let src1 ← destroyAt src s
    moveLoop n (d + 1) (s + 1) dest1 src1

/-- `moveElemsToOtherBuffer(destBuffer, srcBufferFrom, srcBufferTo)`; the loop
test is `elem != srcBufferTo`, so a range with `srcBufferTo` before
`srcBufferFrom` walks off the block. -/
def moveElemsToOtherBuffer (dest src : Buffer T) (d srcFrom srcTo : Nat) :
    Except Fault (Buffer T × Buffer T) :=
  if srcTo < srcFrom then .error .undefined_behaviour
  else moveLoop (srcTo - srcFrom) d srcFrom dest src

/-- The loops `for (i < count) new(p++) T(elem)` of `insertAt`. -/
def fillLoop (elem : T) : Nat → Nat → Buffer T → Except Fault (Buffer T)
  | 0, _, b => .ok b
  | n + 1, p, b => do
    let b1 ← constructAt b p elem
    fillLoop elem n (p + 1) b1

/-- The loops `for (elem != elemsRangeEnd) new(p++) T(*elem)` of the range
`insertAt`; the source range is given by the values it holds. -/
def copyLoop : List T → Nat → Buffer T → Except Fault (Buffer T)
  | [], _, b => .ok b
  | x :: xs, p, b => do
    let b1 ← constructAt b p x
    copyLoop xs (p + 1) b1

end Primitives

section Operations
variable {T : Type}

/-- `insertAt(pos, elem, count)`, the repeated-copy insertion; the result pairs
the container with the returned pointer `&m_data[pos]`. -/
def insertAt (ok : Nat → Bool) (v : Vector T) (pos : Nat) (elem : T) (count : Nat) :
    Except Fault (Vector T × Nat) :=
  let allocatedNewMemoryChunk := shouldResizeBuffer v count
  if pos = v.m_elemCount then do
    let v1 ← growIfNeeded ok v count
    let b ← fillLoop elem count v1.m_elemCount v1.block
    pure (v1.withBlock b (v1.m_elemCount + count), pos)
  else if !allocatedNewMemoryChunk then do
    let b1 ← shiftElemsRight v.block v.m_elemCount pos count
    let b2 ← fillLoop elem count pos b1
    pure (v.withBlock b2 (v.m_elemCount + count), pos)
  else do
    let totalElements := (v.m_elemCount + count) % SIZE_MOD
    let nextCapacity := v.m_capacity * 3 / 2
    let actualNewCapacity := max nextCapacity totalElements
    let tmpBuffer ← allocMany ok actualNewCapacity
    let r1 ← moveElemsToOtherBuffer tmpBuffer v.block 0 0 pos
    let tmp1 ← fillLoop elem count pos r1.1
    let r2 ← moveElemsToOtherBuffer tmp1 r1.2 (pos + count) pos v.m_elemCount
    pure (⟨some r2.1, actualNewCapacity, totalElements⟩, pos)

/-- `insertAt(pos, T&& elem)`, the single-move insertion.  The destructor call
on the argument acts on the caller's object and leaves the container alone. -/
def insertAtMove (ok : Nat → Bool) (v : Vector T) (pos : Nat) (elem : T) :
    Except Fault (Vector T × Nat) :=
  let allocatedNewMemoryChunk := shouldResizeBuffer v 1
  if pos = v.m_elemCount then do
    let v1 ← growIfNeeded ok v 1
    let b ← constructAt v1.block v1.m_elemCount elem
    pure (v1.withBlock b (v1.m_elemCount + 1), pos)
  else if !allocatedNewMemoryChunk then do
    let b1 ← shiftElemsRight v.block v.m_elemCount pos 1
    let b2 ← constructAt b1 pos elem
    pure (v.withBlock b2 (v.m_elemCount + 1), pos)
  else do
    let totalElements := (v.m_elemCount + 1) % SIZE_MOD
    let nextCapacity := v.m_capacity * 3 / 2
    let actualNewCapacity := max nextCapacity totalElements
    let tmpBuffer ← allocMany ok actualNewCapacity
    let r1 ← moveElemsToOtherBuffer tmpBuffer v.block 0 0 pos
    let tmp1 ← constructAt r1.1 pos elem
    let r2 ← moveElemsToOtherBuffer tmp1 r1.2 (pos + 1) pos v.m_elemCount
    pure (⟨some r2.1, actualNewCapacity, totalElements⟩, pos)

/-- `insertAt(pos, elemsRangeBegin, elemsRangeEnd)`, the range insertion; `r`
lists the values stored in `[elemsRangeBegin, elemsRangeEnd)`. -/
def insertAtRange (ok : Nat → Bool) (v : Vector T) (pos : Nat) (r : List T) :
    Except Fault (Vector T × Nat) :=
  let elemCount := r.length
  let allocatedNewMemoryChunk := decide (v.m_capacity < (v.m_elemCount + elemCount) % SIZE_MOD)
  if pos = v.m_elemCount then do
    let v1 ← growIfNeeded ok v elemCount
    let b ← copyLoop r v1.m_elemCount v1.block
    pure (v1.withBlock b (v1.m_elemCount + elemCount), pos)
  else if !allocatedNewMemoryChunk then do
    let b1 ← shiftElemsRight v.block v.m_elemCount pos elemCount
    let b2 ← copyLoop r pos b1
    pure (v.withBlock b2 (v.m_elemCount + elemCount), pos)
  else do
    let totalElements := (v.m_elemCount + elemCount) % SIZE_MOD
    let nextCapacity := v.m_capacity * 3 / 2
    let actualNewCapacity := max nextCapacity totalElements
    let tmpBuffer ← allocMany ok actualNewCapacity
    let r1 ← moveElemsToOtherBuffer tmpBuffer v.block 0 0 pos
    let tmp1 ← copyLoop r pos r1.1
    let r2 ← moveElemsToOtherBuffer tmp1 r1.2 (pos + elemCount) pos v.m_elemCount
    pure (⟨some r2.1, actualNewCapacity, totalElements⟩, pos)

/-- The compaction loop of `eraseAt`: `n` elements starting at slot `e` are each
move-constructed `deleteCount` slots to the left and then destructed. -/
def compactLoop (deleteCount : Nat) : Nat → Nat → Buffer T → Except Fault (Buffer T)
  | 0, _, b => .ok b
  | n + 1, e, b => do
    let x ← readSlot b e
    let b1 ← constructAt b (e - deleteCount) x
    let b2 ← destroyAt b1 e
    compactLoop deleteCount n (e + 1) b2

/-- `eraseAt(elemsRangeBegin, elemsRangeEnd)` on slot indices; the result pairs
the container with the returned pointer.  Both loop tests are `!=`, so a range
whose end lies before its start, or beyond `end()`, walks off the block. -/
def eraseAt (v : Vector T) (elemsRangeBegin elemsRangeEnd : Nat) :
    Except Fault (Vector T × Nat) :=
  if elemsRangeEnd < elemsRangeBegin then .error .undefined_behaviour
  else if elemsRangeEnd = v.m_elemCount then do
    let b ← destructLoop (elemsRangeEnd - elemsRangeBegin) elemsRangeBegin v.block
    let n := v.m_elemCount - (elemsRangeEnd - elemsRangeBegin)
    pure (v.withBlock b n, n)
  else do
    let b ← destructLoop (elemsRangeEnd - elemsRangeBegin) elemsRangeBegin v.block
    let deleteCount := elemsRangeEnd - elemsRangeBegin
    if v.m_elemCount < elemsRangeEnd then .error .undefined_behaviour
    else do
      let b1 ← compactLoop deleteCount (v.m_elemCount - elemsRangeEnd) elemsRangeEnd b
      pure (v.withBlock b1 (v.m_elemCount - (elemsRangeEnd - elemsRangeBegin)), elemsRangeEnd)

/-- `Vector()`. -/
def Vector.ctor_default : Vector T := ⟨none, 0, 0⟩

/-- `Vector(size_t capacity)`. -/
def Vector.ctor_capacity (ok : Nat → Bool) (capacity : Nat) : Except Fault (Vector T) := do
  let m_data ← allocMany ok capacity
  pure ⟨some m_data, capacity, 0⟩

/-- The loop `for (value : values) insertElem(value)`. -/
def insertElems (ok : Nat → Bool) : List T → Vector T → Except Fault (Vector T)
  | [], v => .ok v
  | x :: xs, v => do
    let v1 ← insertElem ok v x
    insertElems ok xs v1

/-- `Vector(std::initializer_list<T> values)`. -/
def Vector.ctor_initializer_list (ok : Nat → Bool) (values : List T) :
    Except Fault (Vector T) := do
  let m_data ← allocMany ok values.length
  insertElems ok values ⟨some m_data, values.length, 0⟩

/-- `clear()`. -/
def clear (v : Vector T) : Except Fault (Vector T) :=
  if v.m_elemCount = 0 then .ok v
  else do
    let b ← destructLoop v.m_elemCount 0 v.block
    pure (v.withBlock b 0)

/-- `insert(pos, value)`: the range test guards an `assert` on a string literal,
which never fires, so the call goes straight to `insertAt`. -/
def insert (ok : Nat → Bool) (v : Vector T) (pos : Nat) (value : T) :
    Except Fault (Vector T × Nat) :=
  insertAt ok v pos value 1

/-- `insert(pos, count, value)`. -/
def insert_n (ok : Nat → Bool) (v : Vector T) (pos count : Nat) (value : T) :
    Except Fault (Vector T × Nat) :=
  insertAt ok v pos value count

/-- `insert(pos, T&& value)`. -/
def insert_move (ok : Nat → Bool) (v : Vector T) (pos : Nat) (value : T) :
    Except Fault (Vector T × Nat) :=
  insertAtMove ok v pos value

/-- `insert(pos, first, last)`; `r` lists the values in `[first, last)`. -/
def insert_range (ok : Nat → Bool) (v : Vector T) (pos : Nat) (r : List T) :
    Except Fault (Vector T × Nat) :=
  insertAtRange ok v pos r

/-- `erase(pos)`. -/
def erase (v : Vector T) (pos : Nat) : Except Fault (Vector T × Nat) :=
  eraseAt v pos (pos + 1)

/-- `erase(first, last)`. -/
def erase_range (v : Vector T) (first last : Nat) : Except Fault (Vector T × Nat) :=
  eraseAt v first last

/-- `push_back(const T&)`. -/
def push_back (ok : Nat → Bool) (v : Vector T) (value : T) : Except Fault (Vector T) :=
  insertElem ok v value

/-- `emplace_back(T&&)`. -/
def emplace_back (ok : Nat → Bool) (v : Vector T) (value : T) : Except Fault (Vector T) := do
  let v1 ← growIfNeeded ok v 1
  let b ← constructAt v1.block v1.m_elemCount value
  pure (v1.withBlock b (v1.m_elemCount + 1))

/-- `push_back(T&&)`. -/
def push_back_move (ok : Nat → Bool) (v : Vector T) (value : T) : Except Fault (Vector T) :=
  emplace_back ok v value

/-- `pop_back()`. -/
def pop_back (v : Vector T) : Except Fault (Vector T) :=
  if v.m_elemCount = 0 then .ok v
  else do
    let b ← destroyAt v.block (v.m_elemCount - 1)
    pure (v.withBlock b (v.m_elemCount - 1))

/-- `empty()`. -/
def empty (v : Vector T) : Bool := decide (v.m_elemCount = 0)

/-- `size()`. -/
def size (v : Vector T) : Nat := v.m_elemCount

/-- `capacity()`. -/
def capacity (v : Vector T) : Nat := v.m_capacity

/-- `at(pos)`, read as the value of the element referred to. -/
def «at» (v : Vector T) (pos : Nat) : Except Fault T :=
  if pos ≥ v.m_elemCount then .error .out_of_range else readSlot v.block pos

/-- `operator[](index)`, read as the value of the element referred to. -/
def index (v : Vector T) (i : Nat) : Except Fault T := readSlot v.block i

/-- `front()`. -/
def front (v : Vector T) : Except Fault T :=
  if empty v then .error .out_of_range else readSlot v.block 0

/-- `back()`. -/
def back (v : Vector T) : Except Fault T :=
  if empty v then .error .out_of_range else readSlot v.block (v.m_elemCount - 1)

/-- `reserve(newCapacity)`. -/
def reserve (ok : Nat → Bool) (v : Vector T) (newCapacity : Nat) : Except Fault (Vector T) :=
  growIfNeeded ok v newCapacity

/-- `shrink_to_fit()`. -/
def shrink_to_fit (ok : Nat → Bool) (v : Vector T) : Except Fault (Vector T) :=
  allocateBuffer ok v v.m_elemCount

/-- Reading `n` consecutive slots from `i` on: a walk of an iterator. -/
def readLoop : Nat → Nat → Buffer T → Except Fault (List T)
  | 0, _, _ => .ok []
  | n + 1, i, b => do
    let x ← readSlot b i
    let xs ← readLoop n (i + 1) b
    pure (x :: xs)

/-- The range-based `for` over the container: dereference every position from
`begin()` up to `end()`. -/
def traverse (v : Vector T) : Except Fault (List T) :=
  readLoop v.m_elemCount 0 v.block

end Operations

section Holds
variable {T : Type}

/-- The container holds the sequence `s`: the count is the length of `s`, the
block has `m_capacity` slots, the first slots hold the values of `s` in order
and every further slot is raw; a null `m_data` goes with capacity zero. -/
def Vector.holds (v : Vector T) (s : List T) : Prop :=
  v.m_elemCount = s.length ∧ s.length ≤ v.m_capacity ∧
    match v.m_data with
    | none => v.m_capacity = 0
    | some b => b = s.map some ++ List.replicate (v.m_capacity - s.length) none

instance [DecidableEq T] : (v : Vector T) → (s : List T) → Decidable (v.holds s)
  | ⟨none, c, n⟩, s =>
    inferInstanceAs (Decidable (n = s.length ∧ s.length ≤ c ∧ c = 0))
  | ⟨some b, c, n⟩, s =>
    inferInstanceAs (Decidable (n = s.length ∧ s.length ≤ c ∧
      b = s.map some ++ List.replicate (c - s.length) none))

/-- Calling `push_back` once for every value of a list, in order. -/
def push_back_all (ok : Nat → Bool) : List T → Vector T → Except Fault (Vector T)
  | [], v => .ok v
  | x :: xs, v => do
    let v1 ← push_back ok v x
    push_back_all ok xs v1

end Holds

/-! ## Copy and move between two containers

A container owns its block: the header never stores one block pointer in two
containers (copy allocates a block of its own, move nulls the pointer it took
from), so a second container is a second value.  The address test
`this == &rhs` of copy assignment is the flag `sameObject`. -/

section TwoObjects
variable {T : Type}

/-- Copy assignment `*p = x` of an element: the slot must hold an object. -/
def assignAt (b : Buffer T) (i : Nat) (x : T) : Except Fault (Buffer T) :=
  match b[i]? with
  | some (some _) => .ok (b.set i (some x))
  | _ => .error .undefined_behaviour

/-- `destructElems(from, to)`; the loop test is `startPos != endPos`, so a
range with `to` before `from` walks off the block. -/
def destructElems (b : Buffer T) (fromIdx toIdx : Nat) : Except Fault (Buffer T) :=
  if toIdx < fromIdx then .error .undefined_behaviour
  else destructLoop (toIdx - fromIdx) fromIdx b

/-- The loop of the copy constructor: copy-construct slot `i` of the new block
from slot `i` of the source, for `n` consecutive `i`. -/
def copyConstructLoop : Nat → Nat → Buffer T → Buffer T → Except Fault (Buffer T)
  | 0, _, _, dst => .ok dst
  | n + 1, i, src, dst => do
    let x ← readSlot src i
    let dst1 ← constructAt dst i x
    copyConstructLoop n (i + 1) src dst1

/-- `Vector(const Vector<T>& other)` with every element copy succeeding. -/
def Vector.ctor_copy (ok : Nat → Bool) (other : Vector T) : Except Fault (Vector T) := do
  let bufferStart ← allocMany ok other.m_capacity
  let b ← copyConstructLoop other.m_elemCount 0 other.block bufferStart
  pure ⟨some b, other.m_capacity, other.m_elemCount⟩

/-- `Vector(Vector<T>&& rhs)`: the constructed container and `rhs` as the
constructor leaves it. -/
def Vector.ctor_move (rhs : Vector T) : Vector T × Vector T :=
  (⟨rhs.m_data, rhs.m_capacity, rhs.m_elemCount⟩, ⟨none, rhs.m_capacity, 0⟩)

/-- `operator=(Vector<T>&& rhs)`: the target and `rhs` as the assignment leaves
them.  With `sameObject` the two are one container, whose last three writes
reset it. -/
def move_assign (sameObject : Bool) (self rhs : Vector T) : Except Fault (Vector T × Vector T) := do
  let _ ← destructElems self.block 0 self.m_elemCount
  if sameObject then pure (⟨none, 0, 0⟩, ⟨none, 0, 0⟩)
  else pure (⟨rhs.m_data, rhs.m_capacity, rhs.m_elemCount⟩, ⟨none, 0, 0⟩)

/-- How a member function leaves: by returning, by a C++ exception, or with no
defined behaviour.  The first two carry the container as the call leaves it. -/
inductive Exit (T : Type) (α : Type) where
  | returned (value : α) (self : Vector T)
  | thrown (fault : Fault) (self : Vector T)
  | undefined

/-- A member function as a transformer of its container. -/
def Op (T : Type) (α : Type) : Type := Vector T → Exit T α

/-- Sequencing of statements: an exception or undefined behaviour ends the run
with the container as it is at that point. -/
def Op.bind {α β : Type} (m : Op T α) (f : α → Op T β) : Op T β := fun s =>
  match m s with
  | .returned a s1 => f a s1
  | .thrown e s1 => .thrown e s1
  | .undefined => .undefined

/-- A statement that returns a value and writes nothing. -/
def Op.pure {α : Type} (a : α) : Op T α := fun s => .returned a s

instance : Monad (Op T) where
  pure := Op.pure
  bind := Op.bind

/-- Read the data members. -/
def Op.self : Op T (Vector T) := fun s => .returned s s

/-- Write the data members. -/
def Op.assign (v : Vector T) : Op T Unit := fun _ => .returned () v

/-- Slot-level code, which fails by undefined behaviour only. -/
def Op.slots {α : Type} (r : Except Fault α) : Op T α := fun s =>
  match r with
  | .ok a => .returned a s
  | .error _ => .undefined

/-- `allocMany` inside a member function: `bad_alloc` is thrown with the
container as it is at the call. -/
def allocMany_op (ok : Nat → Bool) (elemCount : Nat) : Op T (Buffer T) := fun s =>
  if ok elemCount then .returned (List.replicate elemCount none) s else .thrown .bad_alloc s

/-- The loop of copy assignment: source element `i` is copy-assigned to slot
`i` when `m_elemCount >= elemCount && m_capacity >= rhs.m_capacity` holds of the
target's members at that point, and copy-constructed into it otherwise. -/
def copyAssignLoop (curCount curCap rhsCap : Nat) :
    Nat → Nat → Buffer T → Buffer T → Except Fault (Buffer T)
  | 0, _, _, dst => .ok dst
  | n + 1, i, src, dst => do
    let x ← readSlot src i
    let dst1 ← if decide (curCount ≥ i) && decide (curCap ≥ rhsCap) then assignAt dst i x
      else constructAt dst i x
    copyAssignLoop curCount curCap rhsCap n (i + 1) src dst1

/-- `operator=(const Vector<T>& rhs)` with every element copy succeeding. -/
def copy_assign_op (ok : Nat → Bool) (sameObject : Bool) (rhs : Vector T) : Op T Unit := do
  if sameObject then
    Op.pure ()
  else
    let v ← Op.self
    if v.m_capacity ≥ rhs.m_capacity then
      if v.m_elemCount > rhs.m_elemCount then
        let b ← Op.slots (destructElems v.block rhs.m_elemCount v.m_elemCount)
        Op.assign (v.withBlock b v.m_elemCount)
      else
        Op.pure ()
      let v1 ← Op.self
      let b ← Op.slots (copyAssignLoop v1.m_elemCount v1.m_capacity rhs.m_capacity
        rhs.m_elemCount 0 rhs.block v1.block)
      Op.assign (v1.withBlock b rhs.m_elemCount)
    else
      let _ ← Op.slots (destructElems v.block 0 v.m_elemCount)
      Op.assign ⟨none, 0, 0⟩
      let bufferStart ← allocMany_op ok rhs.m_capacity
      let v1 ← Op.self
      let b ← Op.slots (copyAssignLoop v1.m_elemCount v1.m_capacity rhs.m_capacity
        rhs.m_elemCount 0 rhs.block bufferStart)
      Op.assign ⟨some b, rhs.m_capacity, rhs.m_elemCount⟩

/-- The test `m_elemCount >= elemCount && m_capacity >= rhs.m_capacity` by which
the loop of copy assignment chooses copy assignment over copy construction for
the source element of index `elemCount`. -/
def copyAssignTest (m_elemCount m_capacity rhsCapacity elemCount : Nat) : Bool :=
  decide (m_elemCount ≥ elemCount) && decide (m_capacity ≥ rhsCapacity)

/-- The locals of the copy constructor as control leaves its `try` block:
`bufferStart` and `elemCount`, the new block, and whether an element copy threw. -/
structure CopyLocals (T : Type) where
  bufferStart : Nat
  elemCount : Nat
  block : Buffer T
  caught : Bool
  deriving DecidableEq, Repr

/-- How the copy constructor leaves when an element copy may throw: with the
constructed container, by `bad_alloc` from `allocMany`, by rethrowing the
exception of the element copy (carrying the new block as the handler leaves it
and the pointer the handler passes to `free`), or with no defined behaviour. -/
inductive CopyExit (T : Type) where
  | constructed (self : Vector T)
  | bad_alloc
  | rethrown (newBlock : Buffer T) (freed : Option (Buffer T))
  | undefined
  deriving DecidableEq, Repr

/-- The `try` block of the copy constructor, `throws i` telling whether the copy
construction of source element `i` throws.  In `new(bufferStart++) T(*elem)` the
pointer is advanced before the constructor runs, so a throwing copy leaves
`bufferStart` one past the slot it was building and `elemCount` not counted up. -/
def copyTryLoop (throws : Nat → Bool) :
    Nat → Nat → CopyLocals T → Buffer T → Except Fault (CopyLocals T)
  | 0, _, st, _ => .ok st
  | n + 1, elem, st, src =>
    if throws elem then .ok ⟨st.bufferStart + 1, st.elemCount, st.block, true⟩
    else do
      let x ← readSlot src elem
      let b ← constructAt st.block st.bufferStart x
      copyTryLoop throws n (elem + 1) ⟨st.bufferStart + 1, st.elemCount + 1, b, false⟩ src

/-- The slots on which the handler of the copy constructor calls `~T()`: its
loop runs `elem` from `bufferStart` up to `bufferStart + elemCount`. -/
def cleanupSlots (st : CopyLocals T) : List Nat := List.range' st.bufferStart st.elemCount

/-- `Vector(const Vector<T>& other)` when an element copy may throw.  The object
under construction has its members at their default initialisers, so the
`free(m_data)` of the handler is handed the null pointer. -/
def Vector.ctor_copy_throwing (ok : Nat → Bool) (throws : Nat → Bool) (other : Vector T) :
    CopyExit T :=
  let self : Vector T := ⟨none, 0, 0⟩
  match allocMany ok other.m_capacity with
  | .error _ => .bad_alloc
  | .ok bufferStart =>
    match copyTryLoop throws other.m_elemCount 0 ⟨0, 0, bufferStart, false⟩ other.block with
    | .error _ => .undefined
    | .ok st =>
      if st.caught then
        match destructLoop st.elemCount st.bufferStart st.block with
        | .error _ => .undefined
        | .ok b => .rethrown b self.m_data
      else .constructed ⟨some st.block, other.m_capacity, st.elemCount⟩

end TwoObjects

/-! ## The allocating members as container transformers

The members that request memory, written statement by statement over the data
members, so that an exception shows the container as it is when thrown. -/

section Transformers
variable {T : Type}

/-- `allocateBuffer(bufferSize)`. -/
def allocateBuffer_op (ok : Nat → Bool) (bufferSize : Nat) : Op T Unit := do
  let tmpBuffer ← allocMany_op ok bufferSize
  let v ← Op.self
  let r ← Op.slots (allocateBufferLoop v.m_elemCount 0 v.block tmpBuffer)
  Op.assign ⟨some r.2, bufferSize, v.m_elemCount⟩

/-- `growBuffer(elemCount)`. -/
def growBuffer_op (ok : Nat → Bool) (elemCount : Nat) : Op T Unit := do
  let v ← Op.self
  let nextCapacity := v.m_capacity * 3 / 2
  let actualNewCapacity := max nextCapacity ((v.m_elemCount + elemCount) % SIZE_MOD)
  allocateBuffer_op ok actualNewCapacity

/-- `growIfNeeded(minRequiredCapacity)`. -/
def growIfNeeded_op (ok : Nat → Bool) (minRequiredCapacity : Nat) : Op T Unit := do
  let v ← Op.self
  if shouldResizeBuffer v minRequiredCapacity then growBuffer_op ok minRequiredCapacity
  else Op.pure ()

/-- `insertElem(value)`, which is `push_back(const T&)`. -/
def insertElem_op (ok : Nat → Bool) (value : T) : Op T Unit := do
  growIfNeeded_op ok 1
  let v ← Op.self
  let b ← Op.slots (constructAt v.block v.m_elemCount value)
  Op.assign (v.withBlock b (v.m_elemCount + 1))

/-- `emplace_back(T&&)`, which is `push_back(T&&)`. -/
def emplace_back_op (ok : Nat → Bool) (value : T) : Op T Unit := do
  growIfNeeded_op ok 1
  let v ← Op.self
  let b ← Op.slots (constructAt v.block v.m_elemCount value)
  Op.assign (v.withBlock b (v.m_elemCount + 1))

/-- `reserve(newCapacity)`. -/
def reserve_op (ok : Nat → Bool) (newCapacity : Nat) : Op T Unit :=
  growIfNeeded_op ok newCapacity

/-- `shrink_to_fit()`. -/
def shrink_to_fit_op (ok : Nat → Bool) : Op T Unit := do
  let v ← Op.self
  allocateBuffer_op ok v.m_elemCount

/-- `insertAt(pos, elem, count)`, which is `insert(pos, count, value)` and, with
`count = 1`, `insert(pos, value)`. -/
def insertAt_op (ok : Nat → Bool) (pos : Nat) (elem : T) (count : Nat) : Op T Nat := do
  let v ← Op.self
  let allocatedNewMemoryChunk := shouldResizeBuffer v count
  if pos = v.m_elemCount then
    growIfNeeded_op ok count
    let v1 ← Op.self
    let b ← Op.slots (fillLoop elem count v1.m_elemCount v1.block)
    Op.assign (v1.withBlock b (v1.m_elemCount + count))
    Op.pure pos
  else if !allocatedNewMemoryChunk then
    let b1 ← Op.slots (shiftElemsRight v.block v.m_elemCount pos count)
    let b2 ← Op.slots (fillLoop elem count pos b1)
    Op.assign (v.withBlock b2 (v.m_elemCount + count))
    Op.pure pos
  else
    let totalElements := (v.m_elemCount + count) % SIZE_MOD
    let nextCapacity := v.m_capacity * 3 / 2
    let actualNewCapacity := max nextCapacity totalElements
    let tmpBuffer ← allocMany_op ok actualNewCapacity
    let r1 ← Op.slots (moveElemsToOtherBuffer tmpBuffer v.block 0 0 pos)
    let tmp1 ← Op.slots (fillLoop elem count pos r1.1)
    let r2 ← Op.slots (moveElemsToOtherBuffer tmp1 r1.2 (pos + count) pos v.m_elemCount)
    Op.assign ⟨some r2.1, actualNewCapacity, totalElements⟩
    Op.pure pos

/-- `insertAt(pos, T&& elem)`, which is `insert(pos, T&& value)`. -/
def insertAtMove_op (ok : Nat → Bool) (pos : Nat) (elem : T) : Op T Nat := do
  let v ← Op.self
  let allocatedNewMemoryChunk := shouldResizeBuffer v 1
  if pos = v.m_elemCount then
    growIfNeeded_op ok 1
    let v1 ← Op.self
    let b ← Op.slots (constructAt v1.block v1.m_elemCount elem)
    Op.assign (v1.withBlock b (v1.m_elemCount + 1))
    Op.pure pos
  else if !allocatedNewMemoryChunk then
    let b1 ← Op.slots (shiftElemsRight v.block v.m_elemCount pos 1)
    let b2 ← Op.slots (constructAt b1 pos elem)
    Op.assign (v.withBlock b2 (v.m_elemCount + 1))
    Op.pure pos
  else
    let totalElements := (v.m_elemCount + 1) % SIZE_MOD
    let nextCapacity := v.m_capacity * 3 / 2
    let actualNewCapacity := max nextCapacity totalElements
    let tmpBuffer ← allocMany_op ok actualNewCapacity
    let r1 ← Op.slots (moveElemsToOtherBuffer tmpBuffer v.block 0 0 pos)
    let tmp1 ← Op.slots (constructAt r1.1 pos elem)
    let r2 ← Op.slots (moveElemsToOtherBuffer tmp1 r1.2 (pos + 1) pos v.m_elemCount)
    Op.assign ⟨some r2.1, actualNewCapacity, totalElements⟩
    Op.pure pos

/-- `insertAt(pos, elemsRangeBegin, elemsRangeEnd)`, which is
`insert(pos, first, last)`. -/
def insertAtRange_op (ok : Nat → Bool) (pos : Nat) (r : List T) : Op T Nat := do
  let v ← Op.self
  let elemCount := r.length
  let allocatedNewMemoryChunk := decide (v.m_capacity < (v.m_elemCount + elemCount) % SIZE_MOD)
  if pos = v.m_elemCount then
    growIfNeeded_op ok elemCount
    let v1 ← Op.self
    let b ← Op.slots (copyLoop r v1.m_elemCount v1.block)
    Op.assign (v1.withBlock b (v1.m_elemCount + elemCount))
    Op.pure pos
  else if !allocatedNewMemoryChunk then
    let b1 ← Op.slots (shiftElemsRight v.block v.m_elemCount pos elemCount)
    let b2 ← Op.slots (copyLoop r pos b1)
    Op.assign (v.withBlock b2 (v.m_elemCount + elemCount))
    Op.pure pos
  else
    let totalElements := (v.m_elemCount + elemCount) % SIZE_MOD
    let nextCapacity := v.m_capacity * 3 / 2
    let actualNewCapacity := max nextCapacity totalElements
    let tmpBuffer ← allocMany_op ok actualNewCapacity
    let r1 ← Op.slots (moveElemsToOtherBuffer tmpBuffer v.block 0 0 pos)
    let tmp1 ← Op.slots (copyLoop r pos r1.1)
    let r2 ← Op.slots (moveElemsToOtherBuffer tmp1 r1.2 (pos + elemCount) pos v.m_elemCount)
    Op.assign ⟨some r2.1, actualNewCapacity, totalElements⟩
    Op.pure pos

/-- A transformer that never leaves by an exception. -/
def Op.NoThrow {α : Type} (m : Op T α) : Prop :=
  ∀ (v v1 : Vector T) (e : Fault), m v ≠ .thrown e v1

/-- An exit read as a plain result: the container after a normal return, the
fault otherwise. -/
def Exit.result {α : Type} : Exit T α → Except Fault (Vector T × α)
  | .returned a s => .ok (s, a)
  | .thrown e _ => .error e
  | .undefined => .error .undefined_behaviour

end Transformers

/-! ## Invariants, reachability and cost -/

section Invariants
variable {T : Type}

/-- Whether slot `j` of a block holds a constructed object. -/
def slotLive (b : Buffer T) (j : Nat) : Bool :=
  match b[j]? with
  | some (some _) => true
  | _ => false

/-- Invariant 2 of the data model: of the `m_capacity` slots exactly those below
`m_elemCount` are constructed. -/
def Vector.liveSlotsInvariant (v : Vector T) : Prop :=
  ∀ j, j < v.m_capacity → slotLive v.block j = decide (j < v.m_elemCount)

instance (v : Vector T) : Decidable v.liveSlotsInvariant :=
  inferInstanceAs (Decidable (∀ j, j < v.m_capacity → _))

/-- Invariant 1 of the data model, `m_elemCount <= m_capacity`, together with
the fact that carries it through the operations: the block has no more slots
than `m_capacity` says. -/
def Vector.bounded (v : Vector T) : Prop :=
  v.m_elemCount ≤ v.m_capacity ∧ v.block.length ≤ v.m_capacity

/-- One call of a public mutating member on one container, with any arguments,
that returns normally. -/
inductive Step : Vector T → Vector T → Prop where
  | push_back (ok : Nat → Bool) (v v1 : Vector T) (x : T) :
      push_back ok v x = .ok v1 → Step v v1
  | push_back_move (ok : Nat → Bool) (v v1 : Vector T) (x : T) :
      push_back_move ok v x = .ok v1 → Step v v1
  | emplace_back (ok : Nat → Bool) (v v1 : Vector T) (x : T) :
      emplace_back ok v x = .ok v1 → Step v v1
  | pop_back (v v1 : Vector T) : pop_back v = .ok v1 → Step v v1
  | insert (ok : Nat → Bool) (v v1 : Vector T) (pos p : Nat) (x : T) :
      insert ok v pos x = .ok (v1, p) → Step v v1
  | insert_n (ok : Nat → Bool) (v v1 : Vector T) (pos k p : Nat) (x : T) :
      insert_n ok v pos k x = .ok (v1, p) → Step v v1
  | insert_move (ok : Nat → Bool) (v v1 : Vector T) (pos p : Nat) (x : T) :
      insert_move ok v pos x = .ok (v1, p) → Step v v1
  | insert_range (ok : Nat → Bool) (v v1 : Vector T) (pos p : Nat) (r : List T) :
      insert_range ok v pos r = .ok (v1, p) → Step v v1
  | erase (v v1 : Vector T) (pos p : Nat) : erase v pos = .ok (v1, p) → Step v v1
  | erase_range (v v1 : Vector T) (first last p : Nat) :
      erase_range v first last = .ok (v1, p) → Step v v1
  | clear (v v1 : Vector T) : clear v = .ok v1 → Step v v1
  | reserve (ok : Nat → Bool) (v v1 : Vector T) (n : Nat) : reserve ok v n = .ok v1 → Step v v1
  | shrink_to_fit (ok : Nat → Bool) (v v1 : Vector T) :
      shrink_to_fit ok v = .ok v1 → Step v v1

/-- The containers a program can hold: what the constructors return and what
the public operations leave, the source of a move and the target of a copy
assignment that threw included. -/
inductive Reachable : Vector T → Prop where
  | ctor_default : Reachable Vector.ctor_default
  | ctor_capacity (ok : Nat → Bool) (n : Nat) (v : Vector T) :
      Vector.ctor_capacity ok n = .ok v → Reachable v
  | ctor_initializer_list (ok : Nat → Bool) (vs : List T) (v : Vector T) :
      Vector.ctor_initializer_list ok vs = .ok v → Reachable v
  | step (v v1 : Vector T) : Reachable v → Step v v1 → Reachable v1
  | ctor_copy (ok : Nat → Bool) (other v : Vector T) :
      Reachable other → Vector.ctor_copy ok other = .ok v → Reachable v
  | ctor_move_target (rhs : Vector T) : Reachable rhs → Reachable (Vector.ctor_move rhs).1
  | ctor_move_source (rhs : Vector T) : Reachable rhs → Reachable (Vector.ctor_move rhs).2
  | copy_assign_returned (ok : Nat → Bool) (sameObject : Bool) (self rhs v1 : Vector T) :
      Reachable self → Reachable rhs →
      copy_assign_op ok sameObject rhs self = .returned () v1 → Reachable v1
  | copy_assign_thrown (ok : Nat → Bool) (sameObject : Bool) (self rhs v1 : Vector T)
      (e : Fault) : Reachable self → Reachable rhs →
      copy_assign_op ok sameObject rhs self = .thrown e v1 → Reachable v1
  | move_assign_target (sameObject : Bool) (self rhs : Vector T) (r : Vector T × Vector T) :
      Reachable self → Reachable rhs → move_assign sameObject self rhs = .ok r → Reachable r.1
  | move_assign_source (sameObject : Bool) (self rhs : Vector T) (r : Vector T × Vector T) :
      Reachable self → Reachable rhs → move_assign sameObject self rhs = .ok r → Reachable r.2

/-- Element relocations (move-construct and destruct) made by the loop of
`allocateBuffer`, which runs once per live element. -/
def allocateBuffer_relocations (v : Vector T) : Nat := v.m_elemCount

/-- Element relocations made by `growIfNeeded`: those of `allocateBuffer` when
it reallocates, none otherwise. -/
def growIfNeeded_relocations (v : Vector T) (minRequiredCapacity : Nat) : Nat :=
  if shouldResizeBuffer v minRequiredCapacity then allocateBuffer_relocations v else 0

/-- Element relocations made over a run of `push_back` calls; a call that
throws relocates nothing and ends the run. -/
def push_back_all_relocations (ok : Nat → Bool) : List T → Vector T → Nat
  | [], _ => 0
  | x :: xs, v =>
    match push_back ok v x with
    | .ok v1 => growIfNeeded_relocations v 1 + push_back_all_relocations ok xs v1
    | .error _ => 0

end Invariants

/-! ## The growing members with machine arithmetic and reference arguments

The definitions above take three liberties with the growing members: the block
`allocMany` returns has as many slots as were asked for, although the byte count
`elemCount * elemSize` handed to `malloc` is a `size_t` product; the product
`m_capacity * growthFactor` is taken exactly, although it is a `double` product
converted to `size_t`; and a `const T&` parameter is taken by value, although
it is read only after the elements have been relocated.  The definitions of
`Exact` take none of them.  Their allocator `ok` answers for a byte count, and
`sizeofT` is `sizeof(T)`. -/

section ExactDefs
variable {T : Type}

/-- What a `const T&` parameter is bound to: an object outside the container's
block, or the element in slot `i` of that block, as in `v.push_back(v[0])`. -/
inductive Arg (T : Type) where
  | object (x : T)
  | element (i : Nat)
  deriving DecidableEq, Repr

/-- The value read through a `const T&` parameter, `b` being the block the
reference points into when it points into the container. -/
def readArg (b : Buffer T) : Arg T → Except Fault T
  | .object x => .ok x
  | .element i => readSlot b i

/-- The integer nearest to `n / d`, the even one of two equally near. -/
def roundNearestEven (n d : Nat) : Nat :=
  let q := n / d
  let r := n % d
  if 2 * r < d then q else if d < 2 * r then q + 1 else if q % 2 = 0 then q else q + 1

/-- By how many bits `n` is longer than the 53 bits of a `double` significand;
`fuel` bounds the count and `n` itself is enough of it. -/
def excessBits (n : Nat) : Nat → Nat
  | 0 => 0
  | fuel + 1 => if n < 2 ^ 53 then 0 else excessBits (n / 2) fuel + 1

/-- Rounding to a `double`, to nearest and ties to even, of a number that is a
power of two times the integer `n`: the result is the same power of two times
`roundSignificand n`. -/
def roundSignificand (n : Nat) : Nat :=
  if n < 2 ^ 53 then n
  else roundNearestEven n (2 ^ excessBits n n) * 2 ^ excessBits n n

/-- The value of `m_capacity * growthFactor` converted back to an integer:
`m_capacity` is rounded to a `double`, the product with 1.5 is three of its
halves rounded to a `double`, and the conversion drops the fraction. -/
def growthProduct (m_capacity : Nat) : Nat :=
  roundSignificand (3 * roundSignificand m_capacity) / 2

/-- `allocMany(elemCount, elemSize)`: `malloc` is handed the `size_t` product
`elemCount * elemSize`, and the block it returns has room for as many whole
elements as that many bytes hold. -/
def Exact.allocMany (ok : Nat → Bool) (elemCount elemSize : Nat) : Except Fault (Buffer T) :=
  let bytes := (elemCount * elemSize) % SIZE_MOD
  if ok bytes then .ok (List.replicate (bytes / elemSize) none) else .error .bad_alloc

/-- `allocateBuffer(bufferSize)`. -/
def Exact.allocateBuffer (ok : Nat → Bool) (sizeofT : Nat) (v : Vector T) (bufferSize : Nat) :
    Except Fault (Vector T) := do
  let tmpBuffer ← Exact.allocMany ok bufferSize sizeofT
  let r ← allocateBufferLoop v.m_elemCount 0 v.block tmpBuffer
  pure ⟨some r.2, bufferSize, v.m_elemCount⟩

/-- `growBuffer(elemCount)`; the conversion of a `double` of `2 ^ 64` or more to
`size_t` has no defined behaviour. -/
def Exact.growBuffer (ok : Nat → Bool) (sizeofT : Nat) (v : Vector T) (elemCount : Nat) :
    Except Fault (Vector T) :=
  if growthProduct v.m_capacity < SIZE_MOD then
    let nextCapacity := growthProduct v.m_capacity
    let actualNewCapacity := max nextCapacity ((v.m_elemCount + elemCount) % SIZE_MOD)
    Exact.allocateBuffer ok sizeofT v actualNewCapacity
  else .error .undefined_behaviour

/-- `growIfNeeded(minRequiredCapacity)`. -/
def Exact.growIfNeeded (ok : Nat → Bool) (sizeofT : Nat) (v : Vector T)
    (minRequiredCapacity : Nat) : Except Fault (Vector T) :=
  if shouldResizeBuffer v minRequiredCapacity then
    Exact.growBuffer ok sizeofT v minRequiredCapacity
  else .ok v

/-- `insertElem(const T& value)`.  The reference is read after `growIfNeeded`:
when that call has reallocated, the block the reference may point into has been
emptied and freed, and addresses no element any more. -/
def Exact.insertElem (ok : Nat → Bool) (sizeofT : Nat) (v : Vector T) (value : Arg T) :
    Except Fault (Vector T) := do
  let v1 ← Exact.growIfNeeded ok sizeofT v 1
  let x ← readArg (if shouldResizeBuffer v 1 then [] else v1.block) value
  let b ← constructAt v1.block v1.m_elemCount x
  pure (v1.withBlock b (v1.m_elemCount + 1))

/-- `push_back(const T& value)`. -/
def Exact.push_back (ok : Nat → Bool) (sizeofT : Nat) (v : Vector T) (value : Arg T) :
    Except Fault (Vector T) :=
  Exact.insertElem ok sizeofT v value

/-- `reserve(newCapacity)`. -/
def Exact.reserve (ok : Nat → Bool) (sizeofT : Nat) (v : Vector T) (newCapacity : Nat) :
    Except Fault (Vector T) :=
  Exact.growIfNeeded ok sizeofT v newCapacity

/-- The loops `for (i < count) new(p++) T(elem)` of `insertAt`, `elem` being read
on every turn from the block `src`. -/
def fillLoopFrom (elem : Arg T) (src : Buffer T) : Nat → Nat → Buffer T → Except Fault (Buffer T)
  | 0, _, b => .ok b
  | n + 1, p, b => do
    let x ← readArg src elem
    let b1 ← constructAt b p x
    fillLoopFrom elem src n (p + 1) b1

/-- The same loops when the block that is filled is the one `elem` may point
into. -/
def fillLoopOwn (elem : Arg T) : Nat → Nat → Buffer T → Except Fault (Buffer T)
  | 0, _, b => .ok b
  | n + 1, p, b => do
    let x ← readArg b elem
    let b1 ← constructAt b p x
    fillLoopOwn elem n (p + 1) b1

/-- `insertAt(pos, const T& elem, count)`.  In the appending branch `elem` is
read after `growIfNeeded`; in the in-place branch after `shiftElemsRight`, from
the block being filled; in the reallocating branch from the old block, after
the elements before `pos` have been moved out of it. -/
def Exact.insertAt (ok : Nat → Bool) (sizeofT : Nat) (v : Vector T) (pos : Nat) (elem : Arg T)
    (count : Nat) : Except Fault (Vector T × Nat) :=
  let allocatedNewMemoryChunk := shouldResizeBuffer v count
  if pos = v.m_elemCount then do
    let v1 ← Exact.growIfNeeded ok sizeofT v count
    let b ← if allocatedNewMemoryChunk then fillLoopFrom elem [] count v1.m_elemCount v1.block
      else fillLoopOwn elem count v1.m_elemCount v1.block
    pure (v1.withBlock b (v1.m_elemCount + count), pos)
  else if !allocatedNewMemoryChunk then do
    let b1 ← shiftElemsRight v.block v.m_elemCount pos count
    let b2 ← fillLoopOwn elem count pos b1
    pure (v.withBlock b2 (v.m_elemCount + count), pos)
  else
    let totalElements := (v.m_elemCount + count) % SIZE_MOD
    if growthProduct v.m_capacity < SIZE_MOD then do
      let nextCapacity := growthProduct v.m_capacity
      let actualNewCapacity := max nextCapacity totalElements
      let tmpBuffer ← Exact.allocMany ok actualNewCapacity sizeofT
      let r1 ← moveElemsToOtherBuffer tmpBuffer v.block 0 0 pos
      let tmp1 ← fillLoopFrom elem r1.2 count pos r1.1
      let r2 ← moveElemsToOtherBuffer tmp1 r1.2 (pos + count) pos v.m_elemCount
      pure (⟨some r2.1, actualNewCapacity, totalElements⟩, pos)
    else .error .undefined_behaviour

/-- `insert(pos, value)`. -/
def Exact.insert (ok : Nat → Bool) (sizeofT : Nat) (v : Vector T) (pos : Nat) (value : Arg T) :
    Except Fault (Vector T × Nat) :=
  Exact.insertAt ok sizeofT v pos value 1

/-- `insert(pos, count, value)`. -/
def Exact.insert_n (ok : Nat → Bool) (sizeofT : Nat) (v : Vector T) (pos count : Nat)
    (value : Arg T) : Except Fault (Vector T × Nat) :=
  Exact.insertAt ok sizeofT v pos value count

/-- Calling `push_back` once for every argument of a list, in order. -/
def Exact.push_back_all (ok : Nat → Bool) (sizeofT : Nat) :
    List (Arg T) → Vector T → Except Fault (Vector T)
  | [], v => .ok v
  | a :: as, v => do
    let v1 ← Exact.push_back ok sizeofT v a
    Exact.push_back_all ok sizeofT as v1

/-- The value an argument stands for in a container holding `s`. -/
def Arg.value (s : List T) : Arg T → Option T
  | .object x => some x
  | .element i => s[i]?

/-- The values a run of `push_back` calls is to append to a container holding
`s`, each argument standing for its value at the time of its call. -/
def appendedValues : List T → List (Arg T) → Option (List T)
  | _, [] => some []
  | s, a :: as =>
    match a.value s with
    | some x => (appendedValues (s ++ [x]) as).map (fun xs => x :: xs)
    | none => none

end ExactDefs

/-! ## Containers in one heap

Two containers are two sets of data members whose `m_data` are addresses in one
heap.  A member function dereferences the `m_data` of its object and the
pointers it got from `malloc`, and nothing else. -/

section HeapDefs
variable {T : Type}

/-- The heap: the blocks `malloc` has returned, by address; an entry is `none`
once its block has been freed. -/
abbrev Heap (T : Type) := List (Option (Buffer T))

/-- The data members of a container as they lie in memory. -/
structure Object where
  m_data : Option Nat
  m_capacity : Nat
  m_elemCount : Nat
  deriving DecidableEq, Repr

/-- The block a pointer addresses, if any. -/
def Heap.deref (h : Heap T) : Option Nat → Option (Buffer T)
  | none => none
  | some a => (h[a]?).join

/-- The container an object is in a heap: its members, with the block `m_data`
addresses. -/
def Heap.load (h : Heap T) (o : Object) : Vector T :=
  ⟨h.deref o.m_data, o.m_capacity, o.m_elemCount⟩

/-- The call `malloc` for a block of that many slots: the block lies at an
address no block has had. -/
def Heap.malloc (h : Heap T) (slots : Nat) : Heap T × Nat :=
  (h ++ [some (List.replicate slots none)], h.length)

/-- The heap and the members after a member function ran on the object `o` and
left the container `v1`: the block of `v1` takes the place of the block of `o`
(a reallocation shows as a new content), a block `malloc` gave to an object
that had none lies at a new address, and a block the object gave up is gone. -/
def Heap.store (h : Heap T) (o : Object) (v1 : Vector T) : Heap T × Object :=
  match v1.m_data, o.m_data with
  | some b, some a => (h.set a (some b), ⟨some a, v1.m_capacity, v1.m_elemCount⟩)
  | some b, none => (h ++ [some b], ⟨some h.length, v1.m_capacity, v1.m_elemCount⟩)
  | none, some a => (h.set a none, ⟨none, v1.m_capacity, v1.m_elemCount⟩)
  | none, none => (h, ⟨none, v1.m_capacity, v1.m_elemCount⟩)

/-- `Vector(const Vector<T>& other)` in a heap: the block comes from `malloc`,
the elements are copy-constructed into it from the block of `other`, and the
new object points to it. -/
def Heap.ctor_copy (ok : Nat → Bool) (h : Heap T) (other : Object) :
    Except Fault (Heap T × Object) :=
  if ok other.m_capacity then
    let r := h.malloc other.m_capacity
    match copyConstructLoop other.m_elemCount 0 ((r.1.deref other.m_data).getD [])
        (List.replicate other.m_capacity none) with
    | .ok b => .ok (r.1.set r.2 (some b), ⟨some r.2, other.m_capacity, other.m_elemCount⟩)
    | .error e => .error e
  else .error .bad_alloc

/-- One call on the object `o` that changes it: a public mutating member that
returns, or a copy assignment to it from any other container, returning or
throwing. -/
inductive HeapStep : Heap T → Object → Heap T → Object → Prop where
  | member (h : Heap T) (o : Object) (v1 : Vector T) :
      Step (h.load o) v1 → HeapStep h o (h.store o v1).1 (h.store o v1).2
  | copy_assign (ok : Nat → Bool) (h : Heap T) (o : Object) (rhs v1 : Vector T) :
      copy_assign_op ok false rhs (h.load o) = .returned () v1 →
      HeapStep h o (h.store o v1).1 (h.store o v1).2
  | copy_assign_thrown (ok : Nat → Bool) (h : Heap T) (o : Object) (rhs v1 : Vector T)
      (e : Fault) : copy_assign_op ok false rhs (h.load o) = .thrown e v1 →
      HeapStep h o (h.store o v1).1 (h.store o v1).2

/-- Any number of such calls, one after the other. -/
inductive HeapSteps : Heap T → Object → Heap T → Object → Prop where
  | refl (h : Heap T) (o : Object) : HeapSteps h o h o
  | tail (h h1 h2 : Heap T) (o o1 o2 : Object) :
      HeapSteps h o h1 o1 → HeapStep h1 o1 h2 o2 → HeapSteps h o h2 o2

end HeapDefs

/-! ## Slot-level lemmas -/

section SlotLemmas
variable {T : Type}

theorem readSlot_of_live {b : Buffer T} {i : Nat} {x : T} (h : b[i]? = some (some x)) :
    readSlot b i = .ok x := by
  simp [readSlot, h]

theorem constructAt_of_lt {b : Buffer T} {i : Nat} (x : T) (h : i < b.length) :
    constructAt b i x = .ok (b.set i (some x)) := by
  simp [constructAt, h]

theorem destroyAt_of_live {b : Buffer T} {i : Nat} {x : T} (h : b[i]? = some (some x)) :
    destroyAt b i = .ok (b.set i none) := by
  simp [destroyAt, h]

theorem readSlot_ne_out_of_range (b : Buffer T) (i : Nat) :
    readSlot b i ≠ .error .out_of_range := by
  unfold readSlot
  split <;> simp

theorem lt_length_of_live {b : Buffer T} {i : Nat} {x : T} (h : b[i]? = some (some x)) :
    i < b.length := by
  by_contra hc
  rw [List.getElem?_eq_none (by omega)] at h
  cases h

/-- Destructing a run of live slots succeeds and leaves exactly those slots raw. -/
theorem destructLoop_spec (n i : Nat) (b : Buffer T)
    (hlive : ∀ j, i ≤ j → j < i + n → ∃ x, b[j]? = some (some x)) :
    ∃ b1, destructLoop n i b = .ok b1 ∧ b1.length = b.length ∧
      ∀ j, b1[j]? = if i ≤ j ∧ j < i + n then some none else b[j]? := by
  induction n generalizing i b with
  | zero => exact ⟨b, rfl, rfl, fun j => by rw [if_neg (by omega)]⟩
  | succ n ih =>
    obtain ⟨x, hx⟩ := hlive i (le_refl _) (by omega)
    have hi := lt_length_of_live hx
    obtain ⟨b1, hb1, hlen, hget⟩ := ih (i + 1) (b.set i none) (fun j h1 h2 => by
      obtain ⟨y, hy⟩ := hlive j (by omega) (by omega)
      exact ⟨y, by rw [List.getElem?_set_ne (by omega)]; exact hy⟩)
    refine ⟨b1, ?_, ?_, ?_⟩
    · simp [destructLoop, destroyAt_of_live hx, hb1, bind, Except.bind]
    · simpa using hlen
    · intro j
      rw [hget j, List.getElem?_set]
      split_ifs <;> first | rfl | omega

/-- Filling a run of slots inside the block succeeds and sets exactly those. -/
theorem fillLoop_spec (elem : T) (n p : Nat) (b : Buffer T) (h : p + n ≤ b.length) :
    ∃ b1, fillLoop elem n p b = .ok b1 ∧ b1.length = b.length ∧
      ∀ j, b1[j]? = if p ≤ j ∧ j < p + n then some (some elem) else b[j]? := by
  induction n generalizing p b with
  | zero => exact ⟨b, rfl, rfl, fun j => by rw [if_neg (by omega)]⟩
  | succ n ih =>
    have hp : p < b.length := by omega
    obtain ⟨b1, hb1, hlen, hget⟩ := ih (p + 1) (b.set p (some elem)) (by simp; omega)
    refine ⟨b1, ?_, ?_, ?_⟩
    · simp [fillLoop, constructAt_of_lt elem hp, hb1, bind, Except.bind]
    · simpa using hlen
    · intro j
      rw [hget j, List.getElem?_set]
      split_ifs <;> first | rfl | omega

/-- Copying a list of values into a run of slots inside the block. -/
theorem copyLoop_spec (r : List T) (p : Nat) (b : Buffer T) (h : p + r.length ≤ b.length) :
    ∃ b1, copyLoop r p b = .ok b1 ∧ b1.length = b.length ∧
      ∀ j, b1[j]? = if p ≤ j ∧ j < p + r.length then some (r[j - p]?) else b[j]? := by
  induction r generalizing p b with
  | nil => exact ⟨b, rfl, rfl, fun j => by rw [if_neg (by simp)]⟩
  | cons x xs ih =>
    have hp : p < b.length := by simp at h; omega
    obtain ⟨b1, hb1, hlen, hget⟩ := ih (p + 1) (b.set p (some x)) (by simp at h ⊢; omega)
    refine ⟨b1, ?_, ?_, ?_⟩
    · simp [copyLoop, constructAt_of_lt x hp, hb1, bind, Except.bind]
    · simpa using hlen
    · intro j
      rw [hget j, List.getElem?_set]
      simp only [List.length_cons]
      by_cases hj : p = j
      · subst hj
        simp [hp]
      · by_cases hj2 : p + 1 ≤ j ∧ j < p + 1 + xs.length
        · have e : j - p = (j - (p + 1)) + 1 := by omega
          rw [if_pos hj2, if_pos (by omega), e, List.getElem?_cons_succ]
        · rw [if_neg hj2, if_neg hj, if_neg (by omega)]

/-- Relocating a run of live slots into another block: the destination run
receives the source slots, the source run is left raw. -/
theorem moveLoop_spec (n d s : Nat) (dest src : Buffer T)
    (hlive : ∀ j, s ≤ j → j < s + n → ∃ x, src[j]? = some (some x))
    (hd : d + n ≤ dest.length) :
    ∃ dest1 src1, moveLoop n d s dest src = .ok (dest1, src1) ∧
      dest1.length = dest.length ∧ src1.length = src.length ∧
      (∀ j, dest1[j]? = if d ≤ j ∧ j < d + n then src[s + (j - d)]? else dest[j]?) ∧
      (∀ j, src1[j]? = if s ≤ j ∧ j < s + n then some none else src[j]?) := by
  induction n generalizing d s dest src with
  | zero =>
    exact ⟨dest, src, rfl, rfl, rfl, fun j => by rw [if_neg (by omega)],
      fun j => by rw [if_neg (by omega)]⟩
  | succ n ih =>
    obtain ⟨x, hx⟩ := hlive s (le_refl _) (by omega)
    have hs := lt_length_of_live hx
    have hdl : d < dest.length := by omega
    obtain ⟨dest1, src1, hrun, hl1, hl2, hg1, hg2⟩ :=
      ih (d + 1) (s + 1) (dest.set d (some x)) (src.set s none) (fun j h1 h2 => by
        obtain ⟨y, hy⟩ := hlive j (by omega) (by omega)
        exact ⟨y, by rw [List.getElem?_set_ne (by omega)]; exact hy⟩) (by simp; omega)
    refine ⟨dest1, src1, ?_, ?_, ?_, ?_, ?_⟩
    · simp [moveLoop, readSlot_of_live hx, constructAt_of_lt x hdl, destroyAt_of_live hx,
        hrun, bind, Except.bind]
    · simpa using hl1
    · simpa using hl2
    · intro j
      rw [hg1 j]
      simp only [List.getElem?_set]
      split_ifs <;> first
        | rfl
        | omega
        | (congr 1; omega)
        | (rw [← hx]; congr 1; omega)
    · intro j
      rw [hg2 j, List.getElem?_set]
      split_ifs <;> first | rfl | omega

/-- The relocation loop of `allocateBuffer`, slot `i` to slot `i`. -/
theorem allocateBufferLoop_spec (n i : Nat) (old tmp : Buffer T)
    (hlive : ∀ j, i ≤ j → j < i + n → ∃ x, old[j]? = some (some x))
    (hd : i + n ≤ tmp.length) :
    ∃ old1 tmp1, allocateBufferLoop n i old tmp = .ok (old1, tmp1) ∧
      tmp1.length = tmp.length ∧
      (∀ j, tmp1[j]? = if i ≤ j ∧ j < i + n then old[j]? else tmp[j]?) := by
  induction n generalizing i old tmp with
  | zero => exact ⟨old, tmp, rfl, rfl, fun j => by rw [if_neg (by omega)]⟩
  | succ n ih =>
    obtain ⟨x, hx⟩ := hlive i (le_refl _) (by omega)
    have hs := lt_length_of_live hx
    have hdl : i < tmp.length := by omega
    obtain ⟨old1, tmp1, hrun, hl1, hg1⟩ :=
      ih (i + 1) (old.set i none) (tmp.set i (some x)) (fun j h1 h2 => by
        obtain ⟨y, hy⟩ := hlive j (by omega) (by omega)
        exact ⟨y, by rw [List.getElem?_set_ne (by omega)]; exact hy⟩) (by simp; omega)
    refine ⟨old1, tmp1, ?_, ?_, ?_⟩
    · simp [allocateBufferLoop, readSlot_of_live hx, constructAt_of_lt x hdl,
        destroyAt_of_live hx, hrun, bind, Except.bind]
    · simpa using hl1
    · intro j
      rw [hg1 j]
      simp only [List.getElem?_set]
      split_ifs <;> first
        | rfl
        | omega
        | (rw [← hx]; congr 1)

/-- Shifting a run of live slots right by a positive amount: the run lands
`amount` slots further, the vacated slots are raw. -/
theorem shiftLoop_spec (amount n e : Nat) (b : Buffer T) (ha : 1 ≤ amount) (hn : n ≤ e + 1)
    (hlive : ∀ j, e + 1 - n ≤ j → j ≤ e → ∃ x, b[j]? = some (some x))
    (hlen : e + amount < b.length) :
    ∃ b1, shiftLoop amount n e b = .ok b1 ∧ b1.length = b.length ∧
      ∀ j, b1[j]? =
        if e + 1 - n + amount ≤ j ∧ j ≤ e + amount then b[j - amount]?
        else if e + 1 - n ≤ j ∧ j ≤ e then some none else b[j]? := by
  induction n generalizing e b with
  | zero =>
    exact ⟨b, rfl, rfl, fun j => by rw [if_neg (by omega), if_neg (by omega)]⟩
  | succ n ih =>
    obtain ⟨x, hx⟩ := hlive e (by omega) (le_refl _)
    have he := lt_length_of_live hx
    have hx1 : (b.set (e + amount) (some x))[e]? = some (some x) := by
      rw [List.getElem?_set_ne (by omega)]; exact hx
    obtain ⟨b1, hrun, hl1, hg1⟩ :=
      ih (e - 1) ((b.set (e + amount) (some x)).set e none) (by omega) (fun j h1 h2 => by
        obtain ⟨y, hy⟩ := hlive j (by omega) (by omega)
        exact ⟨y, by
          rw [List.getElem?_set_ne (by omega), List.getElem?_set_ne (by omega)]; exact hy⟩)
        (by simp; omega)
    refine ⟨b1, ?_, ?_, ?_⟩
    · simp [shiftLoop, readSlot_of_live hx, constructAt_of_lt x hlen, destroyAt_of_live hx1,
        hrun, bind, Except.bind]
    · simpa using hl1
    · intro j
      rw [hg1 j]
      simp only [List.getElem?_set, List.length_set]
      split_ifs <;> first
        | rfl
        | omega
        | (rw [← hx]; congr 1; omega)

/-- Compacting a run of live slots left by a positive amount. -/
theorem compactLoop_spec (d n e : Nat) (b : Buffer T) (hd : 1 ≤ d) (hde : d ≤ e)
    (hlive : ∀ j, e ≤ j → j < e + n → ∃ x, b[j]? = some (some x)) :
    ∃ b1, compactLoop d n e b = .ok b1 ∧ b1.length = b.length ∧
      ∀ j, b1[j]? =
        if e - d ≤ j ∧ j < e + n - d then b[j + d]?
        else if e ≤ j ∧ j < e + n then some none else b[j]? := by
  induction n generalizing e b with
  | zero =>
    exact ⟨b, rfl, rfl, fun j => by rw [if_neg (by omega), if_neg (by omega)]⟩
  | succ n ih =>
    obtain ⟨x, hx⟩ := hlive e (le_refl _) (by omega)
    have he := lt_length_of_live hx
    have hdl : e - d < b.length := by omega
    have hx1 : (b.set (e - d) (some x))[e]? = some (some x) := by
      rw [List.getElem?_set_ne (by omega)]; exact hx
    obtain ⟨b1, hrun, hl1, hg1⟩ :=
      ih (e + 1) ((b.set (e - d) (some x)).set e none) (by omega) (fun j h1 h2 => by
        obtain ⟨y, hy⟩ := hlive j (by omega) (by omega)
        exact ⟨y, by
          rw [List.getElem?_set_ne (by omega), List.getElem?_set_ne (by omega)]; exact hy⟩)
    refine ⟨b1, ?_, ?_, ?_⟩
    · simp [compactLoop, readSlot_of_live hx, constructAt_of_lt x hdl, destroyAt_of_live hx1,
        hrun, bind, Except.bind]
    · simpa using hl1
    · intro j
      rw [hg1 j]
      simp only [List.getElem?_set, List.length_set]
      split_ifs <;> first
        | rfl
        | omega
        | (rw [← hx]; congr 1; omega)

/-- Compacting a run of live slots left by zero slots leaves the run raw. -/
theorem compactLoop_zero_spec (n e : Nat) (b : Buffer T)
    (hlive : ∀ j, e ≤ j → j < e + n → ∃ x, b[j]? = some (some x)) :
    ∃ b1, compactLoop 0 n e b = .ok b1 ∧ b1.length = b.length ∧
      ∀ j, b1[j]? = if e ≤ j ∧ j < e + n then some none else b[j]? := by
  induction n generalizing e b with
  | zero => exact ⟨b, rfl, rfl, fun j => by rw [if_neg (by omega)]⟩
  | succ n ih =>
    obtain ⟨x, hx⟩ := hlive e (le_refl _) (by omega)
    have he := lt_length_of_live hx
    have hx1 : (b.set e (some x))[e]? = some (some x) := List.getElem?_set_self he
    obtain ⟨b1, hrun, hl1, hg1⟩ :=
      ih (e + 1) ((b.set e (some x)).set e none) (fun j h1 h2 => by
        obtain ⟨y, hy⟩ := hlive j (by omega) (by omega)
        exact ⟨y, by
          rw [List.getElem?_set_ne (by omega), List.getElem?_set_ne (by omega)]; exact hy⟩)
    have hrun1 := hrun
    rw [List.set_set] at hrun1
    refine ⟨b1, ?_, ?_, ?_⟩
    · simp [compactLoop, readSlot_of_live hx, constructAt_of_lt x he, destroyAt_of_live hx1,
        hrun1, bind, Except.bind]
    · simpa using hl1
    · intro j
      rw [hg1 j]
      simp only [List.getElem?_set, List.length_set]
      split_ifs <;> first
        | rfl
        | omega

/-- Walking over a run of live slots reads their values in order. -/
theorem readLoop_spec (xs : List T) (i : Nat) (b : Buffer T)
    (h : ∀ k, k < xs.length → b[i + k]? = some (xs[k]?)) :
    readLoop xs.length i b = .ok xs := by
  induction xs generalizing i with
  | nil => rfl
  | cons x xs ih =>
    have h0 : b[i]? = some (some x) := by simpa using h 0 (by simp)
    have hrest := ih (i + 1) (fun k hk => by
      have := h (k + 1) (by simp; omega)
      rw [List.getElem?_cons_succ] at this
      rw [← this]; congr 1; omega)
    simp [readLoop, readSlot_of_live h0, hrest, bind, Except.bind, pure, Except.pure]

end SlotLemmas

/-! ## From slots to sequences -/

section HoldsLemmas
variable {T : Type}

/-- A block laid out as live values followed by raw slots, read slot by slot. -/
theorem layout_getElem? (s : List T) (cap j : Nat) (hs : s.length ≤ cap) (hj : j < cap) :
    (s.map some ++ List.replicate (cap - s.length) (none : Option T))[j]? = some (s[j]?) := by
  rw [List.getElem?_append]
  simp only [List.length_map, List.getElem?_map, List.getElem?_replicate]
  by_cases h : j < s.length
  · rw [if_pos h, List.getElem?_eq_getElem h]; rfl
  · rw [if_neg h, if_pos (by omega), List.getElem?_eq_none (by omega)]

/-- A block is the layout of `s` exactly when every slot agrees with it. -/
theorem eq_layout_of_getElem? (b : Buffer T) (s : List T) (cap : Nat) (hs : s.length ≤ cap)
    (hlen : b.length = cap) (hget : ∀ j, j < cap → b[j]? = some (s[j]?)) :
    b = s.map some ++ List.replicate (cap - s.length) none := by
  apply List.ext_getElem?
  intro j
  by_cases hj : j < cap
  · rw [hget j hj, layout_getElem? s cap j hs hj]
  · rw [List.getElem?_eq_none (by omega), List.getElem?_eq_none (by simp; omega)]

theorem Vector.holds.block_length {v : Vector T} {s : List T} (h : v.holds s) :
    v.block.length = v.m_capacity := by
  obtain ⟨_, hs, hd⟩ := h
  unfold Vector.block
  cases hm : v.m_data with
  | none => rw [hm] at hd; simp [hd]
  | some b => rw [hm] at hd; simp [hd]; omega

theorem Vector.holds.block_getElem? {v : Vector T} {s : List T} (h : v.holds s) (j : Nat)
    (hj : j < v.m_capacity) : v.block[j]? = some (s[j]?) := by
  obtain ⟨_, hs, hd⟩ := h
  unfold Vector.block
  cases hm : v.m_data with
  | none => rw [hm] at hd; simp at hd; omega
  | some b =>
    rw [hm] at hd
    simp only [Option.getD_some]
    rw [hd]
    exact layout_getElem? s _ j hs hj

theorem Vector.holds.live {v : Vector T} {s : List T} (h : v.holds s) (j : Nat)
    (hj : j < s.length) : ∃ x, v.block[j]? = some (some x) := by
  have := h.2.1
  exact ⟨s[j], by rw [h.block_getElem? j (by omega), List.getElem?_eq_getElem hj]⟩

/-- A container with a non-null block whose slots agree with `s` holds `s`. -/
theorem holds_of_getElem? (b : Buffer T) (cap n : Nat) (s : List T) (hn : n = s.length)
    (hs : s.length ≤ cap) (hlen : b.length = cap)
    (hget : ∀ j, j < cap → b[j]? = some (s[j]?)) :
    (⟨some b, cap, n⟩ : Vector T).holds s :=
  ⟨hn, hs, eq_layout_of_getElem? b s cap hs hlen hget⟩

/-- Writing a block back through a container that holds something. -/
theorem holds_withBlock {v : Vector T} {s0 : List T} (h0 : v.holds s0) (b : Buffer T) (n : Nat)
    (s : List T) (hn : n = s.length) (hs : s.length ≤ v.m_capacity)
    (hlen : b.length = v.m_capacity)
    (hget : ∀ j, j < v.m_capacity → b[j]? = some (s[j]?)) :
    (v.withBlock b n).holds s := by
  unfold Vector.withBlock
  cases hm : v.m_data with
  | none =>
    have hc : v.m_capacity = 0 := by
      have := h0.2.2; rw [hm] at this; exact this
    exact ⟨hn, hs, by simpa using hc⟩
  | some b0 =>
    exact holds_of_getElem? b _ n s hn hs hlen hget

/-- Slot-wise reading of a sequence with a run spliced in at `pos`. -/
theorem splice_getElem? (s r : List T) (pos j : Nat) (hpos : pos ≤ s.length) :
    (s.take pos ++ r ++ s.drop pos)[j]? =
      if j < pos then s[j]? else if j < pos + r.length then r[j - pos]? else s[j - r.length]? := by
  rw [List.append_assoc, List.getElem?_append, List.getElem?_append]
  simp only [List.length_take, List.getElem?_take, List.getElem?_drop]
  have hmin : min pos s.length = pos := by omega
  rw [hmin]
  split_ifs <;> first
    | rfl
    | omega
    | (congr 1; omega)

/-- Slot-wise reading of a sequence with the run `[first, last)` cut out. -/
theorem cut_getElem? (s : List T) (first last j : Nat) (h1 : first ≤ last)
    (h2 : last ≤ s.length) :
    (s.take first ++ s.drop last)[j]? =
      if j < first then s[j]? else s[j + (last - first)]? := by
  rw [List.getElem?_append]
  simp only [List.length_take, List.getElem?_take, List.getElem?_drop]
  have hmin : min first s.length = first := by omega
  rw [hmin]
  split_ifs <;> first
    | rfl
    | omega
    | (congr 1; omega)

end HoldsLemmas

/-! ## Reallocation and growth -/

section Growth
variable {T : Type}

/-- `allocateBuffer` to a size that fits the live elements keeps the sequence
and sets the capacity to the requested size. -/
theorem allocateBuffer_holds (ok : Nat → Bool) (v : Vector T) (s : List T) (n : Nat)
    (h : v.holds s) (hn : s.length ≤ n) (hok : ok n = true) :
    ∃ v1, allocateBuffer ok v n = .ok v1 ∧ v1.holds s ∧ v1.m_capacity = n := by
  have hc := h.1
  have hcap := h.2.1
  obtain ⟨old1, tmp1, hrun, hlen, hget⟩ :=
    allocateBufferLoop_spec v.m_elemCount 0 v.block (List.replicate n (none : Option T))
      (fun j _ h2 => h.live j (by omega)) (by simp; omega)
  refine ⟨⟨some tmp1, n, v.m_elemCount⟩, ?_, ?_, rfl⟩
  · simp [allocateBuffer, allocMany, hok, hrun, bind, Except.bind, pure, Except.pure]
  · refine holds_of_getElem? tmp1 n _ s hc hn (by simpa using hlen) (fun j hj => ?_)
    rw [hget j]
    by_cases hj2 : j < v.m_elemCount
    · rw [if_pos ⟨Nat.zero_le _, by omega⟩, h.block_getElem? j (by omega)]
    · rw [if_neg (by omega), List.getElem?_replicate, if_pos hj,
        List.getElem?_eq_none (by omega)]

/-- `shouldResizeBuffer` without wrap-around is the plain comparison. -/
theorem shouldResizeBuffer_eq (v : Vector T) (n : Nat) (hw : v.m_elemCount + n < SIZE_MOD) :
    shouldResizeBuffer v n = decide (v.m_capacity < v.m_elemCount + n) := by
  unfold shouldResizeBuffer
  rw [Nat.mod_eq_of_lt hw]

/-- `growIfNeeded(n)` without wrap-around: the sequence is kept, the capacity
stays when it suffices and becomes the growth target otherwise. -/
theorem growIfNeeded_holds (ok : Nat → Bool) (v : Vector T) (s : List T) (n : Nat)
    (h : v.holds s) (hw : s.length + n < SIZE_MOD)
    (hok : v.m_capacity < s.length + n → ok (max (v.m_capacity * 3 / 2) (s.length + n)) = true) :
    ∃ v1, growIfNeeded ok v n = .ok v1 ∧ v1.holds s ∧
      v1.m_capacity =
        (if s.length + n ≤ v.m_capacity then v.m_capacity
         else max (v.m_capacity * 3 / 2) (s.length + n)) := by
  have hc := h.1
  unfold growIfNeeded
  rw [shouldResizeBuffer_eq v n (by omega), hc]
  by_cases hlt : v.m_capacity < s.length + n
  · obtain ⟨v1, hv1, hh, hcap⟩ :=
      allocateBuffer_holds ok v s (max (v.m_capacity * 3 / 2) (s.length + n)) h
        (by omega) (hok hlt)
    refine ⟨v1, ?_, hh, ?_⟩
    · simp only [hlt, decide_True, if_true, growBuffer]
      rw [hc, Nat.mod_eq_of_lt hw]
      exact hv1
    · rw [hcap, if_neg (by omega)]
  · refine ⟨v, ?_, h, ?_⟩
    · simp [hlt]
    · rw [if_pos (by omega)]

/-- `insertElem` appends one value. -/
theorem insertElem_holds (ok : Nat → Bool) (v : Vector T) (s : List T) (x : T)
    (h : v.holds s) (hw : s.length + 1 < SIZE_MOD)
    (hok : v.m_capacity < s.length + 1 → ok (max (v.m_capacity * 3 / 2) (s.length + 1)) = true) :
    ∃ v1, insertElem ok v x = .ok v1 ∧ v1.holds (s ++ [x]) ∧
      v1.m_capacity =
        (if s.length + 1 ≤ v.m_capacity then v.m_capacity
         else max (v.m_capacity * 3 / 2) (s.length + 1)) := by
  obtain ⟨v1, hv1, hh, hcap⟩ := growIfNeeded_holds ok v s 1 h hw hok
  have hfit : s.length + 1 ≤ v1.m_capacity := by
    rw [hcap]; split_ifs <;> omega
  have hc1 := hh.1
  have hlt : v1.m_elemCount < v1.block.length := by rw [hh.block_length]; omega
  refine ⟨v1.withBlock (v1.block.set v1.m_elemCount (some x)) (v1.m_elemCount + 1), ?_, ?_, ?_⟩
  · simp [insertElem, hv1, constructAt_of_lt x hlt, bind, Except.bind, pure, Except.pure]
  · refine holds_withBlock hh _ _ (s ++ [x]) (by simp [hc1]) (by simpa using hfit)
      (by simp [hh.block_length]) (fun j hj => ?_)
    rw [List.getElem?_set, hc1]
    by_cases hj2 : s.length = j
    · subst hj2
      rw [if_pos rfl, if_pos (by rw [hh.block_length]; omega)]
      simp
    · rw [if_neg hj2, hh.block_getElem? j hj]
      congr 1
      by_cases hj3 : j < s.length
      · rw [List.getElem?_append_left hj3]
      · rw [List.getElem?_eq_none (by omega), List.getElem?_eq_none (by simp; omega)]
  · exact hcap

/-- A run of `insertElem` calls appends the values in order. -/
theorem insertElems_holds (ok : Nat → Bool) (hok : ∀ n, ok n = true) (xs : List T)
    (v : Vector T) (s : List T) (h : v.holds s) (hw : s.length + xs.length < SIZE_MOD) :
    ∃ v1, insertElems ok xs v = .ok v1 ∧ v1.holds (s ++ xs) := by
  induction xs generalizing v s with
  | nil => exact ⟨v, rfl, by simpa using h⟩
  | cons x xs ih =>
    simp only [List.length_cons] at hw
    obtain ⟨v1, hv1, hh, _⟩ := insertElem_holds ok v s x h (by omega) (fun _ => hok _)
    obtain ⟨v2, hv2, hh2⟩ := ih v1 (s ++ [x]) hh (by simp; omega)
    refine ⟨v2, ?_, by simpa using hh2⟩
    simp [insertElems, hv1, hv2, bind, Except.bind]

/-- A run of `insertElem` calls that fits the capacity never reallocates, so
it needs no memory at all. -/
theorem insertElems_fit (ok : Nat → Bool) (xs : List T) (v : Vector T) (s : List T)
    (h : v.holds s) (hfit : s.length + xs.length ≤ v.m_capacity)
    (hw : s.length + xs.length < SIZE_MOD) :
    ∃ v1, insertElems ok xs v = .ok v1 ∧ v1.holds (s ++ xs) ∧ v1.m_capacity = v.m_capacity := by
  induction xs generalizing v s with
  | nil => exact ⟨v, rfl, by simpa using h, rfl⟩
  | cons x xs ih =>
    simp only [List.length_cons] at hw hfit
    obtain ⟨v1, hv1, hh, hcap⟩ := insertElem_holds ok v s x h (by omega) (fun hc => by omega)
    rw [if_pos (by omega)] at hcap
    obtain ⟨v2, hv2, hh2, hcap2⟩ := ih v1 (s ++ [x]) hh (by simp; omega) (by simp; omega)
    refine ⟨v2, ?_, by simpa using hh2, by omega⟩
    simp [insertElems, hv1, hv2, bind, Except.bind]

end Growth

/-! ## Reading a container that holds a sequence -/

section Reading
variable {T : Type}

theorem default_holds : (Vector.ctor_default : Vector T).holds [] :=
  ⟨rfl, Nat.le_refl _, rfl⟩

theorem index_of_holds {v : Vector T} {s : List T} (h : v.holds s) (i : Nat)
    (hi : i < s.length) : index v i = .ok s[i] := by
  have := h.2.1
  unfold index
  exact readSlot_of_live (by
    rw [h.block_getElem? i (by omega), List.getElem?_eq_getElem hi])

theorem at_of_holds {v : Vector T} {s : List T} (h : v.holds s) (i : Nat)
    (hi : i < s.length) : «at» v i = .ok s[i] := by
  have hc := h.1
  unfold «at»
  rw [if_neg (by omega)]
  exact index_of_holds h i hi

theorem front_of_holds {v : Vector T} {s : List T} (h : v.holds s) (hne : s ≠ []) :
    front v = .ok (s.head hne) := by
  have hc := h.1
  have hpos : 0 < s.length := List.length_pos.mpr hne
  unfold front empty
  rw [if_neg (by simp; omega)]
  have := index_of_holds h 0 hpos
  unfold index at this
  rw [this]
  congr 1
  cases s with
  | nil => exact absurd rfl hne
  | cons x xs => rfl

theorem back_of_holds {v : Vector T} {s : List T} (h : v.holds s) (hne : s ≠ []) :
    back v = .ok (s.getLast hne) := by
  have hc := h.1
  have hpos : 0 < s.length := List.length_pos.mpr hne
  unfold back empty
  rw [if_neg (by simp; omega)]
  have := index_of_holds h (s.length - 1) (by omega)
  unfold index at this
  rw [hc, this]
  congr 1
  rw [List.getLast_eq_getElem]

theorem traverse_of_holds {v : Vector T} {s : List T} (h : v.holds s) :
    traverse v = .ok s := by
  have hc := h.1
  have := h.2.1
  unfold traverse
  rw [hc]
  exact readLoop_spec s 0 v.block (fun k hk => by
    rw [Nat.zero_add, h.block_getElem? k (by omega)])

end Reading

/-! ## Removal -/

section Removal
variable {T : Type}

/-- Every slot index read against a container that holds `s`. -/
theorem Vector.holds.block_total {v : Vector T} {s : List T} (h : v.holds s) (j : Nat) :
    v.block[j]? = if j < v.m_capacity then some (s[j]?) else none := by
  by_cases hj : j < v.m_capacity
  · rw [if_pos hj, h.block_getElem? j hj]
  · rw [if_neg hj, List.getElem?_eq_none (by rw [h.block_length]; omega)]

/-- `pop_back` drops the last element, or does nothing on an empty container. -/
theorem pop_back_holds (v : Vector T) (s : List T) (h : v.holds s) :
    ∃ v1, pop_back v = .ok v1 ∧ v1.holds s.dropLast ∧ v1.m_capacity = v.m_capacity ∧
      v1.m_elemCount = v.m_elemCount - 1 ∧ (s = [] → v1 = v) := by
  have hc := h.1
  have hcap := h.2.1
  by_cases hs : s = []
  · subst hs
    refine ⟨v, ?_, by simpa using h, rfl, ?_, fun _ => rfl⟩
    · simp [pop_back, hc]
    · simp [hc]
  · have hpos : 0 < s.length := List.length_pos.mpr hs
    obtain ⟨x, hx⟩ := h.live (s.length - 1) (by omega)
    refine ⟨v.withBlock (v.block.set (v.m_elemCount - 1) none) (v.m_elemCount - 1),
      ?_, ?_, rfl, rfl, fun e => absurd e hs⟩
    · unfold pop_back
      rw [if_neg (by omega), hc, destroyAt_of_live hx]
      rfl
    · refine holds_withBlock h _ _ s.dropLast (by simp [hc]) (by simp; omega)
        (by simp [h.block_length]) (fun j hj => ?_)
      rw [List.getElem?_set, h.block_total, List.getElem?_dropLast, hc, h.block_length]
      split_ifs <;> first
        | rfl
        | omega
        | (simp (disch := omega) only [List.getElem?_eq_none])

/-- `eraseAt` on a non-empty range, or on an empty range at the end: the range
is cut out, the capacity stays, and the returned pointer is the old end of the
range unless the range reached the end of the container. -/
theorem eraseAt_holds (v : Vector T) (s : List T) (first last : Nat) (h : v.holds s)
    (h1 : first ≤ last) (h2 : last ≤ s.length) (hne : first < last ∨ last = s.length) :
    ∃ v1, eraseAt v first last =
        .ok (v1, if last = s.length then first else last) ∧
      v1.holds (s.take first ++ s.drop last) ∧ v1.m_capacity = v.m_capacity ∧
      v1.m_elemCount = s.length - (last - first) := by
  have hc := h.1
  have hcap := h.2.1
  obtain ⟨b, hb, hblen, hbget⟩ := destructLoop_spec (last - first) first v.block
    (fun j _ _ => h.live j (by omega))
  have hlen : (s.take first ++ s.drop last).length = s.length - (last - first) := by
    simp; omega
  by_cases hl : last = s.length
  · refine ⟨v.withBlock b (v.m_elemCount - (last - first)), ?_, ?_, rfl, by simp [Vector.withBlock, hc]⟩
    · unfold eraseAt
      rw [if_neg (by omega), if_pos (by omega), hb, if_pos hl, hc, hl]
      simp only [bind, Except.bind, pure, Except.pure]
      congr 2
      omega
    · refine holds_withBlock h _ _ _ (by rw [hlen, hc]) (by rw [hlen]; omega)
        (by rw [hblen, h.block_length]) (fun j hj => ?_)
      rw [hbget, h.block_total, cut_getElem? s first last j h1 h2]
      split_ifs <;> first
        | rfl
        | omega
        | (simp (disch := omega) only [List.getElem?_eq_none])
  · have hlt : first < last := by omega
    obtain ⟨b1, hb1, hb1len, hb1get⟩ :=
      compactLoop_spec (last - first) (v.m_elemCount - last) last b (by omega) (by omega)
        (fun j hj1 hj2 => by
          obtain ⟨x, hx⟩ := h.live j (by omega)
          exact ⟨x, by rw [hbget, if_neg (by omega)]; exact hx⟩)
    refine ⟨v.withBlock b1 (v.m_elemCount - (last - first)), ?_, ?_, rfl, by simp [Vector.withBlock, hc]⟩
    · unfold eraseAt
      rw [if_neg (by omega), if_neg (by omega), hb, if_neg hl]
      simp only [bind, Except.bind, pure, Except.pure]
      rw [if_neg (by omega), hb1]
    · refine holds_withBlock h _ _ _ (by rw [hlen, hc]) (by rw [hlen]; omega)
        (by rw [hb1len, hblen, h.block_length]) (fun j hj => ?_)
      rw [hb1get, hbget, hbget, h.block_total, h.block_total,
        cut_getElem? s first last j h1 h2, hc]
      split_ifs <;> first
        | rfl
        | omega
        | (congr 2; omega)
        | (simp (disch := omega) only [List.getElem?_eq_none])

end Removal

/-! ## Insertion -/

section Insertion
variable {T : Type}

/-- The range insertion in all three of its cases, for a non-empty range or an
insertion at the end: the range is spliced in at `pos`, the returned pointer is
`pos`, and the capacity follows the growth rule. -/
theorem insertAtRange_holds (ok : Nat → Bool) (v : Vector T) (s : List T) (pos : Nat)
    (r : List T) (h : v.holds s) (hpos : pos ≤ s.length)
    (hne : 1 ≤ r.length ∨ pos = s.length) (hw : s.length + r.length < SIZE_MOD)
    (hok : v.m_capacity < s.length + r.length →
      ok (max (v.m_capacity * 3 / 2) (s.length + r.length)) = true) :
    ∃ v1, insertAtRange ok v pos r = .ok (v1, pos) ∧
      v1.holds (s.take pos ++ r ++ s.drop pos) ∧
      v1.m_elemCount = s.length + r.length ∧
      v1.m_capacity =
        (if s.length + r.length ≤ v.m_capacity then v.m_capacity
         else max (v.m_capacity * 3 / 2) (s.length + r.length)) := by
  have hc := h.1
  have hcap := h.2.1
  have hlen : (s.take pos ++ r ++ s.drop pos).length = s.length + r.length := by
    simp; omega
  by_cases hend : pos = s.length
  · -- append
    obtain ⟨v1, hv1, hh, hcap1⟩ := growIfNeeded_holds ok v s r.length h hw hok
    have hfit : s.length + r.length ≤ v1.m_capacity := by
      rw [hcap1]; split_ifs <;> omega
    have hc1 := hh.1
    obtain ⟨b, hb, hblen, hbget⟩ := copyLoop_spec r v1.m_elemCount v1.block
      (by rw [hh.block_length]; omega)
    refine ⟨v1.withBlock b (v1.m_elemCount + r.length), ?_, ?_, ?_, hcap1⟩
    · unfold insertAtRange
      simp only [hend, hc, if_true, hv1, hb, bind, Except.bind, pure, Except.pure]
    · refine holds_withBlock hh _ _ _ (by rw [hlen, hc1]) (by rw [hlen]; exact hfit)
        (by rw [hblen, hh.block_length]) (fun j hj => ?_)
      rw [hbget, hh.block_total, splice_getElem? s r pos j hpos, hc1, hend]
      split_ifs <;> first
        | rfl
        | omega
        | (simp (disch := omega) only [List.getElem?_eq_none])
    · simp [Vector.withBlock, hc1]
  · have hlt : pos < s.length := by omega
    have hr : 1 ≤ r.length := by omega
    by_cases hfit : s.length + r.length ≤ v.m_capacity
    · -- in-place shift
      obtain ⟨b1, hb1, hb1len, hb1get⟩ :=
        shiftLoop_spec r.length (v.m_elemCount - pos) (v.m_elemCount - 1) v.block hr
          (by omega) (fun j _ _ => h.live j (by omega)) (by rw [h.block_length]; omega)
      obtain ⟨b2, hb2, hb2len, hb2get⟩ := copyLoop_spec r pos b1
        (by rw [hb1len, h.block_length]; omega)
      refine ⟨v.withBlock b2 (v.m_elemCount + r.length), ?_, ?_, ?_, ?_⟩
      · unfold insertAtRange shiftElemsRight
        rw [hc] at hb1
        simp only [hc, Nat.mod_eq_of_lt hw, hend, if_false, not_lt.mpr hfit, decide_False,
          Bool.not_false, if_true, hb1, hb2, bind, Except.bind, pure, Except.pure]
      · refine holds_withBlock h _ _ _ (by rw [hlen, hc]) (by rw [hlen]; exact hfit)
          (by rw [hb2len, hb1len, h.block_length]) (fun j hj => ?_)
        rw [hb2get, hb1get, h.block_total, h.block_total,
          splice_getElem? s r pos j hpos, hc]
        split_ifs <;> first
          | rfl
          | omega
          | (congr 2; omega)
          | (simp (disch := omega) only [List.getElem?_eq_none])
      · simp [Vector.withBlock, hc]
      · rw [if_pos hfit]; rfl
    · -- reallocate and splice
      have hgrow : v.m_capacity < s.length + r.length := by omega
      have hN : s.length + r.length ≤ max (v.m_capacity * 3 / 2) (s.length + r.length) :=
        Nat.le_max_right _ _
      obtain ⟨d1, s1, hm1, hd1len, hs1len, hd1get, hs1get⟩ :=
        moveLoop_spec pos 0 0
          (List.replicate (max (v.m_capacity * 3 / 2) (s.length + r.length)) (none : Option T))
          v.block (fun j _ _ => h.live j (by omega)) (by simp; omega)
      obtain ⟨t1, ht1, ht1len, ht1get⟩ := copyLoop_spec r pos d1
        (by rw [hd1len]; simp; omega)
      obtain ⟨d2, s2, hm2, hd2len, _, hd2get, _⟩ :=
        moveLoop_spec (v.m_elemCount - pos) (pos + r.length) pos t1 s1
          (fun j hj1 hj2 => by
            obtain ⟨x, hx⟩ := h.live j (by omega)
            exact ⟨x, by rw [hs1get, if_neg (by omega)]; exact hx⟩)
          (by rw [ht1len, hd1len]; simp; omega)
      refine ⟨⟨some d2, max (v.m_capacity * 3 / 2) (s.length + r.length),
        s.length + r.length⟩, ?_, ?_, rfl, ?_⟩
      · unfold insertAtRange moveElemsToOtherBuffer allocMany
        rw [hc] at hm2
        simp only [hc, Nat.mod_eq_of_lt hw, hend, hgrow, decide_True, Bool.not_true,
          Bool.false_eq_true, if_false, hok hgrow, if_true, Nat.not_lt_zero, Nat.sub_zero,
          hm1, ht1, not_lt.mpr (Nat.le_of_lt hlt), hm2, bind, Except.bind, pure, Except.pure]
      · refine holds_of_getElem? d2 _ _ _ hlen.symm (by rw [hlen]; exact hN)
          (by rw [hd2len, ht1len, hd1len]; simp) (fun j hj => ?_)
        rw [hd2get, ht1get, hs1get, hd1get, h.block_total, h.block_total,
          splice_getElem? s r pos j hpos, List.getElem?_replicate, hc]
        split_ifs <;> first
          | rfl
          | omega
          | (congr 2; omega)
          | (simp (disch := omega) only [List.getElem?_eq_none])
      · rw [if_neg hfit]

/-- Filling with copies of one value is copying a constant range. -/
theorem fillLoop_eq_copyLoop (elem : T) (n p : Nat) (b : Buffer T) :
    fillLoop elem n p b = copyLoop (List.replicate n elem) p b := by
  induction n generalizing p b with
  | zero => rfl
  | succ n ih => simp only [fillLoop, List.replicate_succ, copyLoop, ih]

/-- One placement construction is copying a one-element range. -/
theorem copyLoop_singleton (elem : T) (p : Nat) (b : Buffer T) :
    copyLoop [elem] p b = constructAt b p elem := by
  simp only [copyLoop, bind, Except.bind]
  cases constructAt b p elem <;> rfl

/-- The repeated-copy insertion acts as the range insertion of `count` copies. -/
theorem insertAt_eq_insertAtRange (ok : Nat → Bool) (v : Vector T) (pos : Nat) (elem : T)
    (count : Nat) :
    insertAt ok v pos elem count = insertAtRange ok v pos (List.replicate count elem) := by
  simp only [insertAt, insertAtRange, fillLoop_eq_copyLoop, shouldResizeBuffer,
    List.length_replicate, gt_iff_lt]

/-- The single-move insertion acts as the range insertion of one value. -/
theorem insertAtMove_eq_insertAtRange (ok : Nat → Bool) (v : Vector T) (pos : Nat) (elem : T) :
    insertAtMove ok v pos elem = insertAtRange ok v pos [elem] := by
  simp only [insertAtMove, insertAtRange, copyLoop_singleton, shouldResizeBuffer,
    List.length_singleton, gt_iff_lt]

end Insertion

/-! ## Further properties of insertion, growth and removal -/

section Support
variable {T : Type}

/-- The repeated-copy insertion of at least one value, or of any number of
values at the end, splices the copies in at `pos`. -/
theorem insertAt_holds (ok : Nat → Bool) (v : Vector T) (s : List T) (pos : Nat) (x : T)
    (k : Nat) (h : v.holds s) (hpos : pos ≤ s.length) (hne : 1 ≤ k ∨ pos = s.length)
    (hw : s.length + k < SIZE_MOD)
    (hok : v.m_capacity < s.length + k →
      ok (max (v.m_capacity * 3 / 2) (s.length + k)) = true) :
    ∃ v1, insertAt ok v pos x k = .ok (v1, pos) ∧
      v1.holds (s.take pos ++ List.replicate k x ++ s.drop pos) ∧
      v1.m_elemCount = s.length + k := by
  rw [insertAt_eq_insertAtRange]
  obtain ⟨v1, h1, h2, h3, _⟩ :=
    insertAtRange_holds ok v s pos (List.replicate k x) h hpos (by simpa using hne)
      (by simpa using hw) (by simpa using hok)
  exact ⟨v1, h1, h2, by simpa using h3⟩

/-- The single-move insertion splices the value in at `pos`. -/
theorem insertAtMove_holds (ok : Nat → Bool) (v : Vector T) (s : List T) (pos : Nat) (x : T)
    (h : v.holds s) (hpos : pos ≤ s.length) (hw : s.length + 1 < SIZE_MOD)
    (hok : v.m_capacity < s.length + 1 →
      ok (max (v.m_capacity * 3 / 2) (s.length + 1)) = true) :
    ∃ v1, insertAtMove ok v pos x = .ok (v1, pos) ∧
      v1.holds (s.take pos ++ [x] ++ s.drop pos) ∧ v1.m_elemCount = s.length + 1 := by
  rw [insertAtMove_eq_insertAtRange]
  obtain ⟨v1, h1, h2, h3, _⟩ :=
    insertAtRange_holds ok v s pos [x] h hpos (Or.inl (by simp)) (by simpa using hw)
      (by simpa using hok)
  exact ⟨v1, h1, h2, by simpa using h3⟩

/-- A run of `push_back` calls appends the values in order. -/
theorem push_back_all_holds (ok : Nat → Bool) (hok : ∀ n, ok n = true) (xs : List T)
    (v : Vector T) (s : List T) (h : v.holds s) (hw : s.length + xs.length < SIZE_MOD) :
    ∃ v1, push_back_all ok xs v = .ok v1 ∧ v1.holds (s ++ xs) := by
  induction xs generalizing v s with
  | nil => exact ⟨v, rfl, by simpa using h⟩
  | cons x xs ih =>
    simp only [List.length_cons] at hw
    obtain ⟨v1, hv1, hh, _⟩ := insertElem_holds ok v s x h (by omega) (fun _ => hok _)
    obtain ⟨v2, hv2, hh2⟩ := ih v1 (s ++ [x]) hh (by simp; omega)
    refine ⟨v2, ?_, by simpa using hh2⟩
    simp [push_back_all, push_back, hv1, hv2, bind, Except.bind]

/-- Erasing an empty range before the end returns normally with the count
unchanged and every element from the range on destructed. -/
theorem eraseAt_empty_destructs (v : Vector T) (s : List T) (p : Nat) (h : v.holds s)
    (hp : p < s.length) :
    ∃ v1, eraseAt v p p = .ok (v1, p) ∧ v1.m_elemCount = s.length ∧
      v1.m_capacity = v.m_capacity ∧
      (∀ j, j < p → index v1 j = index v j) ∧
      (∀ j, p ≤ j → j < s.length → index v1 j = .error .undefined_behaviour) := by
  have hc := h.1
  have hcap := h.2.1
  obtain ⟨b1, hb1, hb1len, hb1get⟩ :=
    compactLoop_zero_spec (v.m_elemCount - p) p v.block (fun j _ _ => h.live j (by omega))
  have hb : (v.withBlock b1 (v.m_elemCount - (p - p))).block = b1 := by
    unfold Vector.withBlock Vector.block
    cases hm : v.m_data with
    | none =>
      have : v.m_capacity = 0 := by have := h.2.2; rw [hm] at this; exact this
      omega
    | some b0 => rfl
  refine ⟨v.withBlock b1 (v.m_elemCount - (p - p)), ?_, by simp [Vector.withBlock, hc], rfl,
    ?_, ?_⟩
  · unfold eraseAt
    simp only [lt_irrefl, if_false, hc, Nat.ne_of_lt hp, Nat.sub_self, destructLoop,
      not_lt.mpr (Nat.le_of_lt hp), bind, Except.bind, pure, Except.pure]
    rw [hc] at hb1
    rw [hb1]
  · intro j hj
    unfold index readSlot
    rw [hb, hb1get, if_neg (by omega)]
  · intro j hj1 hj2
    unfold index readSlot
    rw [hb, hb1get, if_pos (by omega)]

/-- A container that holds a sequence satisfies the live-slots invariant. -/
theorem liveSlotsInvariant_of_holds {v : Vector T} {s : List T} (h : v.holds s) :
    v.liveSlotsInvariant := by
  intro j hj
  have hc := h.1
  unfold slotLive
  rw [h.block_getElem? j hj]
  by_cases hlt : j < s.length
  · rw [List.getElem?_eq_getElem hlt]
    simp [hc, hlt]
  · rw [List.getElem?_eq_none (by omega)]
    simp [hc, hlt]

/-- `clear` destructs every element and keeps the capacity. -/
theorem clear_holds (v : Vector T) (s : List T) (h : v.holds s) :
    ∃ v1, clear v = .ok v1 ∧ v1.holds [] ∧ v1.m_capacity = v.m_capacity := by
  have hc := h.1
  by_cases h0 : v.m_elemCount = 0
  · have hs : s = [] := List.length_eq_zero.mp (by omega)
    subst hs
    exact ⟨v, by simp [clear, h0], h, rfl⟩
  · obtain ⟨b, hb, hlen, hget⟩ := destructLoop_spec v.m_elemCount 0 v.block
      (fun j _ h2 => h.live j (by omega))
    refine ⟨v.withBlock b 0, ?_, ?_, rfl⟩
    · unfold clear
      rw [if_neg h0, hb]
      rfl
    · refine holds_withBlock h _ _ [] rfl (Nat.zero_le _) (by rw [hlen, h.block_length])
        (fun j hj => ?_)
      have e : ([] : List T)[j]? = none := rfl
      rw [hget, h.block_total, e]
      split_ifs <;> first
        | rfl
        | omega
        | (simp (disch := omega) only [List.getElem?_eq_none])

end Support

/-! ## Copy and move -/

section CopyMove
variable {T : Type}

/-- The loop of the copy constructor fills a run of the new block with the
source slots and leaves the source alone. -/
theorem copyConstructLoop_spec (n i : Nat) (src dst : Buffer T)
    (hlive : ∀ j, i ≤ j → j < i + n → ∃ x, src[j]? = some (some x))
    (hd : i + n ≤ dst.length) :
    ∃ dst1, copyConstructLoop n i src dst = .ok dst1 ∧ dst1.length = dst.length ∧
      (∀ j, dst1[j]? = if i ≤ j ∧ j < i + n then src[j]? else dst[j]?) := by
  induction n generalizing i dst with
  | zero => exact ⟨dst, rfl, rfl, fun j => by rw [if_neg (by omega)]⟩
  | succ n ih =>
    obtain ⟨x, hx⟩ := hlive i (le_refl _) (by omega)
    have hdl : i < dst.length := by omega
    obtain ⟨dst1, hrun, hl1, hg1⟩ :=
      ih (i + 1) (dst.set i (some x)) (fun j h1 h2 => hlive j (by omega) (by omega))
        (by simp; omega)
    refine ⟨dst1, ?_, ?_, ?_⟩
    · simp [copyConstructLoop, readSlot_of_live hx, constructAt_of_lt x hdl, hrun, bind,
        Except.bind]
    · simpa using hl1
    · intro j
      rw [hg1 j]
      simp only [List.getElem?_set]
      split_ifs <;> first
        | rfl
        | omega
        | (rw [← hx]; congr 1)

/-- The copy constructor, its allocation succeeding, builds a container that
holds the source's sequence in a block of the source's capacity. -/
theorem ctor_copy_holds (ok : Nat → Bool) (other : Vector T) (s : List T)
    (h : other.holds s) (hok : ok other.m_capacity = true) :
    ∃ c, Vector.ctor_copy ok other = .ok c ∧ c.holds s ∧
      c.m_capacity = other.m_capacity ∧ c.m_elemCount = other.m_elemCount := by
  have hc := h.1
  have hcap := h.2.1
  obtain ⟨b, hrun, hlen, hget⟩ :=
    copyConstructLoop_spec other.m_elemCount 0 other.block
      (List.replicate other.m_capacity (none : Option T))
      (fun j _ h2 => h.live j (by omega)) (by simp; omega)
  refine ⟨⟨some b, other.m_capacity, other.m_elemCount⟩, ?_, ?_, rfl, rfl⟩
  · simp [Vector.ctor_copy, allocMany, hok, hrun, bind, Except.bind, pure, Except.pure]
  · refine holds_of_getElem? b _ _ s hc hcap (by simpa using hlen) (fun j hj => ?_)
    rw [hget j, h.block_total, List.getElem?_replicate]
    split_ifs <;> first
      | rfl
      | omega
      | (simp (disch := omega) only [List.getElem?_eq_none])

/-- `destructElems` over a run of live slots. -/
theorem destructElems_spec (b : Buffer T) (i k : Nat) (hik : i ≤ k)
    (hlive : ∀ j, i ≤ j → j < k → ∃ x, b[j]? = some (some x)) :
    ∃ b1, destructElems b i k = .ok b1 ∧ b1.length = b.length ∧
      ∀ j, b1[j]? = if i ≤ j ∧ j < k then some none else b[j]? := by
  obtain ⟨b1, h1, h2, h3⟩ := destructLoop_spec (k - i) i b (fun j h1 h2 => hlive j h1 (by omega))
  refine ⟨b1, ?_, h2, fun j => ?_⟩
  · unfold destructElems
    rw [if_neg (by omega)]
    exact h1
  · rw [h3 j]
    split_ifs <;> first
      | rfl
      | omega

/-- The move constructor hands the source's members to the new container. -/
theorem ctor_move_holds (rhs : Vector T) (s : List T) (h : rhs.holds s) :
    (Vector.ctor_move rhs).1.holds s ∧ (Vector.ctor_move rhs).1.m_capacity = rhs.m_capacity ∧
      (Vector.ctor_move rhs).2 = ⟨none, rhs.m_capacity, 0⟩ :=
  ⟨h, rfl, rfl⟩

/-- Move assignment between two containers: the target takes the source's
members, the source is reset. -/
theorem move_assign_holds (self rhs : Vector T) (t : List T) (ht : self.holds t) :
    move_assign false self rhs = .ok (rhs, ⟨none, 0, 0⟩) := by
  have hc := ht.1
  obtain ⟨b1, h1, _, _⟩ := destructElems_spec self.block 0 self.m_elemCount (Nat.zero_le _)
    (fun j _ h2 => ht.live j (by omega))
  simp [move_assign, h1, bind, Except.bind, pure, Except.pure]

/-- The loop of copy assignment, when every slot it copy-assigns holds an
object: the run receives the source slots. -/
theorem copyAssignLoop_spec (cc ccap rcap n i : Nat) (src dst : Buffer T)
    (hlive : ∀ j, i ≤ j → j < i + n → ∃ x, src[j]? = some (some x))
    (hassign : ∀ j, i ≤ j → j < i + n → cc ≥ j → ccap ≥ rcap → ∃ y, dst[j]? = some (some y))
    (hd : i + n ≤ dst.length) :
    ∃ dst1, copyAssignLoop cc ccap rcap n i src dst = .ok dst1 ∧ dst1.length = dst.length ∧
      (∀ j, dst1[j]? = if i ≤ j ∧ j < i + n then src[j]? else dst[j]?) := by
  induction n generalizing i dst with
  | zero => exact ⟨dst, rfl, rfl, fun j => by rw [if_neg (by omega)]⟩
  | succ n ih =>
    obtain ⟨x, hx⟩ := hlive i (le_refl _) (by omega)
    have hdl : i < dst.length := by omega
    obtain ⟨dst1, hrun, hl1, hg1⟩ :=
      ih (i + 1) (dst.set i (some x)) (fun j h1 h2 => hlive j (by omega) (by omega))
        (fun j h1 h2 h3 h4 => by
          obtain ⟨y, hy⟩ := hassign j (by omega) (by omega) h3 h4
          exact ⟨y, by rw [List.getElem?_set_ne (by omega)]; exact hy⟩)
        (by simp; omega)
    refine ⟨dst1, ?_, ?_, ?_⟩
    · by_cases hcond : cc ≥ i ∧ ccap ≥ rcap
      · obtain ⟨y, hy⟩ := hassign i (le_refl _) (by omega) hcond.1 hcond.2
        have h1 := hcond.1
        have h2 := hcond.2
        simp [copyAssignLoop, readSlot_of_live hx, h1, h2, assignAt, hy, hrun, bind,
          Except.bind]
      · have hfalse : (decide (cc ≥ i) && decide (ccap ≥ rcap)) = false := by
          rcases not_and_or.mp hcond with h | h <;> simp [h]
        simp only [copyAssignLoop, readSlot_of_live hx, hfalse, constructAt_of_lt x hdl, hrun,
          bind, Except.bind, Bool.false_eq_true, if_false]
    · simpa using hl1
    · intro j
      rw [hg1 j]
      simp only [List.getElem?_set]
      split_ifs <;> first
        | rfl
        | omega
        | (rw [← hx]; congr 1)

theorem withBlock_withBlock (v : Vector T) (b b1 : Buffer T) (n n1 : Nat) :
    (v.withBlock b n).withBlock b1 n1 = v.withBlock b1 n1 := by
  unfold Vector.withBlock
  cases v.m_data <;> rfl

theorem withBlock_block_of_capacity {v : Vector T} {s : List T} (h : v.holds s) (b : Buffer T)
    (n : Nat) (hb : b.length = v.m_capacity) : (v.withBlock b n).block = b := by
  unfold Vector.withBlock Vector.block
  cases hm : v.m_data with
  | none =>
    have hc : v.m_capacity = 0 := by have := h.2.2; rw [hm] at this; exact this
    have : b = [] := List.length_eq_zero.mp (by omega)
    simp [this]
  | some b0 => rfl

/-- Copy assignment between two containers, in the cases where no raw slot is
copy-assigned (the target has too little capacity, or at least as many
elements as the source): the target ends holding the source's sequence, with
its own capacity when that sufficed and the source's otherwise. -/
theorem copy_assign_holds (ok : Nat → Bool) (self rhs : Vector T) (t s : List T)
    (ht : self.holds t) (hs : rhs.holds s)
    (hok : self.m_capacity < rhs.m_capacity → ok rhs.m_capacity = true)
    (hcount : rhs.m_capacity ≤ self.m_capacity → s.length ≤ t.length) :
    ∃ v1, copy_assign_op ok false rhs self = .returned () v1 ∧ v1.holds s ∧
      v1.m_capacity =
        (if rhs.m_capacity ≤ self.m_capacity then self.m_capacity else rhs.m_capacity) := by
  have htc := ht.1
  have htcap := ht.2.1
  have hsc := hs.1
  have hscap := hs.2.1
  by_cases hreuse : rhs.m_capacity ≤ self.m_capacity
  · have hst := hcount hreuse
    by_cases hgt : self.m_elemCount > rhs.m_elemCount
    · -- surplus elements of the target are destructed in place
      obtain ⟨b, hb, hblen, hbget⟩ :=
        destructElems_spec self.block rhs.m_elemCount self.m_elemCount
          (by omega) (fun j _ h2 => ht.live j (by omega))
      have hblock : (self.withBlock b self.m_elemCount).block = b :=
        withBlock_block_of_capacity ht b _ (by rw [hblen, ht.block_length])
      obtain ⟨b2, hrun, hb2len, hb2get⟩ :=
        copyAssignLoop_spec self.m_elemCount self.m_capacity rhs.m_capacity rhs.m_elemCount 0
          rhs.block b (fun j _ h2 => hs.live j (by omega))
          (fun j _ h2 _ _ => by
            obtain ⟨y, hy⟩ := ht.live j (by omega)
            exact ⟨y, by rw [hbget, if_neg (by omega)]; exact hy⟩)
          (by rw [hblen, ht.block_length]; omega)
      refine ⟨self.withBlock b2 rhs.m_elemCount, ?_, ?_, ?_⟩
      · unfold copy_assign_op
        have hcap1 : (self.withBlock b self.m_elemCount).m_capacity = self.m_capacity := rfl
        have hcnt1 : (self.withBlock b self.m_elemCount).m_elemCount = self.m_elemCount := rfl
        simp only [Bool.false_eq_true, if_false, bind, Op.bind, Op.self, ge_iff_le, hreuse,
          if_true, hgt, hb, Op.slots, Op.assign, hblock, hcap1, hcnt1, hrun,
          withBlock_withBlock]
      · refine holds_withBlock ht _ _ s hsc (by omega)
          (by rw [hb2len, hblen, ht.block_length]) (fun j hj => ?_)
        rw [hb2get, hbget, hs.block_total, ht.block_total, hsc, htc]
        split_ifs <;> first
          | rfl
          | omega
          | (simp (disch := omega) only [List.getElem?_eq_none])
      · rw [if_pos hreuse]; rfl
    · obtain ⟨b2, hrun, hb2len, hb2get⟩ :=
        copyAssignLoop_spec self.m_elemCount self.m_capacity rhs.m_capacity rhs.m_elemCount 0
          rhs.block self.block (fun j _ h2 => hs.live j (by omega))
          (fun j _ h2 _ _ => ht.live j (by omega))
          (by rw [ht.block_length]; omega)
      refine ⟨self.withBlock b2 rhs.m_elemCount, ?_, ?_, ?_⟩
      · unfold copy_assign_op
        simp only [Bool.false_eq_true, if_false, bind, Op.bind, Op.self, ge_iff_le, hreuse,
          if_true, hgt, Op.pure, Op.slots, Op.assign, hrun]
      · refine holds_withBlock ht _ _ s hsc (by omega)
          (by rw [hb2len, ht.block_length]) (fun j hj => ?_)
        rw [hb2get, hs.block_total, ht.block_total, hsc]
        split_ifs <;> first
          | rfl
          | omega
          | (simp (disch := omega) only [List.getElem?_eq_none])
      · rw [if_pos hreuse]; rfl
  · have hlt : self.m_capacity < rhs.m_capacity := by omega
    obtain ⟨b, hb, _, _⟩ := destructElems_spec self.block 0 self.m_elemCount (Nat.zero_le _)
      (fun j _ h2 => ht.live j (by omega))
    obtain ⟨b2, hrun, hb2len, hb2get⟩ :=
      copyAssignLoop_spec 0 0 rhs.m_capacity rhs.m_elemCount 0 rhs.block
        (List.replicate rhs.m_capacity (none : Option T))
        (fun j _ h2 => hs.live j (by omega))
        (fun j _ _ _ h4 => by omega)
        (by simp; omega)
    refine ⟨⟨some b2, rhs.m_capacity, rhs.m_elemCount⟩, ?_, ?_, ?_⟩
    · unfold copy_assign_op
      simp [bind, Op.bind, Op.self, hreuse, hb, Op.slots, Op.assign, allocMany_op, hok hlt,
        hrun]
    · refine holds_of_getElem? b2 _ _ s hsc hscap (by simpa using hb2len) (fun j hj => ?_)
      rw [hb2get, hs.block_total, List.getElem?_replicate]
      split_ifs <;> first
        | rfl
        | omega
        | (simp (disch := omega) only [List.getElem?_eq_none])
    · rw [if_neg hreuse]

/-- The loop of copy assignment in a reused block whose slot `cc` is raw: the
slots below `cc` are copy-assigned, then slot `cc` is copy-assigned too, which
has no defined behaviour. -/
theorem copyAssignLoop_raw_slot (cc ccap rcap n i : Nat) (src dst : Buffer T)
    (hcap : ccap ≥ rcap) (hi : i ≤ cc) (hn : cc < i + n)
    (hlive : ∀ j, i ≤ j → j < i + n → ∃ x, src[j]? = some (some x))
    (hdst : ∀ j, i ≤ j → j < cc → ∃ y, dst[j]? = some (some y))
    (hraw : dst[cc]? = some none) :
    copyAssignLoop cc ccap rcap n i src dst = .error .undefined_behaviour := by
  induction n generalizing i dst with
  | zero => omega
  | succ n ih =>
    obtain ⟨x, hx⟩ := hlive i (le_refl _) (by omega)
    by_cases hic : i = cc
    · subst hic
      simp [copyAssignLoop, readSlot_of_live hx, hcap, assignAt, hraw, bind, Except.bind]
    · obtain ⟨y, hy⟩ := hdst i (le_refl _) (by omega)
      have hrec := ih (i + 1) (dst.set i (some x)) (by omega) (by omega)
        (fun j h1 h2 => hlive j (by omega) (by omega))
        (fun j h1 h2 => by
          obtain ⟨z, hz⟩ := hdst j (by omega) h2
          exact ⟨z, by rw [List.getElem?_set_ne (by omega)]; exact hz⟩)
        (by rw [List.getElem?_set_ne hic]; exact hraw)
      have hle : i ≤ cc := hi
      simp [copyAssignLoop, readSlot_of_live hx, hle, hcap, assignAt, hy, hrec, bind,
        Except.bind]

/-- Copy assignment into a target whose capacity suffices but which holds fewer
elements than the source copy-assigns to the target's first raw slot: the call
has no defined behaviour. -/
theorem copy_assign_raw_slot (ok : Nat → Bool) (self rhs : Vector T) (t s : List T)
    (ht : self.holds t) (hs : rhs.holds s) (hreuse : rhs.m_capacity ≤ self.m_capacity)
    (hlt : t.length < s.length) :
    copy_assign_op ok false rhs self = .undefined := by
  have htc := ht.1
  have hsc := hs.1
  have hscap := hs.2.1
  have hloop := copyAssignLoop_raw_slot self.m_elemCount self.m_capacity rhs.m_capacity
    rhs.m_elemCount 0 rhs.block self.block hreuse (Nat.zero_le _) (by omega)
    (fun j _ h2 => hs.live j (by omega)) (fun j _ h2 => ht.live j (by omega))
    (by rw [ht.block_getElem? _ (by omega), List.getElem?_eq_none (by omega)])
  unfold copy_assign_op
  simp only [Bool.false_eq_true, if_false, bind, Op.bind, Op.self, ge_iff_le, hreuse, if_true,
    gt_iff_lt, not_lt.mpr (show self.m_elemCount ≤ rhs.m_elemCount by omega), Op.pure,
    Op.slots, hloop]

/-- Copy assignment of a container to itself changes nothing. -/
theorem copy_assign_self (ok : Nat → Bool) (self : Vector T) :
    copy_assign_op ok true self self = .returned () self := by
  simp [copy_assign_op, Op.pure]

/-- Copy assignment into a target of too little capacity whose allocation fails
throws with the target emptied. -/
theorem copy_assign_alloc_fails (ok : Nat → Bool) (self rhs : Vector T) (t : List T)
    (ht : self.holds t) (hlt : self.m_capacity < rhs.m_capacity)
    (hok : ok rhs.m_capacity = false) :
    copy_assign_op ok false rhs self = .thrown .bad_alloc ⟨none, 0, 0⟩ := by
  obtain ⟨b, hb, _, _⟩ := destructElems_spec self.block 0 self.m_elemCount (Nat.zero_le _)
    (fun j _ h2 => ht.live j (by have := ht.1; omega))
  unfold copy_assign_op
  simp [bind, Op.bind, Op.self, not_le.mpr hlt, hb, Op.slots, Op.assign, allocMany_op, hok]

end CopyMove

/-! ## Exceptions and the container they leave -/

section Atomic
variable {T : Type}

/-- An exception leaves a sequence of two statements from the first, or from
the second run after the first returned. -/
theorem Op.bind_thrown {α β : Type} {m : Op T α} {f : α → Op T β} {v v1 : Vector T}
    {e : Fault} (h : (m >>= f) v = .thrown e v1) :
    m v = .thrown e v1 ∨ ∃ a s, m v = .returned a s ∧ f a s = .thrown e v1 := by
  change Op.bind m f v = .thrown e v1 at h
  unfold Op.bind at h
  split at h
  · rename_i a s heq
    exact Or.inr ⟨a, s, heq, h⟩
  · rename_i e1 s1 heq
    cases h
    exact Or.inl heq
  · cases h

theorem Op.slots_not_thrown {α : Type} (r : Except Fault α) (v v1 : Vector T) (e : Fault) :
    (Op.slots r : Op T α) v ≠ .thrown e v1 := by
  unfold Op.slots
  split <;> simp

theorem Op.self_not_thrown (v v1 : Vector T) (e : Fault) :
    (Op.self : Op T (Vector T)) v ≠ .thrown e v1 := by
  simp [Op.self]

theorem Op.assign_not_thrown (w v v1 : Vector T) (e : Fault) :
    (Op.assign w : Op T Unit) v ≠ .thrown e v1 := by
  simp [Op.assign]

theorem Op.pure_not_thrown {α : Type} (a : α) (v v1 : Vector T) (e : Fault) :
    (Op.pure a : Op T α) v ≠ .thrown e v1 := by
  simp [Op.pure]

theorem Op.self_returned {v s a : Vector T} (h : (Op.self : Op T (Vector T)) v = .returned a s) :
    v = a ∧ v = s := by
  simp only [Op.self, Exit.returned.injEq] at h
  exact ⟨h.1, h.2⟩

/-- `allocMany` throws `bad_alloc` exactly when the request fails, and writes
nothing. -/
theorem allocMany_op_thrown {ok : Nat → Bool} {n : Nat} {v v1 : Vector T} {e : Fault}
    (h : allocMany_op ok n v = .thrown e v1) : e = .bad_alloc ∧ v1 = v ∧ ok n = false := by
  unfold allocMany_op at h
  cases hok : ok n
  · simp only [hok, Bool.false_eq_true, if_false, Exit.thrown.injEq] at h
    exact ⟨h.1.symm, h.2.symm, rfl⟩
  · simp [hok] at h

theorem allocMany_op_fails {ok : Nat → Bool} {n : Nat} (v : Vector T) (hok : ok n = false) :
    allocMany_op ok n v = .thrown .bad_alloc v := by
  simp [allocMany_op, hok]

/-- An exception leaves `allocateBuffer` only from its request, before any
write. -/
theorem allocateBuffer_op_thrown {ok : Nat → Bool} {n : Nat} {v v1 : Vector T} {e : Fault}
    (h : allocateBuffer_op ok n v = .thrown e v1) : e = .bad_alloc ∧ v1 = v ∧ ok n = false := by
  unfold allocateBuffer_op at h
  rcases Op.bind_thrown h with h1 | ⟨tmp, s, _, h2⟩
  · exact allocMany_op_thrown h1
  · rcases Op.bind_thrown h2 with h3 | ⟨w, s1, _, h4⟩
    · exact absurd h3 (Op.self_not_thrown _ _ _)
    · rcases Op.bind_thrown h4 with h5 | ⟨r, s2, _, h6⟩
      · exact absurd h5 (Op.slots_not_thrown _ _ _ _)
      · exact absurd h6 (Op.assign_not_thrown _ _ _ _)

theorem allocateBuffer_op_fails {ok : Nat → Bool} {n : Nat} (v : Vector T)
    (hok : ok n = false) : allocateBuffer_op ok n v = .thrown .bad_alloc v := by
  simp [allocateBuffer_op, bind, Op.bind, allocMany_op, hok]

/-- An exception leaves `growIfNeeded` only from the request of a needed
growth, before any write. -/
theorem growIfNeeded_op_thrown {ok : Nat → Bool} {k : Nat} {v v1 : Vector T} {e : Fault}
    (h : growIfNeeded_op ok k v = .thrown e v1) :
    e = .bad_alloc ∧ v1 = v ∧ shouldResizeBuffer v k = true ∧
      ok (max (v.m_capacity * 3 / 2) ((v.m_elemCount + k) % SIZE_MOD)) = false := by
  unfold growIfNeeded_op at h
  rcases Op.bind_thrown h with h1 | ⟨w, s, hw, h2⟩
  · exact absurd h1 (Op.self_not_thrown _ _ _)
  · obtain ⟨rfl, rfl⟩ := Op.self_returned hw
    cases hr : shouldResizeBuffer v k
    · rw [hr] at h2
      exact absurd h2 (Op.pure_not_thrown _ _ _ _)
    · rw [hr] at h2
      simp only [if_true] at h2
      unfold growBuffer_op at h2
      rcases Op.bind_thrown h2 with h3 | ⟨w1, s1, hw1, h4⟩
      · exact absurd h3 (Op.self_not_thrown _ _ _)
      · obtain ⟨rfl, rfl⟩ := Op.self_returned hw1
        obtain ⟨he, hv, hok⟩ := allocateBuffer_op_thrown h4
        exact ⟨he, hv, rfl, hok⟩

theorem growIfNeeded_op_fails {ok : Nat → Bool} {k : Nat} (v : Vector T)
    (hr : shouldResizeBuffer v k = true)
    (hok : ok (max (v.m_capacity * 3 / 2) ((v.m_elemCount + k) % SIZE_MOD)) = false) :
    growIfNeeded_op ok k v = .thrown .bad_alloc v := by
  simp [growIfNeeded_op, growBuffer_op, bind, Op.bind, Op.self, hr, allocateBuffer_op,
    allocMany_op, hok]

theorem Op.NoThrow.bind {α β : Type} {m : Op T α} {f : α → Op T β} (hm : m.NoThrow)
    (hf : ∀ a, (f a).NoThrow) : (m >>= f).NoThrow := by
  intro v v1 e h
  rcases Op.bind_thrown h with h1 | ⟨a, s, _, h2⟩
  · exact hm _ _ _ h1
  · exact hf a _ _ _ h2

theorem Op.slots_noThrow {α : Type} (r : Except Fault α) : (Op.slots r : Op T α).NoThrow :=
  fun v v1 e => Op.slots_not_thrown r v v1 e

theorem Op.self_noThrow : (Op.self : Op T (Vector T)).NoThrow :=
  fun v v1 e => Op.self_not_thrown v v1 e

theorem Op.assign_noThrow (w : Vector T) : (Op.assign w : Op T Unit).NoThrow :=
  fun v v1 e => Op.assign_not_thrown w v v1 e

theorem Op.pure_noThrow {α : Type} (a : α) : (Op.pure a : Op T α).NoThrow :=
  fun v v1 e => Op.pure_not_thrown a v v1 e

/-- When what follows a statement cannot throw, an exception comes from the
statement itself. -/
theorem Op.thrown_of_tail {α β : Type} {m : Op T α} {f : α → Op T β} {v v1 : Vector T}
    {e : Fault} (hf : ∀ a, (f a).NoThrow) (h : (m >>= f) v = .thrown e v1) :
    m v = .thrown e v1 := by
  rcases Op.bind_thrown h with h1 | ⟨a, s, _, h2⟩
  · exact h1
  · exact absurd h2 (hf a _ _ _)

/-- An exception leaves `push_back(const T&)` only from the request of a needed
growth, before any write. -/
theorem insertElem_op_thrown {ok : Nat → Bool} {x : T} {v v1 : Vector T} {e : Fault}
    (h : insertElem_op ok x v = .thrown e v1) :
    e = .bad_alloc ∧ v1 = v ∧ shouldResizeBuffer v 1 = true ∧
      ok (max (v.m_capacity * 3 / 2) ((v.m_elemCount + 1) % SIZE_MOD)) = false := by
  unfold insertElem_op at h
  exact growIfNeeded_op_thrown (Op.thrown_of_tail (fun _ =>
    Op.NoThrow.bind Op.self_noThrow (fun _ =>
      Op.NoThrow.bind (Op.slots_noThrow _) (fun _ => Op.assign_noThrow _))) h)

theorem emplace_back_op_thrown {ok : Nat → Bool} {x : T} {v v1 : Vector T} {e : Fault}
    (h : emplace_back_op ok x v = .thrown e v1) :
    e = .bad_alloc ∧ v1 = v ∧ shouldResizeBuffer v 1 = true ∧
      ok (max (v.m_capacity * 3 / 2) ((v.m_elemCount + 1) % SIZE_MOD)) = false := by
  unfold emplace_back_op at h
  exact growIfNeeded_op_thrown (Op.thrown_of_tail (fun _ =>
    Op.NoThrow.bind Op.self_noThrow (fun _ =>
      Op.NoThrow.bind (Op.slots_noThrow _) (fun _ => Op.assign_noThrow _))) h)

theorem shrink_to_fit_op_thrown {ok : Nat → Bool} {v v1 : Vector T} {e : Fault}
    (h : shrink_to_fit_op ok v = .thrown e v1) :
    e = .bad_alloc ∧ v1 = v ∧ ok v.m_elemCount = false := by
  unfold shrink_to_fit_op at h
  rcases Op.bind_thrown h with h1 | ⟨w, s, hw, h2⟩
  · exact absurd h1 (Op.self_not_thrown _ _ _)
  · obtain ⟨rfl, rfl⟩ := Op.self_returned hw
    exact allocateBuffer_op_thrown h2

/-- An exception leaves the repeated-copy insertion only from its request,
made by the append case or the reallocate-and-splice case, before any write. -/
theorem insertAt_op_thrown {ok : Nat → Bool} {pos k : Nat} {x : T} {v v1 : Vector T}
    {e : Fault} (h : insertAt_op ok pos x k v = .thrown e v1) :
    e = .bad_alloc ∧ v1 = v ∧ shouldResizeBuffer v k = true ∧
      ok (max (v.m_capacity * 3 / 2) ((v.m_elemCount + k) % SIZE_MOD)) = false := by
  unfold insertAt_op at h
  rcases Op.bind_thrown h with h1 | ⟨w, s, hw, h2⟩
  · exact absurd h1 (Op.self_not_thrown _ _ _)
  · obtain ⟨rfl, rfl⟩ := Op.self_returned hw
    dsimp only at h2
    by_cases hend : pos = v.m_elemCount
    · rw [if_pos hend] at h2
      exact growIfNeeded_op_thrown (Op.thrown_of_tail (fun _ =>
        Op.NoThrow.bind Op.self_noThrow (fun _ =>
          Op.NoThrow.bind (Op.slots_noThrow _) (fun _ =>
            Op.NoThrow.bind (Op.assign_noThrow _) (fun _ => Op.pure_noThrow _)))) h2)
    · rw [if_neg hend] at h2
      cases hr : shouldResizeBuffer v k
      · rw [hr] at h2
        simp only [Bool.not_false, if_true] at h2
        exact absurd h2 (Op.NoThrow.bind (Op.slots_noThrow _) (fun _ =>
          Op.NoThrow.bind (Op.slots_noThrow _) (fun _ =>
            Op.NoThrow.bind (Op.assign_noThrow _) (fun _ => Op.pure_noThrow _))) _ _ _)
      · rw [hr] at h2
        simp only [Bool.not_true, Bool.false_eq_true, if_false] at h2
        obtain ⟨he, hv, hok⟩ := allocMany_op_thrown (Op.thrown_of_tail (fun _ =>
          Op.NoThrow.bind (Op.slots_noThrow _) (fun _ =>
            Op.NoThrow.bind (Op.slots_noThrow _) (fun _ =>
              Op.NoThrow.bind (Op.slots_noThrow _) (fun _ =>
                Op.NoThrow.bind (Op.assign_noThrow _) (fun _ => Op.pure_noThrow _))))) h2)
        exact ⟨he, hv, rfl, hok⟩

theorem insertAtMove_op_thrown {ok : Nat → Bool} {pos : Nat} {x : T} {v v1 : Vector T}
    {e : Fault} (h : insertAtMove_op ok pos x v = .thrown e v1) :
    e = .bad_alloc ∧ v1 = v ∧ shouldResizeBuffer v 1 = true ∧
      ok (max (v.m_capacity * 3 / 2) ((v.m_elemCount + 1) % SIZE_MOD)) = false := by
  unfold insertAtMove_op at h
  rcases Op.bind_thrown h with h1 | ⟨w, s, hw, h2⟩
  · exact absurd h1 (Op.self_not_thrown _ _ _)
  · obtain ⟨rfl, rfl⟩ := Op.self_returned hw
    dsimp only at h2
    by_cases hend : pos = v.m_elemCount
    · rw [if_pos hend] at h2
      exact growIfNeeded_op_thrown (Op.thrown_of_tail (fun _ =>
        Op.NoThrow.bind Op.self_noThrow (fun _ =>
          Op.NoThrow.bind (Op.slots_noThrow _) (fun _ =>
            Op.NoThrow.bind (Op.assign_noThrow _) (fun _ => Op.pure_noThrow _)))) h2)
    · rw [if_neg hend] at h2
      cases hr : shouldResizeBuffer v 1
      · rw [hr] at h2
        simp only [Bool.not_false, if_true] at h2
        exact absurd h2 (Op.NoThrow.bind (Op.slots_noThrow _) (fun _ =>
          Op.NoThrow.bind (Op.slots_noThrow _) (fun _ =>
            Op.NoThrow.bind (Op.assign_noThrow _) (fun _ => Op.pure_noThrow _))) _ _ _)
      · rw [hr] at h2
        simp only [Bool.not_true, Bool.false_eq_true, if_false] at h2
        obtain ⟨he, hv, hok⟩ := allocMany_op_thrown (Op.thrown_of_tail (fun _ =>
          Op.NoThrow.bind (Op.slots_noThrow _) (fun _ =>
            Op.NoThrow.bind (Op.slots_noThrow _) (fun _ =>
              Op.NoThrow.bind (Op.slots_noThrow _) (fun _ =>
                Op.NoThrow.bind (Op.assign_noThrow _) (fun _ => Op.pure_noThrow _))))) h2)
        exact ⟨he, hv, rfl, hok⟩

theorem insertAtRange_op_thrown {ok : Nat → Bool} {pos : Nat} {r : List T} {v v1 : Vector T}
    {e : Fault} (h : insertAtRange_op ok pos r v = .thrown e v1) :
    e = .bad_alloc ∧ v1 = v ∧ shouldResizeBuffer v r.length = true ∧
      ok (max (v.m_capacity * 3 / 2) ((v.m_elemCount + r.length) % SIZE_MOD)) = false := by
  unfold insertAtRange_op at h
  rcases Op.bind_thrown h with h1 | ⟨w, s, hw, h2⟩
  · exact absurd h1 (Op.self_not_thrown _ _ _)
  · obtain ⟨rfl, rfl⟩ := Op.self_returned hw
    dsimp only at h2
    by_cases hend : pos = v.m_elemCount
    · rw [if_pos hend] at h2
      exact growIfNeeded_op_thrown (Op.thrown_of_tail (fun _ =>
        Op.NoThrow.bind Op.self_noThrow (fun _ =>
          Op.NoThrow.bind (Op.slots_noThrow _) (fun _ =>
            Op.NoThrow.bind (Op.assign_noThrow _) (fun _ => Op.pure_noThrow _)))) h2)
    · rw [if_neg hend] at h2
      have hsame : decide (v.m_capacity < (v.m_elemCount + r.length) % SIZE_MOD) =
          shouldResizeBuffer v r.length := rfl
      rw [hsame] at h2
      cases hr : shouldResizeBuffer v r.length
      · rw [hr] at h2
        simp only [Bool.not_false, if_true] at h2
        exact absurd h2 (Op.NoThrow.bind (Op.slots_noThrow _) (fun _ =>
          Op.NoThrow.bind (Op.slots_noThrow _) (fun _ =>
            Op.NoThrow.bind (Op.assign_noThrow _) (fun _ => Op.pure_noThrow _))) _ _ _)
      · rw [hr] at h2
        simp only [Bool.not_true, Bool.false_eq_true, if_false] at h2
        obtain ⟨he, hv, hok⟩ := allocMany_op_thrown (Op.thrown_of_tail (fun _ =>
          Op.NoThrow.bind (Op.slots_noThrow _) (fun _ =>
            Op.NoThrow.bind (Op.slots_noThrow _) (fun _ =>
              Op.NoThrow.bind (Op.slots_noThrow _) (fun _ =>
                Op.NoThrow.bind (Op.assign_noThrow _) (fun _ => Op.pure_noThrow _))))) h2)
        exact ⟨he, hv, rfl, hok⟩

theorem Op.bind_of_thrown {α β : Type} {m : Op T α} (f : α → Op T β) {v v1 : Vector T}
    {e : Fault} (h : m v = .thrown e v1) : Op.bind m f v = .thrown e v1 := by
  unfold Op.bind
  rw [h]

theorem insertElem_op_fails {ok : Nat → Bool} (x : T) (v : Vector T)
    (hr : shouldResizeBuffer v 1 = true)
    (hok : ok (max (v.m_capacity * 3 / 2) ((v.m_elemCount + 1) % SIZE_MOD)) = false) :
    insertElem_op ok x v = .thrown .bad_alloc v := by
  unfold insertElem_op
  simp only [bind, Op.bind]
  rw [growIfNeeded_op_fails v hr hok]

theorem emplace_back_op_fails {ok : Nat → Bool} (x : T) (v : Vector T)
    (hr : shouldResizeBuffer v 1 = true)
    (hok : ok (max (v.m_capacity * 3 / 2) ((v.m_elemCount + 1) % SIZE_MOD)) = false) :
    emplace_back_op ok x v = .thrown .bad_alloc v := by
  unfold emplace_back_op
  simp only [bind, Op.bind]
  rw [growIfNeeded_op_fails v hr hok]

theorem shrink_to_fit_op_fails {ok : Nat → Bool} (v : Vector T)
    (hok : ok v.m_elemCount = false) : shrink_to_fit_op ok v = .thrown .bad_alloc v := by
  unfold shrink_to_fit_op
  simp only [bind, Op.bind, Op.self]
  exact allocateBuffer_op_fails v hok

theorem insertAt_op_fails {ok : Nat → Bool} (pos k : Nat) (x : T) (v : Vector T)
    (hr : shouldResizeBuffer v k = true)
    (hok : ok (max (v.m_capacity * 3 / 2) ((v.m_elemCount + k) % SIZE_MOD)) = false) :
    insertAt_op ok pos x k v = .thrown .bad_alloc v := by
  unfold insertAt_op
  simp only [bind, Op.bind, Op.self, hr, Bool.not_true, Bool.false_eq_true, if_false]
  by_cases hend : pos = v.m_elemCount
  · rw [if_pos hend]
    exact Op.bind_of_thrown _ (growIfNeeded_op_fails v hr hok)
  · rw [if_neg hend]
    exact Op.bind_of_thrown _ (allocMany_op_fails v hok)

theorem insertAtMove_op_fails {ok : Nat → Bool} (pos : Nat) (x : T) (v : Vector T)
    (hr : shouldResizeBuffer v 1 = true)
    (hok : ok (max (v.m_capacity * 3 / 2) ((v.m_elemCount + 1) % SIZE_MOD)) = false) :
    insertAtMove_op ok pos x v = .thrown .bad_alloc v := by
  unfold insertAtMove_op
  simp only [bind, Op.bind, Op.self, hr, Bool.not_true, Bool.false_eq_true, if_false]
  by_cases hend : pos = v.m_elemCount
  · rw [if_pos hend]
    exact Op.bind_of_thrown _ (growIfNeeded_op_fails v hr hok)
  · rw [if_neg hend]
    exact Op.bind_of_thrown _ (allocMany_op_fails v hok)

theorem insertAtRange_op_fails {ok : Nat → Bool} (pos : Nat) (r : List T) (v : Vector T)
    (hr : shouldResizeBuffer v r.length = true)
    (hok : ok (max (v.m_capacity * 3 / 2) ((v.m_elemCount + r.length) % SIZE_MOD)) = false) :
    insertAtRange_op ok pos r v = .thrown .bad_alloc v := by
  have hsame : decide (v.m_capacity < (v.m_elemCount + r.length) % SIZE_MOD) =
      shouldResizeBuffer v r.length := rfl
  unfold insertAtRange_op
  simp only [bind, Op.bind, Op.self, hsame, hr, Bool.not_true, Bool.false_eq_true, if_false]
  by_cases hend : pos = v.m_elemCount
  · rw [if_pos hend]
    exact Op.bind_of_thrown _ (growIfNeeded_op_fails v hr hok)
  · rw [if_neg hend]
    exact Op.bind_of_thrown _ (allocMany_op_fails v hok)

/-- The transformer form of `allocateBuffer` returns exactly when the plain
form does, with the same container. -/
theorem allocateBuffer_op_returned (ok : Nat → Bool) (n : Nat) (v v1 : Vector T) :
    allocateBuffer_op ok n v = .returned () v1 ↔ allocateBuffer ok v n = .ok v1 := by
  unfold allocateBuffer_op allocateBuffer allocMany_op allocMany
  cases hok : ok n
  · simp [bind, Op.bind, Except.bind]
  · cases hl : allocateBufferLoop v.m_elemCount 0 v.block (List.replicate n none) <;>
      simp [bind, Op.bind, Except.bind, Op.self, Op.slots, Op.assign, pure, Except.pure, hl]

theorem growIfNeeded_op_returned (ok : Nat → Bool) (k : Nat) (v v1 : Vector T) :
    growIfNeeded_op ok k v = .returned () v1 ↔ growIfNeeded ok v k = .ok v1 := by
  unfold growIfNeeded_op growIfNeeded growBuffer_op growBuffer
  cases hr : shouldResizeBuffer v k
  · simp [bind, Op.bind, Op.self, Op.pure, hr]
  · simp only [bind, Op.bind, Op.self, hr, if_true]
    exact allocateBuffer_op_returned ok _ v v1

theorem reserve_op_returned (ok : Nat → Bool) (n : Nat) (v v1 : Vector T) :
    reserve_op ok n v = .returned () v1 ↔ reserve ok v n = .ok v1 :=
  growIfNeeded_op_returned ok n v v1

theorem shrink_to_fit_op_returned (ok : Nat → Bool) (v v1 : Vector T) :
    shrink_to_fit_op ok v = .returned () v1 ↔ shrink_to_fit ok v = .ok v1 := by
  unfold shrink_to_fit_op shrink_to_fit
  simp only [bind, Op.bind, Op.self]
  exact allocateBuffer_op_returned ok _ v v1

/-- A statement sequence that starts with `growIfNeeded`, in both forms. -/
theorem growIfNeeded_then_returned {α : Type} (ok : Nat → Bool) (k : Nat) (v v1 : Vector T)
    (a : α) (f : Op T α) (g : Vector T → Except Fault (Vector T × α))
    (hfg : ∀ w, f w = .returned a v1 ↔ g w = .ok (v1, a)) :
    ((growIfNeeded_op ok k >>= fun _ => f) v = .returned a v1) ↔
      ((growIfNeeded ok v k >>= g) = .ok (v1, a)) := by
  cases hex : growIfNeeded ok v k with
  | ok w =>
    have hop := (growIfNeeded_op_returned ok k v w).mpr hex
    simp only [bind, Op.bind, hop, Except.bind]
    exact hfg w
  | error e =>
    cases hop : growIfNeeded_op ok k v with
    | returned u w =>
      have := (growIfNeeded_op_returned ok k v w).mp hop
      rw [hex] at this
      cases this
    | thrown e1 w => simp [bind, Op.bind, hop, Except.bind]
    | undefined => simp [bind, Op.bind, hop, Except.bind]

theorem insertElem_op_returned (ok : Nat → Bool) (x : T) (v v1 : Vector T) :
    insertElem_op ok x v = .returned () v1 ↔ insertElem ok v x = .ok v1 := by
  have h := growIfNeeded_then_returned ok 1 v v1 ()
    (Op.self >>= fun w => Op.slots (constructAt w.block w.m_elemCount x) >>= fun b =>
      Op.assign (w.withBlock b (w.m_elemCount + 1)))
    (fun w => constructAt w.block w.m_elemCount x >>= fun b =>
      pure (w.withBlock b (w.m_elemCount + 1), ()))
    (fun w => by
      cases hc : constructAt w.block w.m_elemCount x <;>
        simp [bind, Op.bind, Op.self, Op.slots, Op.assign, Except.bind, pure, Except.pure, hc])
  unfold insertElem_op insertElem
  rw [h]
  cases growIfNeeded ok v 1 with
  | error e => simp [bind, Except.bind]
  | ok w =>
    cases hc : constructAt w.block w.m_elemCount x <;>
      simp [bind, Except.bind, pure, Except.pure, hc]

theorem emplace_back_op_returned (ok : Nat → Bool) (x : T) (v v1 : Vector T) :
    emplace_back_op ok x v = .returned () v1 ↔ emplace_back ok v x = .ok v1 :=
  insertElem_op_returned ok x v v1

theorem insertAtRange_op_returned (ok : Nat → Bool) (pos p : Nat) (r : List T)
    (v v1 : Vector T) :
    insertAtRange_op ok pos r v = .returned p v1 ↔ insertAtRange ok v pos r = .ok (v1, p) := by
  unfold insertAtRange_op insertAtRange
  simp only [bind, Op.bind, Op.self]
  by_cases hend : pos = v.m_elemCount
  · simp only [hend, if_true]
    have h := growIfNeeded_then_returned ok r.length v v1 p
      (Op.self >>= fun w => Op.slots (copyLoop r w.m_elemCount w.block) >>= fun b =>
        Op.assign (w.withBlock b (w.m_elemCount + r.length)) >>= fun _ =>
          Op.pure v.m_elemCount)
      (fun w => copyLoop r w.m_elemCount w.block >>= fun b =>
        pure (w.withBlock b (w.m_elemCount + r.length), v.m_elemCount))
      (fun w => by
        cases hc : copyLoop r w.m_elemCount w.block <;>
          simp [bind, Op.bind, Op.self, Op.slots, Op.assign, Op.pure, Except.bind, pure,
            Except.pure, hc, and_comm])
    exact h
  · simp only [hend, if_false]
    cases hr : decide (v.m_capacity < (v.m_elemCount + r.length) % SIZE_MOD)
    · simp only [Bool.not_false, if_true]
      cases h1 : shiftElemsRight v.block v.m_elemCount pos r.length with
      | error e => simp [Op.bind, Op.slots, Except.bind]
      | ok b1 =>
        cases h2 : copyLoop r pos b1 <;>
          simp [Op.bind, Op.slots, Op.assign, Op.pure, Except.bind, pure, Except.pure, h2, and_comm]
    · simp only [Bool.not_true, Bool.false_eq_true, if_false]
      unfold allocMany_op allocMany
      cases hok : ok (max (v.m_capacity * 3 / 2) ((v.m_elemCount + r.length) % SIZE_MOD))
      · simp [Op.bind, Except.bind]
      · simp only [if_true, Except.bind]
        cases h1 : moveElemsToOtherBuffer (List.replicate
            (max (v.m_capacity * 3 / 2) ((v.m_elemCount + r.length) % SIZE_MOD)) none)
            v.block 0 0 pos with
        | error e => simp [Op.bind, Op.slots, h1]
        | ok r1 =>
          cases h2 : copyLoop r pos r1.1 with
          | error e => simp [Op.bind, Op.slots, h1, h2]
          | ok t1 =>
            cases h3 : moveElemsToOtherBuffer t1 r1.2 (pos + r.length) pos v.m_elemCount <;>
              simp [Op.bind, Op.slots, Op.assign, Op.pure, pure, Except.pure, h1, h2, h3, and_comm]

theorem insertAt_op_eq_insertAtRange_op (ok : Nat → Bool) (pos : Nat) (elem : T) (count : Nat) :
    insertAt_op ok pos elem count = insertAtRange_op ok pos (List.replicate count elem) := by
  simp only [insertAt_op, insertAtRange_op, fillLoop_eq_copyLoop, shouldResizeBuffer,
    List.length_replicate, gt_iff_lt]

theorem insertAtMove_op_eq_insertAtRange_op (ok : Nat → Bool) (pos : Nat) (elem : T) :
    insertAtMove_op ok pos elem = insertAtRange_op ok pos [elem] := by
  simp only [insertAtMove_op, insertAtRange_op, copyLoop_singleton, shouldResizeBuffer,
    List.length_singleton, gt_iff_lt]

theorem insertAt_op_returned (ok : Nat → Bool) (pos p k : Nat) (x : T) (v v1 : Vector T) :
    insertAt_op ok pos x k v = .returned p v1 ↔ insertAt ok v pos x k = .ok (v1, p) := by
  rw [insertAt_op_eq_insertAtRange_op, insertAt_eq_insertAtRange]
  exact insertAtRange_op_returned ok pos p _ v v1

theorem insertAtMove_op_returned (ok : Nat → Bool) (pos p : Nat) (x : T) (v v1 : Vector T) :
    insertAtMove_op ok pos x v = .returned p v1 ↔ insertAtMove ok v pos x = .ok (v1, p) := by
  rw [insertAtMove_op_eq_insertAtRange_op, insertAtMove_eq_insertAtRange]
  exact insertAtRange_op_returned ok pos p _ v v1

end Atomic

/-! ## The count never exceeds the capacity -/

section Bounds
variable {T : Type}

/-- A sequence of two fallible steps that returned: both steps returned. -/
theorem bind_ok {α β : Type} {x : Except Fault α} {f : α → Except Fault β} {b : β} :
    (x >>= f) = Except.ok b → ∃ a, x = Except.ok a ∧ f a = Except.ok b := by
  intro h
  match x, h with
  | Except.ok a, h => exact ⟨a, rfl, h⟩
  | Except.error e, h => cases h

theorem constructAt_ok {b b1 : Buffer T} {i : Nat} {x : T} (h : constructAt b i x = .ok b1) :
    i < b.length ∧ b1.length = b.length := by
  unfold constructAt at h
  split at h
  · cases h
    exact ⟨by assumption, by simp⟩
  · cases h

theorem destroyAt_ok {b b1 : Buffer T} {i : Nat} (h : destroyAt b i = .ok b1) :
    b1.length = b.length := by
  unfold destroyAt at h
  split at h
  · cases h; simp
  · cases h

theorem assignAt_ok {b b1 : Buffer T} {i : Nat} {x : T} (h : assignAt b i x = .ok b1) :
    b1.length = b.length := by
  unfold assignAt at h
  split at h
  · cases h; simp
  · cases h

theorem destructLoop_ok {n i : Nat} {b b1 : Buffer T} (h : destructLoop n i b = .ok b1) :
    b1.length = b.length := by
  induction n generalizing i b with
  | zero => cases h; rfl
  | succ n ih =>
    unfold destructLoop at h
    obtain ⟨b2, h1, h2⟩ := bind_ok h
    rw [ih h2, destroyAt_ok h1]

theorem copyLoop_ok {r : List T} {p : Nat} {b b1 : Buffer T} (h : copyLoop r p b = .ok b1) :
    b1.length = b.length ∧ (r ≠ [] → p + r.length ≤ b.length) := by
  induction r generalizing p b with
  | nil => cases h; exact ⟨rfl, fun hne => absurd rfl hne⟩
  | cons x xs ih =>
    unfold copyLoop at h
    obtain ⟨b2, h1, h2⟩ := bind_ok h
    obtain ⟨hp, hl⟩ := constructAt_ok h1
    obtain ⟨hl2, hb⟩ := ih h2
    refine ⟨by rw [hl2, hl], fun _ => ?_⟩
    cases xs with
    | nil => simp; omega
    | cons y ys =>
      have := hb (by simp)
      simp only [List.length_cons] at this ⊢
      omega

theorem shiftLoop_ok {a n e : Nat} {b b1 : Buffer T} (h : shiftLoop a n e b = .ok b1) :
    b1.length = b.length ∧ (0 < n → e + a < b.length) := by
  induction n generalizing e b with
  | zero => cases h; exact ⟨rfl, fun hn => absurd hn (Nat.lt_irrefl 0)⟩
  | succ n ih =>
    unfold shiftLoop at h
    obtain ⟨x, _, h⟩ := bind_ok h
    obtain ⟨b2, h2, h⟩ := bind_ok h
    obtain ⟨b3, h3, h⟩ := bind_ok h
    obtain ⟨hp, hl⟩ := constructAt_ok h2
    have hl3 := destroyAt_ok h3
    exact ⟨by rw [(ih h).1, hl3, hl], fun _ => hp⟩

theorem compactLoop_ok {d n e : Nat} {b b1 : Buffer T} (h : compactLoop d n e b = .ok b1) :
    b1.length = b.length := by
  induction n generalizing e b with
  | zero => cases h; rfl
  | succ n ih =>
    unfold compactLoop at h
    obtain ⟨x, _, h⟩ := bind_ok h
    obtain ⟨b2, h2, h⟩ := bind_ok h
    obtain ⟨b3, h3, h⟩ := bind_ok h
    rw [ih h, destroyAt_ok h3, (constructAt_ok h2).2]

theorem moveLoop_ok {n d s : Nat} {dest src : Buffer T} {r : Buffer T × Buffer T}
    (h : moveLoop n d s dest src = .ok r) : r.1.length = dest.length := by
  induction n generalizing d s dest src with
  | zero => cases h; rfl
  | succ n ih =>
    unfold moveLoop at h
    obtain ⟨x, _, h⟩ := bind_ok h
    obtain ⟨b2, h2, h⟩ := bind_ok h
    obtain ⟨b3, _, h⟩ := bind_ok h
    rw [ih h, (constructAt_ok h2).2]

theorem moveElemsToOtherBuffer_ok {d a c : Nat} {dest src : Buffer T}
    {r : Buffer T × Buffer T} (h : moveElemsToOtherBuffer dest src d a c = .ok r) :
    r.1.length = dest.length := by
  unfold moveElemsToOtherBuffer at h
  split at h
  · cases h
  · exact moveLoop_ok h

theorem allocateBufferLoop_ok {n i : Nat} {old tmp : Buffer T} {r : Buffer T × Buffer T}
    (h : allocateBufferLoop n i old tmp = .ok r) :
    r.2.length = tmp.length ∧ (0 < n → i + n ≤ tmp.length) := by
  induction n generalizing i old tmp with
  | zero => cases h; exact ⟨rfl, fun hn => absurd hn (Nat.lt_irrefl 0)⟩
  | succ n ih =>
    unfold allocateBufferLoop at h
    obtain ⟨x, _, h⟩ := bind_ok h
    obtain ⟨b2, h2, h⟩ := bind_ok h
    obtain ⟨b3, _, h⟩ := bind_ok h
    obtain ⟨hp, hl⟩ := constructAt_ok h2
    obtain ⟨hl2, hb⟩ := ih h
    refine ⟨by rw [hl2, hl], fun _ => ?_⟩
    rcases Nat.eq_zero_or_pos n with hn | hn
    · omega
    · have := hb hn
      rw [hl] at this
      omega

theorem copyConstructLoop_ok {n i : Nat} {src dst b1 : Buffer T}
    (h : copyConstructLoop n i src dst = .ok b1) : b1.length = dst.length := by
  induction n generalizing i dst with
  | zero => cases h; rfl
  | succ n ih =>
    unfold copyConstructLoop at h
    obtain ⟨x, _, h⟩ := bind_ok h
    obtain ⟨b2, h2, h⟩ := bind_ok h
    rw [ih h, (constructAt_ok h2).2]

theorem copyAssignLoop_ok {cc ccap rcap n i : Nat} {src dst b1 : Buffer T}
    (h : copyAssignLoop cc ccap rcap n i src dst = .ok b1) : b1.length = dst.length := by
  induction n generalizing i dst with
  | zero => cases h; rfl
  | succ n ih =>
    unfold copyAssignLoop at h
    obtain ⟨x, _, h⟩ := bind_ok h
    split at h
    · obtain ⟨b2, h2, h⟩ := bind_ok h
      rw [ih h, assignAt_ok h2]
    · obtain ⟨b2, h2, h⟩ := bind_ok h
      rw [ih h, (constructAt_ok h2).2]

theorem withBlock_bounded (v : Vector T) (b : Buffer T) (n : Nat)
    (hb : b.length ≤ v.m_capacity) (hn : n ≤ v.m_capacity) : (v.withBlock b n).bounded := by
  unfold Vector.bounded Vector.withBlock Vector.block
  cases v.m_data with
  | none => exact ⟨hn, Nat.zero_le _⟩
  | some b0 => exact ⟨hn, hb⟩

theorem allocMany_ok {ok : Nat → Bool} {n : Nat} {b : Buffer T} (h : allocMany ok n = .ok b) :
    b.length = n := by
  unfold allocMany at h
  split at h
  · cases h; simp
  · cases h

theorem allocateBuffer_bounded {ok : Nat → Bool} {v v1 : Vector T} {n : Nat}
    (h : allocateBuffer ok v n = .ok v1) : v1.bounded := by
  unfold allocateBuffer at h
  obtain ⟨tmp, h1, h⟩ := bind_ok h
  obtain ⟨r, h2, h⟩ := bind_ok h
  cases h
  obtain ⟨hl, hb⟩ := allocateBufferLoop_ok h2
  have hn := allocMany_ok h1
  refine ⟨?_, ?_⟩
  · show v.m_elemCount ≤ n
    rcases Nat.eq_zero_or_pos v.m_elemCount with h0 | h0
    · omega
    · have := hb h0
      omega
  · show r.2.length ≤ n
    omega

theorem growIfNeeded_bounded {ok : Nat → Bool} {v v1 : Vector T} {k : Nat} (hv : v.bounded)
    (h : growIfNeeded ok v k = .ok v1) : v1.bounded := by
  unfold growIfNeeded at h
  split at h
  · exact allocateBuffer_bounded h
  · cases h; exact hv

theorem insertElem_bounded {ok : Nat → Bool} {v v1 : Vector T} {x : T} (hv : v.bounded)
    (h : insertElem ok v x = .ok v1) : v1.bounded := by
  unfold insertElem at h
  obtain ⟨v2, h1, h⟩ := bind_ok h
  obtain ⟨b, h2, h⟩ := bind_ok h
  cases h
  have hv2 := growIfNeeded_bounded hv h1
  obtain ⟨hp, hl⟩ := constructAt_ok h2
  exact withBlock_bounded v2 b _ (by rw [hl]; exact hv2.2) (by have := hv2.2; omega)

theorem insertElems_bounded {ok : Nat → Bool} {xs : List T} {v v1 : Vector T} (hv : v.bounded)
    (h : insertElems ok xs v = .ok v1) : v1.bounded := by
  induction xs generalizing v with
  | nil => cases h; exact hv
  | cons x xs ih =>
    unfold insertElems at h
    obtain ⟨v2, h1, h⟩ := bind_ok h
    exact ih (insertElem_bounded hv h1) h

theorem pop_back_bounded {v v1 : Vector T} (hv : v.bounded) (h : pop_back v = .ok v1) :
    v1.bounded := by
  unfold pop_back at h
  split at h
  · cases h; exact hv
  · obtain ⟨b, h1, h⟩ := bind_ok h
    cases h
    exact withBlock_bounded v b _ (by rw [destroyAt_ok h1]; exact hv.2)
      (by have := hv.1; omega)

theorem clear_bounded {v v1 : Vector T} (hv : v.bounded) (h : clear v = .ok v1) :
    v1.bounded := by
  unfold clear at h
  split at h
  · cases h; exact hv
  · obtain ⟨b, h1, h⟩ := bind_ok h
    cases h
    exact withBlock_bounded v b _ (by rw [destructLoop_ok h1]; exact hv.2) (Nat.zero_le _)

theorem eraseAt_bounded {v v1 : Vector T} {first last p : Nat} (hv : v.bounded)
    (h : eraseAt v first last = .ok (v1, p)) : v1.bounded := by
  unfold eraseAt at h
  split at h
  · cases h
  · split at h
    · obtain ⟨b, h1, h⟩ := bind_ok h
      cases h
      exact withBlock_bounded v b _ (by rw [destructLoop_ok h1]; exact hv.2)
        (by have := hv.1; omega)
    · obtain ⟨b, h1, h⟩ := bind_ok h
      split at h
      · cases h
      · obtain ⟨b1, h2, h⟩ := bind_ok h
        cases h
        exact withBlock_bounded v b1 _
          (by rw [compactLoop_ok h2, destructLoop_ok h1]; exact hv.2)
          (by have := hv.1; omega)

theorem insertAtRange_bounded {ok : Nat → Bool} {v v1 : Vector T} {pos p : Nat} {r : List T}
    (hv : v.bounded) (h : insertAtRange ok v pos r = .ok (v1, p)) : v1.bounded := by
  unfold insertAtRange at h
  dsimp only at h
  split at h
  · obtain ⟨v2, h1, h⟩ := bind_ok h
    obtain ⟨b, h2, h⟩ := bind_ok h
    cases h
    have hv2 := growIfNeeded_bounded hv h1
    obtain ⟨hl, hb⟩ := copyLoop_ok h2
    refine withBlock_bounded v2 b _ (by rw [hl]; exact hv2.2) ?_
    cases r with
    | nil => exact hv2.1
    | cons y ys =>
      have := hb (by simp)
      have := hv2.2
      omega
  · split at h
    · obtain ⟨b1, h1, h⟩ := bind_ok h
      obtain ⟨b2, h2, h⟩ := bind_ok h
      cases h
      unfold shiftElemsRight at h1
      obtain ⟨hl1, hs⟩ := shiftLoop_ok h1
      obtain ⟨hl2, hb⟩ := copyLoop_ok h2
      refine withBlock_bounded v b2 _ (by rw [hl2, hl1]; exact hv.2) ?_
      cases r with
      | nil => exact hv.1
      | cons y ys =>
        have hb1 := hb (by simp)
        have := hv.2
        rcases Nat.lt_or_ge pos v.m_elemCount with hlt | hge
        · have := hs (by omega)
          omega
        · omega
    · obtain ⟨tmp, h1, h⟩ := bind_ok h
      obtain ⟨r1, h2, h⟩ := bind_ok h
      obtain ⟨t1, h3, h⟩ := bind_ok h
      obtain ⟨r2, h4, h⟩ := bind_ok h
      cases h
      have e1 := allocMany_ok h1
      have e2 := moveElemsToOtherBuffer_ok h2
      have e3 := (copyLoop_ok h3).1
      have e4 := moveElemsToOtherBuffer_ok h4
      refine ⟨Nat.le_max_right _ _, ?_⟩
      show r2.1.length ≤ _
      rw [e4, e3, e2, e1]

theorem ctor_capacity_bounded {ok : Nat → Bool} {n : Nat} {v : Vector T}
    (h : Vector.ctor_capacity ok n = .ok v) : v.bounded := by
  unfold Vector.ctor_capacity at h
  obtain ⟨b, h1, h⟩ := bind_ok h
  cases h
  exact ⟨Nat.zero_le _, by show b.length ≤ n; rw [allocMany_ok h1]⟩

theorem ctor_initializer_list_bounded {ok : Nat → Bool} {vs : List T} {v : Vector T}
    (h : Vector.ctor_initializer_list ok vs = .ok v) : v.bounded := by
  unfold Vector.ctor_initializer_list at h
  obtain ⟨b, h1, h⟩ := bind_ok h
  exact insertElems_bounded
    ⟨Nat.zero_le _, by show b.length ≤ vs.length; rw [allocMany_ok h1]⟩ h

theorem ctor_copy_bounded {ok : Nat → Bool} {other v : Vector T} (ho : other.bounded)
    (h : Vector.ctor_copy ok other = .ok v) : v.bounded := by
  unfold Vector.ctor_copy at h
  obtain ⟨b, h1, h⟩ := bind_ok h
  obtain ⟨b1, h2, h⟩ := bind_ok h
  cases h
  exact ⟨ho.1, by
    show b1.length ≤ other.m_capacity
    rw [copyConstructLoop_ok h2, allocMany_ok h1]⟩

theorem ctor_move_bounded {rhs : Vector T} (hr : rhs.bounded) :
    (Vector.ctor_move rhs).1.bounded ∧ (Vector.ctor_move rhs).2.bounded :=
  ⟨hr, Nat.zero_le _, Nat.zero_le _⟩

theorem move_assign_bounded {sameObject : Bool} {self rhs : Vector T}
    {r : Vector T × Vector T} (hr : rhs.bounded)
    (h : move_assign sameObject self rhs = .ok r) : r.1.bounded ∧ r.2.bounded := by
  unfold move_assign at h
  obtain ⟨b, _, h⟩ := bind_ok h
  split at h
  · cases h
    exact ⟨⟨Nat.le_refl _, Nat.le_refl _⟩, ⟨Nat.le_refl _, Nat.le_refl _⟩⟩
  · cases h
    exact ⟨hr, ⟨Nat.le_refl _, Nat.le_refl _⟩⟩

theorem Op.bind_returned {α β : Type} {m : Op T α} {f : α → Op T β} {v s : Vector T} {b : β}
    (h : (m >>= f) v = .returned b s) :
    ∃ a s1, m v = .returned a s1 ∧ f a s1 = .returned b s := by
  change Op.bind m f v = .returned b s at h
  unfold Op.bind at h
  split at h
  · rename_i a s1 heq
    exact ⟨a, s1, heq, h⟩
  · cases h
  · cases h

theorem Op.slots_returned {α : Type} {r : Except Fault α} {v s : Vector T} {a : α}
    (h : (Op.slots r : Op T α) v = .returned a s) : r = .ok a ∧ v = s := by
  unfold Op.slots at h
  split at h
  · simp only [Exit.returned.injEq] at h
    exact ⟨by rw [h.1], h.2⟩
  · cases h

theorem Op.assign_returned {w v s : Vector T} {u : Unit}
    (h : (Op.assign w : Op T Unit) v = .returned u s) : w = s := by
  simp only [Op.assign, Exit.returned.injEq] at h
  exact h.2

theorem Op.pure_returned {α : Type} {a b : α} {v s : Vector T}
    (h : (Op.pure a : Op T α) v = .returned b s) : a = b ∧ v = s := by
  simp only [Op.pure, Exit.returned.injEq] at h
  exact h

theorem allocMany_op_returned {ok : Nat → Bool} {n : Nat} {v s : Vector T} {b : Buffer T}
    (h : allocMany_op ok n v = .returned b s) : b.length = n ∧ v = s := by
  unfold allocMany_op at h
  split at h
  · simp only [Exit.returned.injEq] at h
    exact ⟨by rw [← h.1]; simp, h.2⟩
  · cases h

/-- Copy assignment that returns leaves a bounded target. -/
theorem copy_assign_op_bounded {ok : Nat → Bool} {sameObject : Bool} {self rhs v1 : Vector T}
    (hs : self.bounded) (hr : rhs.bounded)
    (h : copy_assign_op ok sameObject rhs self = .returned () v1) : v1.bounded := by
  unfold copy_assign_op at h
  split at h
  · obtain ⟨_, rfl⟩ := Op.pure_returned h
    exact hs
  · obtain ⟨v, s, hv, h⟩ := Op.bind_returned h
    obtain ⟨rfl, rfl⟩ := Op.self_returned hv
    split at h
    · rename_i hreuse
      dsimp only at h
      have tail : ∀ (w : Vector T) (u : Unit), w.bounded → w.m_capacity = self.m_capacity →
          (Op.self >>= fun v1 => Op.slots (copyAssignLoop v1.m_elemCount v1.m_capacity
            rhs.m_capacity rhs.m_elemCount 0 rhs.block v1.block) >>= fun b =>
              Op.assign (v1.withBlock b rhs.m_elemCount)) w = .returned u v1 → v1.bounded := by
        intro w u hw hcap h
        obtain ⟨w1, s1, hw1, h⟩ := Op.bind_returned h
        obtain ⟨rfl, rfl⟩ := Op.self_returned hw1
        obtain ⟨b, s2, hb, h⟩ := Op.bind_returned h
        obtain ⟨hloop, rfl⟩ := Op.slots_returned hb
        have := Op.assign_returned h
        subst this
        exact withBlock_bounded w b _ (by rw [copyAssignLoop_ok hloop]; exact hw.2)
          (by have := hr.1; omega)
      split at h
      · obtain ⟨b, s1, hb, h⟩ := Op.bind_returned h
        obtain ⟨hdes, rfl⟩ := Op.slots_returned hb
        obtain ⟨u, s2, hu, h⟩ := Op.bind_returned h
        have := Op.assign_returned hu
        subst this
        unfold destructElems at hdes
        split at hdes
        · cases hdes
        · exact tail _ u (withBlock_bounded self b _ (by rw [destructLoop_ok hdes]; exact hs.2)
            hs.1) rfl h
      · obtain ⟨u, s1, hu, h⟩ := Op.bind_returned h
        obtain ⟨_, rfl⟩ := Op.pure_returned hu
        exact tail _ u hs rfl h
    · obtain ⟨d, s1, _, h⟩ := Op.bind_returned h
      obtain ⟨u, s2, _, h⟩ := Op.bind_returned h
      obtain ⟨b0, s3, hb0, h⟩ := Op.bind_returned h
      obtain ⟨hlen, _⟩ := allocMany_op_returned hb0
      obtain ⟨w, s4, _, h⟩ := Op.bind_returned h
      obtain ⟨b, s5, hb, h⟩ := Op.bind_returned h
      obtain ⟨hloop, _⟩ := Op.slots_returned hb
      have := Op.assign_returned h
      subst this
      exact ⟨hr.1, by
        show b.length ≤ rhs.m_capacity
        rw [copyAssignLoop_ok hloop, hlen]⟩

/-- An exception leaves copy assignment only from its request, with the target
already reset. -/
theorem copy_assign_op_thrown {ok : Nat → Bool} {sameObject : Bool} {self rhs v1 : Vector T}
    {e : Fault} (h : copy_assign_op ok sameObject rhs self = .thrown e v1) :
    e = .bad_alloc ∧ v1 = ⟨none, 0, 0⟩ := by
  unfold copy_assign_op at h
  split at h
  · exact absurd h (Op.pure_not_thrown _ _ _ _)
  · rcases Op.bind_thrown h with h1 | ⟨v, s, hv, h⟩
    · exact absurd h1 (Op.self_not_thrown _ _ _)
    · obtain ⟨rfl, rfl⟩ := Op.self_returned hv
      split at h
      · dsimp only at h
        have tail : ∀ u : Unit, (Op.self >>= fun v1 => Op.slots (copyAssignLoop v1.m_elemCount
            v1.m_capacity rhs.m_capacity rhs.m_elemCount 0 rhs.block v1.block) >>= fun b =>
              Op.assign (v1.withBlock b rhs.m_elemCount) : Op T Unit).NoThrow :=
          fun _ => Op.NoThrow.bind Op.self_noThrow (fun _ =>
            Op.NoThrow.bind (Op.slots_noThrow _) (fun _ => Op.assign_noThrow _))
        split at h
        · exact absurd h (Op.NoThrow.bind (Op.slots_noThrow _) (fun _ =>
            Op.NoThrow.bind (Op.assign_noThrow _) (fun u => tail u)) _ _ _)
        · exact absurd h (Op.NoThrow.bind (Op.pure_noThrow _) (fun u => tail u) _ _ _)
      · rcases Op.bind_thrown h with h1 | ⟨d, s1, hd, h⟩
        · exact absurd h1 (Op.slots_not_thrown _ _ _ _)
        · rcases Op.bind_thrown h with h1 | ⟨u, s2, hu, h⟩
          · exact absurd h1 (Op.assign_not_thrown _ _ _ _)
          · have hs2 := Op.assign_returned hu
            obtain ⟨he, hv1, _⟩ := allocMany_op_thrown (Op.thrown_of_tail (fun _ =>
              Op.NoThrow.bind Op.self_noThrow (fun _ =>
                Op.NoThrow.bind (Op.slots_noThrow _) (fun _ => Op.assign_noThrow _))) h)
            exact ⟨he, by rw [hv1, ← hs2]⟩

/-- Every container a program can hold is bounded. -/
theorem reachable_bounded {v : Vector T} (h : Reachable v) : v.bounded := by
  induction h with
  | ctor_default => exact ⟨Nat.le_refl _, Nat.le_refl _⟩
  | ctor_capacity ok n v h => exact ctor_capacity_bounded h
  | ctor_initializer_list ok vs v h => exact ctor_initializer_list_bounded h
  | step v v1 _ hstep ih =>
    cases hstep with
    | push_back ok _ _ x h => exact insertElem_bounded ih h
    | push_back_move ok _ _ x h => exact insertElem_bounded ih h
    | emplace_back ok _ _ x h => exact insertElem_bounded ih h
    | pop_back _ _ h => exact pop_back_bounded ih h
    | insert ok _ _ pos p x h =>
      unfold insert at h
      rw [insertAt_eq_insertAtRange] at h
      exact insertAtRange_bounded ih h
    | insert_n ok _ _ pos k p x h =>
      unfold insert_n at h
      rw [insertAt_eq_insertAtRange] at h
      exact insertAtRange_bounded ih h
    | insert_move ok _ _ pos p x h =>
      unfold insert_move at h
      rw [insertAtMove_eq_insertAtRange] at h
      exact insertAtRange_bounded ih h
    | insert_range ok _ _ pos p r h => exact insertAtRange_bounded ih h
    | erase _ _ pos p h => exact eraseAt_bounded ih h
    | erase_range _ _ first last p h => exact eraseAt_bounded ih h
    | clear _ _ h => exact clear_bounded ih h
    | reserve ok _ _ n h => exact growIfNeeded_bounded ih h
    | shrink_to_fit ok _ _ h => exact allocateBuffer_bounded h
  | ctor_copy ok other v _ h ih => exact ctor_copy_bounded ih h
  | ctor_move_target rhs _ ih => exact (ctor_move_bounded ih).1
  | ctor_move_source rhs _ ih => exact (ctor_move_bounded ih).2
  | copy_assign_returned ok sameObject self rhs v1 _ _ h ih1 ih2 =>
    exact copy_assign_op_bounded ih1 ih2 h
  | copy_assign_thrown ok sameObject self rhs v1 e _ _ h ih1 ih2 =>
    rw [(copy_assign_op_thrown h).2]
    exact ⟨Nat.le_refl _, Nat.le_refl _⟩
  | move_assign_target sameObject self rhs r _ _ h ih1 ih2 =>
    exact (move_assign_bounded ih2 h).1
  | move_assign_source sameObject self rhs r _ _ h ih1 ih2 =>
    exact (move_assign_bounded ih2 h).2

end Bounds

/-! ## Relocation cost of appending -/

section Cost
variable {T : Type}

/-- A `push_back` that returned on a container holding `s` appended its value
and followed the growth rule, whatever the allocator. -/
theorem insertElem_of_ok (ok : Nat → Bool) (v v1 : Vector T) (s : List T) (x : T)
    (h : v.holds s) (hw : s.length + 1 < SIZE_MOD) (hres : insertElem ok v x = .ok v1) :
    v1.holds (s ++ [x]) ∧
      v1.m_capacity =
        (if s.length + 1 ≤ v.m_capacity then v.m_capacity
         else max (v.m_capacity * 3 / 2) (s.length + 1)) := by
  have hc := h.1
  have key : v.m_capacity < s.length + 1 →
      ok (max (v.m_capacity * 3 / 2) (s.length + 1)) = true := by
    intro hgrow
    cases hok : ok (max (v.m_capacity * 3 / 2) (s.length + 1)) with
    | true => rfl
    | false =>
      have hr : shouldResizeBuffer v 1 = true := by
        rw [shouldResizeBuffer_eq v 1 (by omega), hc]
        simpa using hgrow
      have hthrow := insertElem_op_fails x v hr
        (by rw [hc, Nat.mod_eq_of_lt hw]; exact hok)
      have hret := (insertElem_op_returned ok x v v1).mpr hres
      rw [hthrow] at hret
      cases hret
  obtain ⟨v2, hv2, hh, hcap⟩ := insertElem_holds ok v s x h hw key
  rw [hres] at hv2
  cases hv2
  exact ⟨hh, hcap⟩

/-- The potential argument: over any run of `push_back` calls on a container
holding `s` whose capacity is at most one and a half times its size, the
relocations made are paid for by four units per call. -/
theorem push_back_all_relocations_le (ok : Nat → Bool) (xs : List T) (v : Vector T)
    (s : List T) (h : v.holds s) (hK : 2 * v.m_capacity ≤ 3 * s.length)
    (hw : s.length + xs.length < SIZE_MOD) :
    push_back_all_relocations ok xs v + 2 * v.m_capacity ≤ 4 * xs.length + 3 * s.length := by
  induction xs generalizing v s with
  | nil => simpa [push_back_all_relocations] using hK
  | cons x xs ih =>
    simp only [List.length_cons] at hw ⊢
    unfold push_back_all_relocations
    cases hres : push_back ok v x with
    | error e =>
      simp only
      omega
    | ok v1 =>
      simp only
      have hc := h.1
      have hcap := h.2.1
      obtain ⟨hh, hcap1⟩ := insertElem_of_ok ok v v1 s x h (by omega) hres
      have hlen : (s ++ [x]).length = s.length + 1 := by simp
      unfold growIfNeeded_relocations allocateBuffer_relocations
      rw [shouldResizeBuffer_eq v 1 (by omega), hc]
      by_cases hfit : s.length + 1 ≤ v.m_capacity
      · rw [if_pos hfit] at hcap1
        have := ih v1 (s ++ [x]) hh (by rw [hlen, hcap1]; omega) (by rw [hlen]; omega)
        rw [hlen, hcap1] at this
        simp only [not_lt.mpr hfit, decide_False, Bool.false_eq_true, if_false]
        omega
      · rw [if_neg hfit] at hcap1
        have hlt : v.m_capacity < s.length + 1 := by omega
        have hm1 : v.m_capacity * 3 / 2 ≤ v1.m_capacity := by
          rw [hcap1]; exact Nat.le_max_left _ _
        have hm2 : v1.m_capacity ≤ max (v.m_capacity * 3 / 2) (s.length + 1) := by
          rw [hcap1]
        have hm3 : 2 * v1.m_capacity ≤ 3 * (s.length + 1) := by
          rcases Nat.le_total (v.m_capacity * 3 / 2) (s.length + 1) with hle | hle
          · rw [Nat.max_eq_right hle] at hm2; omega
          · rw [Nat.max_eq_left hle] at hm2; omega
        have := ih v1 (s ++ [x]) hh (by rw [hlen]; exact hm3) (by rw [hlen]; omega)
        rw [hlen] at this
        simp only [hlt, decide_True, if_true]
        omega

end Cost

/-! ## The growth rule -/

section Policy
variable {T : Type}

/-- `emplace_back` runs the statements of `insertElem`. -/
theorem emplace_back_eq_insertElem (ok : Nat → Bool) (v : Vector T) (x : T) :
    emplace_back ok v x = insertElem ok v x := rfl

/-- A run of `push_back` calls that fits the capacity appends the values,
keeps the capacity, asks for no memory and relocates no element. -/
theorem push_back_all_fit (ok : Nat → Bool) (xs : List T) (v : Vector T) (s : List T)
    (h : v.holds s) (hfit : s.length + xs.length ≤ v.m_capacity)
    (hw : s.length + xs.length < SIZE_MOD) :
    ∃ v1, push_back_all ok xs v = .ok v1 ∧ v1.holds (s ++ xs) ∧
      v1.m_capacity = v.m_capacity ∧ push_back_all_relocations ok xs v = 0 := by
  induction xs generalizing v s with
  | nil => exact ⟨v, rfl, by simpa using h, rfl, rfl⟩
  | cons x xs ih =>
    simp only [List.length_cons] at hw hfit
    have hc := h.1
    obtain ⟨v1, hv1, hh, hcap⟩ := insertElem_holds ok v s x h (by omega) (fun hc => by omega)
    rw [if_pos (by omega)] at hcap
    obtain ⟨v2, hv2, hh2, hcap2, hrel⟩ :=
      ih v1 (s ++ [x]) hh (by simp; omega) (by simp; omega)
    refine ⟨v2, ?_, by simpa using hh2, by omega, ?_⟩
    · simp [push_back_all, push_back, hv1, hv2, bind, Except.bind]
    · have hno : shouldResizeBuffer v 1 = false := by
        rw [shouldResizeBuffer_eq v 1 (by omega), hc]
        simp only [decide_eq_false_iff_not, not_lt]
        omega
      simp [push_back_all_relocations, push_back, hv1, growIfNeeded_relocations, hno, hrel]

end Policy

/-! ## The copy constructor when an element copy throws -/

section CopyFailure
variable {T : Type}

/-- The `try` block when the copy of source element `k` is the first to throw:
the slots below `k` of the new block are constructed, `elemCount` has counted
them, and `bufferStart` stands at slot `k + 1`. -/
theorem copyTryLoop_throws (throws : Nat → Bool) (n i k c : Nat) (src dst : Buffer T)
    (hik : i ≤ k) (hkn : k < i + n) (hno : ∀ j, i ≤ j → j < k → throws j = false)
    (hk : throws k = true) (hlive : ∀ j, i ≤ j → j < k → ∃ x, src[j]? = some (some x))
    (hlen : k ≤ dst.length) :
    ∃ b e, copyTryLoop throws n i ⟨i, c, dst, false⟩ src = .ok ⟨k + 1, e, b, true⟩ ∧
      e + i = c + k ∧ b.length = dst.length ∧
      ∀ j, b[j]? = if i ≤ j ∧ j < k then src[j]? else dst[j]? := by
  induction n generalizing i c dst with
  | zero => omega
  | succ n ih =>
    by_cases hi : i = k
    · subst hi
      refine ⟨dst, c, ?_, rfl, rfl, fun j => by rw [if_neg (by omega)]⟩
      simp [copyTryLoop, hk]
    · obtain ⟨x, hx⟩ := hlive i (le_refl _) (by omega)
      have hlt : i < dst.length := by omega
      obtain ⟨b, e, hrun, he, hblen, hget⟩ :=
        ih (i + 1) (c + 1) (dst.set i (some x)) (by omega) (by omega)
          (fun j h1 h2 => hno j (by omega) h2) (fun j h1 h2 => hlive j (by omega) h2)
          (by simpa using hlen)
      refine ⟨b, e, ?_, by omega, by simpa using hblen, fun j => ?_⟩
      · simp [copyTryLoop, hno i (le_refl _) (by omega), readSlot_of_live hx,
          constructAt_of_lt x hlt, hrun, bind, Except.bind]
      · rw [hget j, List.getElem?_set]
        split_ifs <;> first | rfl | omega | (subst_vars; simp [hx])

/-- The `try` block when no element copy throws is the loop of the copy
constructor. -/
theorem copyTryLoop_never (throws : Nat → Bool) (hno : ∀ j, throws j = false) (n i c : Nat)
    (src dst : Buffer T) :
    copyTryLoop throws n i ⟨i, c, dst, false⟩ src =
      (copyConstructLoop n i src dst).map (fun b => ⟨i + n, c + n, b, false⟩) := by
  induction n generalizing i c dst with
  | zero => rfl
  | succ n ih =>
    simp only [copyTryLoop, copyConstructLoop, hno i, Bool.false_eq_true, if_false]
    cases hx : readSlot src i with
    | error e => simp only [bind, Except.bind, Except.map]
    | ok x =>
      cases hb : constructAt dst i x with
      | error e => simp only [hb, bind, Except.bind, Except.map]
      | ok b =>
        have e1 : i + 1 + n = i + (n + 1) := by omega
        have e2 : c + 1 + n = c + (n + 1) := by omega
        simp only [hb, bind, Except.bind, ih (i + 1) (c + 1) b, e1, e2]

/-- With no element copy throwing, the constructor constructs what
`Vector.ctor_copy` returns. -/
theorem ctor_copy_throwing_never (ok : Nat → Bool) (throws : Nat → Bool)
    (hno : ∀ j, throws j = false) (other c : Vector T)
    (h : Vector.ctor_copy ok other = .ok c) :
    Vector.ctor_copy_throwing ok throws other = .constructed c := by
  unfold Vector.ctor_copy at h
  obtain ⟨b0, hb0, h1⟩ := bind_ok h
  obtain ⟨b, hb, h2⟩ := bind_ok h1
  cases h2
  unfold Vector.ctor_copy_throwing
  simp only [hb0, copyTryLoop_never throws hno, hb, Except.map, Nat.zero_add,
    Bool.false_eq_true, if_false]

/-- The handler of the copy constructor after the copy of source element `k`
threw.  For `k = 0` its loop has nothing to visit and the exception leaves with
the new block still allocated, `free` being handed the null `m_data`; for
`k >= 1` the loop starts at slot `k + 1`, which holds no object, so the first
destructor call has no defined behaviour. -/
theorem ctor_copy_throwing_cleanup (ok : Nat → Bool) (throws : Nat → Bool) (other : Vector T)
    (s : List T) (k : Nat) (h : other.holds s) (hk : k < s.length)
    (hno : ∀ j, j < k → throws j = false) (hthrow : throws k = true)
    (hok : ok other.m_capacity = true) :
    (∃ b, copyTryLoop throws other.m_elemCount 0
        ⟨0, 0, List.replicate other.m_capacity none, false⟩ other.block
          = .ok ⟨k + 1, k, b, true⟩ ∧
      (∀ j, j < k → b[j]? = some s[j]?) ∧
      cleanupSlots (⟨k + 1, k, b, true⟩ : CopyLocals T) = List.range' (k + 1) k ∧
      (∀ j, k ≤ j → ∀ x, b[j]? ≠ some (some x))) ∧
    (k = 0 → Vector.ctor_copy_throwing ok throws other
      = .rethrown (List.replicate other.m_capacity none) none) ∧
    (1 ≤ k → Vector.ctor_copy_throwing ok throws other = .undefined) := by
  have hc := h.1
  have hcap := h.2.1
  obtain ⟨b, e, hrun, he, hblen, hget⟩ :=
    copyTryLoop_throws throws other.m_elemCount 0 k 0 other.block
      (List.replicate other.m_capacity (none : Option T)) (Nat.zero_le _) (by omega)
      (fun j _ h2 => hno j h2) hthrow (fun j _ h2 => h.live j (by omega))
      (by simp; omega)
  have hek : e = k := by omega
  subst hek
  have hraw : ∀ j, e ≤ j → ∀ x, b[j]? ≠ some (some x) := by
    intro j hj x
    rw [hget j, if_neg (by omega), List.getElem?_replicate]
    split_ifs <;> simp
  refine ⟨⟨b, hrun, fun j hj => ?_, rfl, hraw⟩, fun h0 => ?_, fun h1 => ?_⟩
  · rw [hget j, if_pos ⟨Nat.zero_le _, hj⟩, h.block_getElem? j (by omega)]
  · subst h0
    have hb : b = List.replicate other.m_capacity none := by
      apply List.ext_getElem?
      intro j
      rw [hget j, if_neg (by omega)]
    unfold Vector.ctor_copy_throwing
    simp only [allocMany, hok, if_true, hrun, destructLoop, hb]
  · obtain ⟨m, rfl⟩ : ∃ m, e = m + 1 := ⟨e - 1, by omega⟩
    have hd : destroyAt b (m + 1 + 1) = .error .undefined_behaviour := by
      unfold destroyAt
      cases hbj : b[m + 1 + 1]? with
      | none => rfl
      | some o =>
        cases o with
        | none => rfl
        | some x => exact absurd hbj (hraw _ (by omega) x)
    unfold Vector.ctor_copy_throwing
    simp only [allocMany, hok, if_true, hrun, destructLoop, hd, bind, Except.bind]

end CopyFailure

/-! ## The write chosen by the loop of copy assignment -/

section AssignTest
variable {T : Type}

/-- One turn of the loop of copy assignment: the write is chosen by
`copyAssignTest`. -/
theorem copyAssignLoop_succ (cc ccap rcap n i : Nat) (src dst : Buffer T) :
    copyAssignLoop cc ccap rcap (n + 1) i src dst =
      (readSlot src i >>= fun x =>
        (if copyAssignTest cc ccap rcap i then assignAt dst i x else constructAt dst i x)
          >>= fun dst1 => copyAssignLoop cc ccap rcap n (i + 1) src dst1) := by
  cases hx : readSlot src i with
  | error e => simp only [copyAssignLoop, hx, bind, Except.bind]
  | ok x =>
    by_cases ht : copyAssignTest cc ccap rcap i = true
    · have ht2 := ht
      unfold copyAssignTest at ht2
      simp only [copyAssignLoop, hx, ht, ht2, if_true, bind, Except.bind]
    · have ht2 := ht
      unfold copyAssignTest at ht2
      simp only [copyAssignLoop, hx, ht, ht2, Bool.false_eq_true, if_false, bind, Except.bind]

/-- In the branch that reuses the block the test holds for every index up to
and including the target's count. -/
theorem copyAssignTest_iff (cc ccap rcap i : Nat) (hcap : rcap ≤ ccap) :
    copyAssignTest cc ccap rcap i = true ↔ i ≤ cc := by
  simp [copyAssignTest, hcap]

end AssignTest

/-! ## Machine arithmetic and reference arguments -/

section ExactLemmas
variable {T : Type}

/-- A request whose byte count does not wrap is granted the slots asked for. -/
theorem exact_allocMany_eq (ok : Nat → Bool) (n sz : Nat) (hsz : 0 < sz)
    (hb : n * sz < SIZE_MOD) :
    (Exact.allocMany ok n sz : Except Fault (Buffer T)) = allocMany (fun k => ok (k * sz)) n := by
  unfold Exact.allocMany allocMany
  simp only [Nat.mod_eq_of_lt hb, Nat.mul_div_cancel n hsz]

/-- Below `2 ^ 53 / 3` the `double` product is exact: it is `floor(1.5 * c)`. -/
theorem growthProduct_small (c : Nat) (h : 3 * c < 2 ^ 53) : growthProduct c = c * 3 / 2 := by
  have hc : c < 2 ^ 53 := by omega
  unfold growthProduct roundSignificand
  rw [if_pos hc, if_pos h, Nat.mul_comm]

/-- At `2 ^ 52 + 1` the `double` product is rounded up to an even significand
and differs from `floor(1.5 * c)`. -/
theorem growthProduct_rounds :
    growthProduct (2 ^ 52 + 1) = 6755399441055746 ∧ (2 ^ 52 + 1) * 3 / 2 = 6755399441055745 := by
  decide

/-- `allocateBuffer` with a request whose byte count does not wrap. -/
theorem exact_allocateBuffer_eq (ok : Nat → Bool) (sz : Nat) (v : Vector T) (n : Nat)
    (hsz : 0 < sz) (hb : n * sz < SIZE_MOD) :
    Exact.allocateBuffer ok sz v n = allocateBuffer (fun k => ok (k * sz)) v n := by
  unfold Exact.allocateBuffer allocateBuffer
  rw [exact_allocMany_eq ok n sz hsz hb]

/-- `growIfNeeded(n)` without wrap-around of the sum or of the byte count: the
sequence is kept, the capacity stays when it suffices and becomes the larger of
the `double` product and `size() + n` otherwise. -/
theorem exact_growIfNeeded_holds (ok : Nat → Bool) (sz : Nat) (v : Vector T) (s : List T)
    (n : Nat) (h : v.holds s) (hw : s.length + n < SIZE_MOD) (hsz : 0 < sz)
    (hb : v.m_capacity < s.length + n →
      max (growthProduct v.m_capacity) (s.length + n) * sz < SIZE_MOD)
    (hok : v.m_capacity < s.length + n →
      ok (max (growthProduct v.m_capacity) (s.length + n) * sz) = true) :
    ∃ v1, Exact.growIfNeeded ok sz v n = .ok v1 ∧ v1.holds s ∧
      v1.m_capacity =
        (if s.length + n ≤ v.m_capacity then v.m_capacity
         else max (growthProduct v.m_capacity) (s.length + n)) := by
  have hc := h.1
  unfold Exact.growIfNeeded
  rw [shouldResizeBuffer_eq v n (by omega), hc]
  by_cases hlt : v.m_capacity < s.length + n
  · have hbb := hb hlt
    have h1 : growthProduct v.m_capacity ≤ max (growthProduct v.m_capacity) (s.length + n) :=
      Nat.le_max_left _ _
    have h2 : max (growthProduct v.m_capacity) (s.length + n)
        ≤ max (growthProduct v.m_capacity) (s.length + n) * sz :=
      Nat.le_mul_of_pos_right _ hsz
    have hgp : growthProduct v.m_capacity < SIZE_MOD := by omega
    obtain ⟨v1, hv1, hh, hcap⟩ :=
      allocateBuffer_holds (fun k => ok (k * sz)) v s
        (max (growthProduct v.m_capacity) (s.length + n)) h
        (Nat.le_trans (Nat.le_add_right _ _) (Nat.le_max_right _ _)) (hok hlt)
    refine ⟨v1, ?_, hh, ?_⟩
    · simp only [hlt, decide_True, if_true, Exact.growBuffer, hgp]
      rw [hc, Nat.mod_eq_of_lt hw, exact_allocateBuffer_eq ok sz v _ hsz hbb]
      exact hv1
    · rw [hcap, if_neg (by omega)]
  · refine ⟨v, ?_, h, ?_⟩
    · simp [hlt]
    · rw [if_pos (by omega)]

/-- Constructing one more element in the first raw slot of a container with
room for it appends the value. -/
theorem construct_at_end_holds {v1 : Vector T} {s : List T} (x : T) (hh : v1.holds s)
    (hfit : s.length + 1 ≤ v1.m_capacity) :
    constructAt v1.block v1.m_elemCount x = .ok (v1.block.set v1.m_elemCount (some x)) ∧
    (v1.withBlock (v1.block.set v1.m_elemCount (some x)) (v1.m_elemCount + 1)).holds
      (s ++ [x]) := by
  have hc1 := hh.1
  have hlt : v1.m_elemCount < v1.block.length := by rw [hh.block_length]; omega
  refine ⟨constructAt_of_lt x hlt, ?_⟩
  refine holds_withBlock hh _ _ (s ++ [x]) (by simp [hc1]) (by simpa using hfit)
    (by simp [hh.block_length]) (fun j hj => ?_)
  rw [List.getElem?_set, hc1]
  by_cases hj2 : s.length = j
  · subst hj2
    rw [if_pos rfl, if_pos (by rw [hh.block_length]; omega)]
    simp
  · rw [if_neg hj2, hh.block_getElem? j hj]
    congr 1
    by_cases hj3 : j < s.length
    · rw [List.getElem?_append_left hj3]
    · rw [List.getElem?_eq_none (by omega), List.getElem?_eq_none (by simp; omega)]

/-- `push_back` of an argument that is an object outside the container, or an
element of the container when no reallocation is needed, appends its value. -/
theorem exact_insertElem_holds (ok : Nat → Bool) (sz : Nat) (v : Vector T) (s : List T)
    (a : Arg T) (x : T) (h : v.holds s) (hw : s.length + 1 < SIZE_MOD) (hsz : 0 < sz)
    (ha : a = .object x ∨ (s.length + 1 ≤ v.m_capacity ∧ a.value s = some x))
    (hb : v.m_capacity < s.length + 1 →
      max (growthProduct v.m_capacity) (s.length + 1) * sz < SIZE_MOD)
    (hok : v.m_capacity < s.length + 1 →
      ok (max (growthProduct v.m_capacity) (s.length + 1) * sz) = true) :
    ∃ v1, Exact.insertElem ok sz v a = .ok v1 ∧ v1.holds (s ++ [x]) ∧
      v1.m_capacity =
        (if s.length + 1 ≤ v.m_capacity then v.m_capacity
         else max (growthProduct v.m_capacity) (s.length + 1)) := by
  have hc := h.1
  obtain ⟨v1, hv1, hh, hcap⟩ := exact_growIfNeeded_holds ok sz v s 1 h hw hsz hb hok
  have hfit : s.length + 1 ≤ v1.m_capacity := by
    rw [hcap]; split_ifs <;> omega
  obtain ⟨hcons, hres⟩ := construct_at_end_holds x hh hfit
  have hread : readArg (if shouldResizeBuffer v 1 then [] else v1.block) a = .ok x := by
    rcases ha with rfl | ⟨hroom, hval⟩
    · rfl
    · have hno : shouldResizeBuffer v 1 = false := by
        rw [shouldResizeBuffer_eq v 1 (by omega), hc]
        simp only [decide_eq_false_iff_not, not_lt]
        omega
      have hv : v1 = v := by
        unfold Exact.growIfNeeded at hv1
        rw [hno] at hv1
        simp only [Bool.false_eq_true, if_false] at hv1
        cases hv1
        rfl
      subst hv
      rw [hno]
      cases a with
      | object y =>
        simp only [Arg.value, Option.some.injEq] at hval
        subst hval
        rfl
      | element i =>
        simp only [Arg.value] at hval
        have hi : i < s.length := by
          rcases Nat.lt_or_ge i s.length with hl | hl
          · exact hl
          · rw [List.getElem?_eq_none hl] at hval
            cases hval
        simp only [Bool.false_eq_true, if_false, readArg]
        exact readSlot_of_live (by rw [h.block_getElem? i (by omega), hval])
  refine ⟨_, ?_, hres, hcap⟩
  unfold Exact.insertElem
  simp only [hv1, hread, hcons, bind, Except.bind, pure, Except.pure]

/-- A run of `push_back` calls that fits the capacity, each argument an object
outside the container or an element the container holds at that call, appends
the values and keeps the capacity, whatever the allocator would answer. -/
theorem exact_push_back_all_fit (ok : Nat → Bool) (sz : Nat) (args : List (Arg T))
    (xs : List T) (v : Vector T) (s : List T) (h : v.holds s)
    (hfit : s.length + args.length ≤ v.m_capacity)
    (hw : s.length + args.length < SIZE_MOD) (hsz : 0 < sz)
    (hval : appendedValues s args = some xs) :
    ∃ v1, Exact.push_back_all ok sz args v = .ok v1 ∧ v1.holds (s ++ xs) ∧
      v1.m_capacity = v.m_capacity := by
  induction args generalizing v s xs with
  | nil =>
    simp only [appendedValues, Option.some.injEq] at hval
    subst hval
    exact ⟨v, rfl, by simpa using h, rfl⟩
  | cons a as ih =>
    simp only [List.length_cons] at hfit hw
    unfold appendedValues at hval
    cases hax : a.value s with
    | none =>
      rw [hax] at hval
      cases hval
    | some x =>
      rw [hax] at hval
      simp only [Option.map_eq_some'] at hval
      obtain ⟨xs1, hxs1, rfl⟩ := hval
      obtain ⟨v1, hv1, hh, hcap⟩ := exact_insertElem_holds ok sz v s a x h (by omega) hsz
        (Or.inr ⟨by omega, hax⟩) (fun hc => by omega) (fun hc => by omega)
      rw [if_pos (by omega)] at hcap
      obtain ⟨v2, hv2, hh2, hcap2⟩ :=
        ih xs1 v1 (s ++ [x]) hh (by simp; omega) (by simp; omega) hxs1
      refine ⟨v2, ?_, by simpa using hh2, by omega⟩
      simp [Exact.push_back_all, Exact.push_back, hv1, hv2, bind, Except.bind]

/-- A run of `push_back` calls of objects outside the container, every
allocation succeeding, appends the values in order, as long as the final size
stays below `2 ^ 53 / 3` and twice its byte count does not wrap. -/
theorem exact_push_back_all_holds (ok : Nat → Bool) (hok : ∀ n, ok n = true) (sz : Nat)
    (hsz : 0 < sz) (xs : List T) (v : Vector T) (s : List T) (h : v.holds s)
    (h53 : 3 * (s.length + xs.length) < 2 ^ 53)
    (hbytes : 2 * (s.length + xs.length) * sz < SIZE_MOD) :
    ∃ v1, Exact.push_back_all ok sz (xs.map Arg.object) v = .ok v1 ∧ v1.holds (s ++ xs) := by
  induction xs generalizing v s with
  | nil => exact ⟨v, rfl, by simpa using h⟩
  | cons x xs ih =>
    simp only [List.length_cons] at h53 hbytes
    have hcapge := h.2.1
    have hb : v.m_capacity < s.length + 1 →
        max (growthProduct v.m_capacity) (s.length + 1) * sz < SIZE_MOD := by
      intro hlt
      have hgp := growthProduct_small v.m_capacity (by omega)
      have hle : max (growthProduct v.m_capacity) (s.length + 1)
          ≤ 2 * (s.length + (xs.length + 1)) := by
        rw [hgp]
        apply Nat.max_le.mpr
        constructor <;> omega
      exact Nat.lt_of_le_of_lt (Nat.mul_le_mul_right sz hle) hbytes
    obtain ⟨v1, hv1, hh, _⟩ := exact_insertElem_holds ok sz v s (.object x) x h
      (by show s.length + 1 < 2 ^ 64; omega) hsz (Or.inl rfl) hb (fun _ => hok _)
    obtain ⟨v2, hv2, hh2⟩ := ih v1 (s ++ [x]) hh (by simp; omega)
      (by simp only [List.length_append, List.length_singleton]
          have e : s.length + 1 + xs.length = s.length + (xs.length + 1) := by omega
          rw [e]; exact hbytes)
    refine ⟨v2, ?_, by simpa using hh2⟩
    simp [Exact.push_back_all, Exact.push_back, hv1, hv2, bind, Except.bind]

end ExactLemmas

/-! ## Two containers in one heap -/

section HeapLemmas
variable {T : Type}

/-- Writing the entry of one address leaves the block at another address. -/
theorem deref_set_ne (h : Heap T) (a b : Nat) (e : Option (Buffer T)) (hne : a ≠ b) :
    Heap.deref (h.set a e) (some b) = h.deref (some b) := by
  simp only [Heap.deref, List.getElem?_set_ne hne]

/-- A block at a new address leaves the blocks there were. -/
theorem deref_append (h : Heap T) (b : Nat) (e : Option (Buffer T)) (hb : b < h.length) :
    Heap.deref (h ++ [e]) (some b) = h.deref (some b) := by
  simp only [Heap.deref, List.getElem?_append_left hb]

/-- A member function that ran on one object leaves the block at any other
address, and its object does not come to point there. -/
theorem store_frame (h : Heap T) (o : Object) (v1 : Vector T) (b : Nat) (hb : b < h.length)
    (hne : o.m_data ≠ some b) :
    (h.store o v1).1.deref (some b) = h.deref (some b) ∧ (h.store o v1).2.m_data ≠ some b ∧
      b < (h.store o v1).1.length := by
  unfold Heap.store
  cases hv : v1.m_data with
  | none =>
    cases ho : o.m_data with
    | none => exact ⟨rfl, by simp, hb⟩
    | some a =>
      have hab : a ≠ b := fun e => hne (by rw [ho, e])
      exact ⟨deref_set_ne h a b none hab, by simp, by simpa using hb⟩
  | some blk =>
    cases ho : o.m_data with
    | none =>
      refine ⟨deref_append h b _ hb, ?_, by simp; omega⟩
      simp only [ne_eq, Option.some.injEq]
      omega
    | some a =>
      have hab : a ≠ b := fun e => hne (by rw [ho, e])
      refine ⟨deref_set_ne h a b _ hab, ?_, by simpa using hb⟩
      simp only [ne_eq, Option.some.injEq]
      exact hab

/-- One call on an object leaves the block at any other address. -/
theorem heapStep_frame {h h2 : Heap T} {o o2 : Object} (hs : HeapStep h o h2 o2) (b : Nat)
    (hb : b < h.length) (hne : o.m_data ≠ some b) :
    h2.deref (some b) = h.deref (some b) ∧ o2.m_data ≠ some b ∧ b < h2.length := by
  cases hs with
  | member _ _ v1 _ => exact store_frame h o v1 b hb hne
  | copy_assign _ _ _ _ v1 _ => exact store_frame h o v1 b hb hne
  | copy_assign_thrown _ _ _ _ v1 _ _ => exact store_frame h o v1 b hb hne

/-- Any number of calls on an object leave the block at any other address. -/
theorem heapSteps_frame {h h2 : Heap T} {o o2 : Object} (hs : HeapSteps h o h2 o2) (b : Nat)
    (hb : b < h.length) (hne : o.m_data ≠ some b) :
    h2.deref (some b) = h.deref (some b) ∧ o2.m_data ≠ some b ∧ b < h2.length := by
  induction hs with
  | refl => exact ⟨rfl, hne, hb⟩
  | tail =>
    rename_i hstep ih
    obtain ⟨h1eq, h1ne, h1b⟩ := ih hne
    obtain ⟨h2eq, h2ne, h2b⟩ := heapStep_frame hstep b h1b h1ne
    exact ⟨h2eq.trans h1eq, h2ne, h2b⟩

/-- An object whose pointer is null or addresses an unchanged block is the same
container. -/
theorem load_eq_of_deref (h h2 : Heap T) (o : Object)
    (hd : ∀ b, o.m_data = some b → h2.deref (some b) = h.deref (some b)) :
    h2.load o = h.load o := by
  unfold Heap.load
  cases ho : o.m_data with
  | none => rfl
  | some b => rw [hd b ho]

/-- The copy constructor in a heap: the new object points to a block at a new
address, which holds what `Vector.ctor_copy` returns, and the source is as it
was. -/
theorem heap_ctor_copy_spec (ok : Nat → Bool) (h : Heap T) (other : Object) (cv : Vector T)
    (hp : ∀ a, other.m_data = some a → a < h.length)
    (hcv : Vector.ctor_copy ok (h.load other) = .ok cv) :
    ∃ h1 c, Heap.ctor_copy ok h other = .ok (h1, c) ∧ h1.load c = cv ∧
      c.m_data = some h.length ∧ h1.length = h.length + 1 ∧ h1.load other = h.load other := by
  unfold Vector.ctor_copy at hcv
  obtain ⟨b0, hb0, h1⟩ := bind_ok hcv
  obtain ⟨b, hb, h2⟩ := bind_ok h1
  cases h2
  have hok : ok other.m_capacity = true := by
    unfold allocMany at hb0
    simp only [Heap.load] at hb0
    cases hk : ok other.m_capacity with
    | true => rfl
    | false => rw [hk] at hb0; cases hb0
  have hb0eq : b0 = List.replicate other.m_capacity none := by
    unfold allocMany at hb0
    simp only [Heap.load, hok, if_true] at hb0
    cases hb0
    rfl
  subst hb0eq
  have hsrc : ((h.malloc other.m_capacity).1.deref other.m_data).getD []
      = (h.load other).block := by
    unfold Heap.malloc Heap.load Vector.block
    cases ho : other.m_data with
    | none => rfl
    | some a => rw [deref_append h a _ (hp a ho)]
  simp only [Heap.load] at hb
  refine ⟨(h ++ [some (List.replicate other.m_capacity none)]).set h.length (some b),
    ⟨some h.length, other.m_capacity, other.m_elemCount⟩, ?_, ?_, rfl, by simp, ?_⟩
  · unfold Heap.ctor_copy
    rw [if_pos hok]
    simp only [hsrc]
    simp only [Heap.load, Heap.malloc, hb]
  · simp [Heap.load, Heap.deref]
  · apply load_eq_of_deref
    intro a ha
    have hlt := hp a ha
    have hne : h.length ≠ a := by omega
    rw [deref_set_ne (h ++ [some (List.replicate other.m_capacity none)]) h.length a (some b) hne,
      deref_append h a _ hlt]

/-- A copy that shared the block of its source would not be independent: a
`push_back` through a second object with the same `m_data` changes the
container the first object is. -/
theorem shared_block_is_not_independent :
    ∃ (h h2 : Heap Nat) (other c c2 : Object),
      c = other ∧ (h.load other).holds [1, 2] ∧ HeapStep h c h2 c2 ∧
      h2.load other ≠ h.load other ∧ ¬ (h2.load other).holds [1, 2] :=
  ⟨[some [some 1, some 2, none]], [some [some 1, some 2, some 9]], ⟨some 0, 3, 2⟩,
    ⟨some 0, 3, 2⟩, ⟨some 0, 3, 3⟩, rfl, by decide,
    HeapStep.member [some [some 1, some 2, none]] ⟨some 0, 3, 2⟩
      ⟨some [some 1, some 2, some 9], 3, 3⟩
      (Step.push_back (fun _ => true) _ _ 9 (by rfl)),
    by decide, by decide⟩

end HeapLemmas

/-! ## The claims -/

section Claims
variable {T : Type}

/-- C1, failing input: `insert(begin() + 1, 0, 99)` on the container built from
`{10, 20, 30}`.  The claim promises the sequence `10, 20, 30` afterwards; the
in-place branch shifts the tail by zero slots, which move-constructs every
element from `pos` on onto itself and then destructs it, so the count is still
three while slots 1 and 2 hold no object. -/
theorem insert_zero_copies_destructs_tail :
    ∃ v v1 : Vector Nat,
      Vector.ctor_initializer_list (fun _ => true) [10, 20, 30] = .ok v ∧ v.holds [10, 20, 30] ∧
      insert_n (fun _ => true) v 1 0 99 = .ok (v1, 1) ∧
      v1 = ⟨some [some 10, none, none], 3, 3⟩ ∧
      ¬ v1.holds ([10, 20, 30].take 1 ++ List.replicate 0 99 ++ [10, 20, 30].drop 1) ∧
      index v1 1 = .error .undefined_behaviour :=
  ⟨⟨some [some 10, some 20, some 30], 3, 3⟩, ⟨some [some 10, none, none], 3, 3⟩,
    by rfl, by decide, by rfl, by rfl, by decide, by rfl⟩

/-- C2, failing input: the range insertion of an empty range at `begin() + 1`
of the container built from `{10, 20, 30}`.  The claim promises the sequence
`10, 20, 30` afterwards; the in-place branch shifts the tail by zero slots and
so destructs every element from `pos` on while the count stays three. -/
theorem insert_empty_range_destructs_tail :
    ∃ v v1 : Vector Nat,
      Vector.ctor_initializer_list (fun _ => true) [10, 20, 30] = .ok v ∧ v.holds [10, 20, 30] ∧
      insert_range (fun _ => true) v 1 [] = .ok (v1, 1) ∧
      v1 = ⟨some [some 10, none, none], 3, 3⟩ ∧
      ¬ v1.holds ([10, 20, 30].take 1 ++ [] ++ [10, 20, 30].drop 1) ∧
      traverse v1 = .error .undefined_behaviour :=
  ⟨⟨some [some 10, some 20, some 30], 3, 3⟩, ⟨some [some 10, none, none], 3, 3⟩,
    by rfl, by decide, by rfl, by rfl, by decide, by rfl⟩

/-- C3, failing input: `erase(begin() + 1, begin() + 1)` on the container built
from `{10, 20, 30}`.  The claim promises the sequence `10, 20, 30` afterwards;
the compaction loop moves every element from the range end on by zero slots,
onto itself, and destructs it, so the size is still three while slots 1 and 2
hold no object. -/
theorem erase_empty_range_destructs_tail :
    ∃ v v1 : Vector Nat,
      Vector.ctor_initializer_list (fun _ => true) [10, 20, 30] = .ok v ∧ v.holds [10, 20, 30] ∧
      erase_range v 1 1 = .ok (v1, 1) ∧
      v1 = ⟨some [some 10, none, none], 3, 3⟩ ∧
      ¬ v1.holds ([10, 20, 30].take 1 ++ [10, 20, 30].drop 1) ∧
      index v1 1 = .error .undefined_behaviour :=
  ⟨⟨some [some 10, some 20, some 30], 3, 3⟩, ⟨some [some 10, none, none], 3, 3⟩,
    by rfl, by decide, by rfl, by rfl, by decide, by rfl⟩

/-- C4, failing input: `erase(begin())` on the container built from
`{10, 20, 30}`.  The claim promises the returned position to be the erase
point, index 0, which now holds the former element 1 (the value 20); the
compaction branch returns the old end of the range, index 1, which now holds
the value 30. -/
theorem erase_returns_range_end :
    ∃ (v v1 : Vector Nat) (p : Nat),
      Vector.ctor_initializer_list (fun _ => true) [10, 20, 30] = .ok v ∧
      erase v 0 = .ok (v1, p) ∧ v1.holds [20, 30] ∧
      p = 1 ∧ index v1 p = .ok 30 ∧ index v 1 = .ok 20 ∧ index v1 0 = .ok 20 :=
  ⟨⟨some [some 10, some 20, some 30], 3, 3⟩, ⟨some [some 20, some 30, none], 3, 2⟩, 1,
    by rfl, by rfl, by decide, by rfl, by rfl, by rfl, by rfl⟩

/-- C6: the default constructor gives size 0 and capacity 0; `Vector(n)` gives
size 0 and capacity `n`; construction from a literal sequence `vs` gives size
and capacity `|vs|`, element `i` equal to `vs[i]`, `front()` the first and
`back()` the last value.  The two allocating constructors are taken with
their allocation succeeding, and `|vs|` is a `size_t` value. -/
theorem constructors_establish (ok : Nat → Bool) (n : Nat) (vs : List T)
    (hn : ok n = true) (hvs : ok vs.length = true) (hlen : vs.length < SIZE_MOD) :
    (size (Vector.ctor_default : Vector T) = 0 ∧ capacity (Vector.ctor_default : Vector T) = 0) ∧
    (∃ v : Vector T, Vector.ctor_capacity ok n = .ok v ∧ size v = 0 ∧ capacity v = n) ∧
    (∃ v, Vector.ctor_initializer_list ok vs = .ok v ∧ size v = vs.length ∧
      capacity v = vs.length ∧ v.holds vs ∧
      (∀ i (hi : i < vs.length), «at» v i = .ok vs[i]) ∧
      (∀ hne : vs ≠ [], front v = .ok (vs.head hne) ∧ back v = .ok (vs.getLast hne))) := by
  refine ⟨⟨rfl, rfl⟩, ⟨⟨some (List.replicate n none), n, 0⟩, ?_, rfl, rfl⟩, ?_⟩
  · simp [Vector.ctor_capacity, allocMany, hn, bind, Except.bind, pure, Except.pure]
  · have h0 : (⟨some (List.replicate vs.length none), vs.length, 0⟩ : Vector T).holds [] :=
      ⟨rfl, Nat.zero_le _, by simp⟩
    obtain ⟨v, hv, hh, hcap⟩ := insertElems_fit ok vs _ [] h0 (by simp) (by simpa using hlen)
    simp only [List.nil_append] at hh
    refine ⟨v, ?_, hh.1, hcap, hh, fun i hi => at_of_holds hh i hi,
      fun hne => ⟨front_of_holds hh hne, back_of_holds hh hne⟩⟩
    simp [Vector.ctor_initializer_list, allocMany, hvs, hv, bind, Except.bind]

theorem constructors_establish_witness :
    ∃ v : Vector Nat, Vector.ctor_initializer_list (fun _ => true) [4, 5, 6] = .ok v ∧
      size v = 3 ∧ capacity v = 3 ∧ v.holds [4, 5, 6] :=
  let ⟨v, h1, h2, h3, h4, _⟩ :=
    (constructors_establish (fun _ => true) 5 ([4, 5, 6] : List Nat) rfl rfl (by decide)).2.2
  ⟨v, h1, h2, h3, h4⟩

/-- C7: on every container `at(i)` raises the range error exactly when
`i >= size()`, and `front()` and `back()` raise it exactly when the container
is empty; on a container holding `s` the three otherwise return element `i`,
the first and the last element of `s`.  All three are `const` members that
hand back an element only, so the container after the call is the container
before it. -/
theorem checked_access (v : Vector T) (i : Nat) :
    («at» v i = .error .out_of_range ↔ size v ≤ i) ∧
    (front v = .error .out_of_range ↔ empty v = true) ∧
    (back v = .error .out_of_range ↔ empty v = true) ∧
    (empty v = true ↔ size v = 0) ∧
    (∀ s : List T, v.holds s →
      (∀ hi : i < s.length, «at» v i = .ok s[i]) ∧
      (∀ hne : s ≠ [], front v = .ok (s.head hne) ∧ back v = .ok (s.getLast hne))) := by
  refine ⟨?_, ?_, ?_, by simp [empty, size], ?_⟩
  · unfold «at» size
    by_cases hle : v.m_elemCount ≤ i
    · simp [hle]
    · simp [hle, readSlot_ne_out_of_range]
  · unfold front
    cases he : empty v
    · simp [readSlot_ne_out_of_range]
    · simp
  · unfold back
    cases he : empty v
    · simp [readSlot_ne_out_of_range]
    · simp
  · intro s h
    exact ⟨fun hi => at_of_holds h i hi,
      fun hne => ⟨front_of_holds h hne, back_of_holds h hne⟩⟩

theorem checked_access_witness :
    (⟨some [some 4, some 5, none], 3, 2⟩ : Vector Nat).holds [4, 5] ∧
    «at» (⟨some [some 4, some 5, none], 3, 2⟩ : Vector Nat) 1 = .ok 5 ∧
    front (⟨some [some 4, some 5, none], 3, 2⟩ : Vector Nat) = .ok 4 ∧
    back (⟨some [some 4, some 5, none], 3, 2⟩ : Vector Nat) = .ok 5 :=
  have h := (checked_access (⟨some [some 4, some 5, none], 3, 2⟩ : Vector Nat) 1).2.2.2.2
    [4, 5] (by decide)
  ⟨by decide, h.1 (by decide), h.2 (by decide)⟩

/-- C8: `pop_back` returns normally on every container holding a sequence `s`:
the container then holds `s` without its last element, the capacity is
unchanged, the size is one less (zero stays zero), and on an empty container
nothing at all changes. -/
theorem pop_back_drops_last (v : Vector T) (s : List T) (h : v.holds s) :
    ∃ v1, pop_back v = .ok v1 ∧ v1.holds s.dropLast ∧ capacity v1 = capacity v ∧
      size v1 = size v - 1 ∧ (s = [] → v1 = v) :=
  pop_back_holds v s h

theorem pop_back_drops_last_witness :
    (⟨some [some 4, some 5, none], 3, 2⟩ : Vector Nat).holds [4, 5] ∧
    ∃ v1, pop_back (⟨some [some 4, some 5, none], 3, 2⟩ : Vector Nat) = .ok v1 ∧
      v1.holds [4] ∧ capacity v1 = 3 :=
  ⟨by decide,
    let ⟨v1, h1, h2, h3, _⟩ := pop_back_drops_last ⟨some [some 4, some 5, none], 3, 2⟩ [4, 5]
      (by decide)
    ⟨v1, h1, h2, h3⟩⟩

/-- C9 as stated fails: `reserve(2 ^ 64 - 1)` on a container holding one element
with capacity one returns normally and leaves the capacity at one, because the
sum `m_elemCount + elemCount` in `shouldResizeBuffer` wraps around to zero. -/
theorem reserve_sum_wraps :
    ∃ (v v1 : Vector Nat) (n : Nat), v.holds [7] ∧ n < SIZE_MOD ∧
      reserve (fun _ => true) v n = .ok v1 ∧ ¬ n ≤ capacity v1 ∧
      Exact.reserve (fun _ => true) 8 v n = .ok v1 :=
  ⟨⟨some [some 7], 1, 1⟩, ⟨some [some 7], 1, 1⟩, 2 ^ 64 - 1,
    by decide, by decide, by rfl, by decide, by rfl⟩

/-- C10: on every container holding `s`, `shrink_to_fit()`, with its allocation
succeeding, returns a container that holds the same `s`, has the same size,
and has capacity equal to its size; and three `push_back` calls and
`reserve(50)`, in either order, followed by `shrink_to_fit()` give capacity 3. -/
theorem shrink_to_fit_exact (ok : Nat → Bool) (v : Vector T) (s : List T) (h : v.holds s)
    (hok : ok s.length = true) :
    (∃ v1, shrink_to_fit ok v = .ok v1 ∧ v1.holds s ∧ size v1 = size v ∧
      capacity v1 = size v1) ∧
    (∃ a : Vector Nat,
      (push_back_all (fun _ => true) [1, 2, 3] Vector.ctor_default >>= fun w =>
        reserve (fun _ => true) w 50 >>= fun w1 => shrink_to_fit (fun _ => true) w1) = .ok a ∧
      capacity a = 3) ∧
    (∃ a : Vector Nat,
      (reserve (fun _ => true) Vector.ctor_default 50 >>= fun w =>
        push_back_all (fun _ => true) [1, 2, 3] w >>= fun w1 =>
          shrink_to_fit (fun _ => true) w1) = .ok a ∧
      capacity a = 3) := by
  have hc := h.1
  obtain ⟨v1, hv1, hh, hcap⟩ := allocateBuffer_holds ok v s s.length h (Nat.le_refl _) hok
  refine ⟨⟨v1, ?_, hh, ?_, ?_⟩, ⟨⟨some [some 1, some 2, some 3], 3, 3⟩, by rfl, by rfl⟩,
    ⟨⟨some [some 1, some 2, some 3], 3, 3⟩, by rfl, by rfl⟩⟩
  · unfold shrink_to_fit; rw [hc]; exact hv1
  · simp only [size]; rw [hh.1, hc]
  · simp only [size, capacity]; rw [hh.1, hcap]

theorem shrink_to_fit_exact_witness :
    (⟨some [some 1, some 2, some 3, none, none], 5, 3⟩ : Vector Nat).holds [1, 2, 3] ∧
    ∃ v1, shrink_to_fit (fun _ => true)
        (⟨some [some 1, some 2, some 3, none, none], 5, 3⟩ : Vector Nat) = .ok v1 ∧
      v1.holds [1, 2, 3] ∧ capacity v1 = size v1 :=
  ⟨by decide,
    let ⟨v1, h1, h2, _, h4⟩ :=
      (shrink_to_fit_exact (fun _ => true) ⟨some [some 1, some 2, some 3, none, none], 5, 3⟩
        [1, 2, 3] (by decide) rfl).1
    ⟨v1, h1, h2, h4⟩⟩

/-- C12, failing input: `Vector<T> target(3); Vector<T> source{7, 8};
target = source;`.  The claim promises that the target then holds `7, 8`
with capacity 3; the loop tests `m_elemCount >= elemCount`, so source element
0 is copy-assigned to slot 0 of the target, which holds no object
(`m_elemCount` is 0): the assignment has no defined behaviour. -/
theorem copy_assign_assigns_raw_slot :
    ∃ target source : Vector Nat,
      Vector.ctor_capacity (fun _ => true) 3 = .ok target ∧ target.holds [] ∧
      Vector.ctor_initializer_list (fun _ => true) [7, 8] = .ok source ∧
      source.holds [7, 8] ∧ capacity source ≤ capacity target ∧
      copy_assign_op (fun _ => true) false source target = .undefined ∧
      (∀ v1 : Vector Nat, v1.holds [7, 8] →
        copy_assign_op (fun _ => true) false source target ≠ .returned () v1) :=
  ⟨⟨some [none, none, none], 3, 0⟩, ⟨some [some 7, some 8], 2, 2⟩,
    by rfl, by decide, by rfl, by decide, by decide, by rfl,
    fun _ _ h => by
      have e : copy_assign_op (fun _ => true) false
          (⟨some [some 7, some 8], 2, 2⟩ : Vector Nat) ⟨some [none, none, none], 3, 0⟩
          = .undefined := by rfl
      rw [e] at h
      cases h⟩

/-- C13, failing input: move construction from the container built from
`{10, 20, 30}`.  The claim promises a source with count 0, capacity 0 and no
buffer; the constructor nulls `rhs.m_data` and zeroes `rhs.m_elemCount` but
never writes `rhs.m_capacity`, so the source still reports capacity 3 over a
null buffer. -/
theorem move_constructor_keeps_source_capacity :
    ∃ source target moved : Vector Nat,
      Vector.ctor_initializer_list (fun _ => true) [10, 20, 30] = .ok source ∧
      Vector.ctor_move source = (target, moved) ∧
      target.holds [10, 20, 30] ∧ capacity target = 3 ∧
      size moved = 0 ∧ moved.m_data = none ∧ capacity moved = 3 ∧
      ¬ (moved.m_data = none → capacity moved = 0 ∧ size moved = 0) :=
  ⟨⟨some [some 10, some 20, some 30], 3, 3⟩, ⟨some [some 10, some 20, some 30], 3, 3⟩,
    ⟨none, 3, 0⟩, by rfl, by rfl, by decide, by rfl, by rfl, by rfl, by rfl, by decide⟩

/-- C14: move assignment between two distinct containers, the target holding
any sequence `t` and the source holding `s`, returns with the target holding
exactly `s` with the source's former size and capacity, and with the source at
size 0, capacity 0 and no buffer. -/
theorem move_assign_transfers (self rhs : Vector T) (t s : List T) (ht : self.holds t)
    (hs : rhs.holds s) :
    ∃ target source, move_assign false self rhs = .ok (target, source) ∧
      target.holds s ∧ size target = size rhs ∧ capacity target = capacity rhs ∧
      size source = 0 ∧ capacity source = 0 ∧ source.m_data = none :=
  ⟨rhs, ⟨none, 0, 0⟩, move_assign_holds self rhs t ht, hs, rfl, rfl, rfl, rfl, rfl⟩

theorem move_assign_transfers_witness :
    (⟨some [some 1, some 2], 2, 2⟩ : Vector Nat).holds [1, 2] ∧
    (⟨some [some 7, some 8, some 9], 3, 3⟩ : Vector Nat).holds [7, 8, 9] ∧
    ∃ target source, move_assign false (⟨some [some 1, some 2], 2, 2⟩ : Vector Nat)
        ⟨some [some 7, some 8, some 9], 3, 3⟩ = .ok (target, source) ∧
      target.holds [7, 8, 9] ∧ size source = 0 ∧ capacity source = 0 :=
  ⟨by decide, by decide,
    let ⟨a, b, h1, h2, _, _, h5, h6, _⟩ :=
      move_assign_transfers (⟨some [some 1, some 2], 2, 2⟩ : Vector Nat)
        ⟨some [some 7, some 8, some 9], 3, 3⟩ [1, 2] [7, 8, 9] (by decide) (by decide)
    ⟨a, b, h1, h2, h5, h6⟩⟩

/-- C15, failing input: `insert(begin() + 1, 0, 99)` on the container built
from `{10, 20, 30}`.  Before the call exactly the slots below the count are
constructed; the call returns normally with count 3 and slots 1 and 2
destructed, so the invariant is lost.  The same happens for the empty-range
insertion and for `erase(begin() + 1, begin() + 1)`. -/
theorem zero_length_calls_break_live_slots :
    ∃ v a b c : Vector Nat,
      Vector.ctor_initializer_list (fun _ => true) [10, 20, 30] = .ok v ∧
      v.liveSlotsInvariant ∧
      insert_n (fun _ => true) v 1 0 99 = .ok (a, 1) ∧ ¬ a.liveSlotsInvariant ∧
      insert_range (fun _ => true) v 1 [] = .ok (b, 1) ∧ ¬ b.liveSlotsInvariant ∧
      erase_range v 1 1 = .ok (c, 1) ∧ ¬ c.liveSlotsInvariant :=
  ⟨⟨some [some 10, some 20, some 30], 3, 3⟩, ⟨some [some 10, none, none], 3, 3⟩,
    ⟨some [some 10, none, none], 3, 3⟩, ⟨some [some 10, none, none], 3, 3⟩,
    by rfl, by decide, by rfl, by decide, by rfl, by decide, by rfl, by decide⟩

/-- C17: for `reserve`, `push_back` (both overloads), `insert` (repeated copy,
single move and range, in every case) and `shrink_to_fit`, an exception that
leaves the call is `bad_alloc` and the container is exactly as before the call;
and when the call has to request memory and the request fails, the call does
leave by `bad_alloc` with the container as before. -/
theorem allocation_failure_atomic (ok : Nat → Bool) (v v1 : Vector T) (e : Fault)
    (n pos k : Nat) (x : T) (r : List T) :
    ((reserve_op ok n v = .thrown e v1 ∨ insertElem_op ok x v = .thrown e v1 ∨
        emplace_back_op ok x v = .thrown e v1 ∨ insertAt_op ok pos x k v = .thrown e v1 ∨
        insertAtMove_op ok pos x v = .thrown e v1 ∨
        insertAtRange_op ok pos r v = .thrown e v1 ∨ shrink_to_fit_op ok v = .thrown e v1) →
      e = .bad_alloc ∧ v1 = v) ∧
    (shouldResizeBuffer v n = true →
      ok (max (v.m_capacity * 3 / 2) ((v.m_elemCount + n) % SIZE_MOD)) = false →
      reserve_op ok n v = .thrown .bad_alloc v) ∧
    (shouldResizeBuffer v 1 = true →
      ok (max (v.m_capacity * 3 / 2) ((v.m_elemCount + 1) % SIZE_MOD)) = false →
      insertElem_op ok x v = .thrown .bad_alloc v ∧
      emplace_back_op ok x v = .thrown .bad_alloc v ∧
      insertAtMove_op ok pos x v = .thrown .bad_alloc v) ∧
    (shouldResizeBuffer v k = true →
      ok (max (v.m_capacity * 3 / 2) ((v.m_elemCount + k) % SIZE_MOD)) = false →
      insertAt_op ok pos x k v = .thrown .bad_alloc v) ∧
    (shouldResizeBuffer v r.length = true →
      ok (max (v.m_capacity * 3 / 2) ((v.m_elemCount + r.length) % SIZE_MOD)) = false →
      insertAtRange_op ok pos r v = .thrown .bad_alloc v) ∧
    (ok v.m_elemCount = false → shrink_to_fit_op ok v = .thrown .bad_alloc v) := by
  refine ⟨?_, fun hr hok => growIfNeeded_op_fails v hr hok,
    fun hr hok => ⟨insertElem_op_fails x v hr hok, emplace_back_op_fails x v hr hok,
      insertAtMove_op_fails pos x v hr hok⟩,
    fun hr hok => insertAt_op_fails pos k x v hr hok,
    fun hr hok => insertAtRange_op_fails pos r v hr hok,
    fun hok => shrink_to_fit_op_fails v hok⟩
  rintro (h | h | h | h | h | h | h)
  · exact ⟨(growIfNeeded_op_thrown h).1, (growIfNeeded_op_thrown h).2.1⟩
  · exact ⟨(insertElem_op_thrown h).1, (insertElem_op_thrown h).2.1⟩
  · exact ⟨(emplace_back_op_thrown h).1, (emplace_back_op_thrown h).2.1⟩
  · exact ⟨(insertAt_op_thrown h).1, (insertAt_op_thrown h).2.1⟩
  · exact ⟨(insertAtMove_op_thrown h).1, (insertAtMove_op_thrown h).2.1⟩
  · exact ⟨(insertAtRange_op_thrown h).1, (insertAtRange_op_thrown h).2.1⟩
  · exact ⟨(shrink_to_fit_op_thrown h).1, (shrink_to_fit_op_thrown h).2.1⟩

theorem allocation_failure_atomic_witness :
    insertElem_op (fun _ => false) 5 (⟨some [some 4], 1, 1⟩ : Vector Nat)
        = .thrown .bad_alloc ⟨some [some 4], 1, 1⟩ ∧
    insertAt_op (fun _ => false) 0 5 2 (⟨some [some 4], 1, 1⟩ : Vector Nat)
        = .thrown .bad_alloc ⟨some [some 4], 1, 1⟩ :=
  have h := allocation_failure_atomic (fun _ => false) (⟨some [some 4], 1, 1⟩ : Vector Nat)
    ⟨some [some 4], 1, 1⟩ .bad_alloc 0 0 2 5 []
  ⟨(h.2.2.1 (by decide) rfl).1, h.2.2.2.1 (by decide) rfl⟩

/-- C18 as stated fails: copy assignment of the two-element source `{7, 8}` to
the one-element target `{1}`, with the allocation failing, throws `bad_alloc`
and leaves the target with no element, capacity 0 and a null buffer. -/
theorem copy_assign_alloc_failure_empties_target :
    ∃ target source after : Vector Nat,
      Vector.ctor_initializer_list (fun _ => true) [1] = .ok target ∧
      Vector.ctor_initializer_list (fun _ => true) [7, 8] = .ok source ∧
      capacity target < capacity source ∧
      copy_assign_op (fun _ => false) false source target = .thrown .bad_alloc after ∧
      after ≠ target ∧ size after = 0 ∧ capacity after = 0 ∧ ¬ after.holds [1] :=
  ⟨⟨some [some 1], 1, 1⟩, ⟨some [some 7, some 8], 2, 2⟩, ⟨none, 0, 0⟩,
    by rfl, by rfl, by decide, by rfl, by decide, by rfl, by rfl, by decide⟩

/-- C18, amended: when copy assignment needs a new buffer (the target's
capacity is below the source's) and that allocation fails, `bad_alloc` is
thrown and the target is left empty, with size 0, capacity 0 and no buffer:
its elements are destructed and its members reset before the request. -/
theorem copy_assign_alloc_failure_resets_target (ok : Nat → Bool) (self rhs : Vector T)
    (t : List T) (ht : self.holds t) (hlt : capacity self < capacity rhs)
    (hok : ok (capacity rhs) = false) :
    ∃ after, copy_assign_op ok false rhs self = .thrown .bad_alloc after ∧
      size after = 0 ∧ capacity after = 0 ∧ after.m_data = none ∧ after.holds [] :=
  ⟨⟨none, 0, 0⟩, copy_assign_alloc_fails ok self rhs t ht hlt hok, rfl, rfl, rfl,
    ⟨rfl, Nat.le_refl _, rfl⟩⟩

theorem copy_assign_alloc_failure_resets_target_witness :
    (⟨some [some 1], 1, 1⟩ : Vector Nat).holds [1] ∧
    ∃ after, copy_assign_op (fun _ => false) false (⟨some [some 7, some 8], 2, 2⟩ : Vector Nat)
        ⟨some [some 1], 1, 1⟩ = .thrown .bad_alloc after ∧ size after = 0 :=
  ⟨by decide,
    let ⟨a, h1, h2, _⟩ := copy_assign_alloc_failure_resets_target (fun _ => false)
      (⟨some [some 1], 1, 1⟩ : Vector Nat) ⟨some [some 7, some 8], 2, 2⟩ [1] (by decide)
      (by decide) rfl
    ⟨a, h1, h2⟩⟩

/-- C19, failing input: the container built from `{10, 20, 30}` after
`reserve(3)` (size 3, capacity 6) and an insertion at `begin() + 5`, beyond
`end()`.  The claim promises a reported error and no insertion; the range test
of `insert` guards `assert("Iterator pointer out of range")`, whose argument is
a non-null string literal, so every overload goes on to `insertAt`, returns
normally and leaves a container of size 4 with slot 5 constructed and slot 3
raw. -/
theorem insert_beyond_end_is_performed :
    ∃ v a : Vector Nat,
      (Vector.ctor_initializer_list (fun _ => true) [10, 20, 30] >>= fun w =>
        reserve (fun _ => true) w 3) = .ok v ∧
      size v = 3 ∧ capacity v = 6 ∧
      a = ⟨some [some 10, some 20, some 30, none, none, some 99], 6, 4⟩ ∧
      insert (fun _ => true) v 5 99 = .ok (a, 5) ∧
      insert_n (fun _ => true) v 5 1 99 = .ok (a, 5) ∧
      insert_move (fun _ => true) v 5 99 = .ok (a, 5) ∧
      insert_range (fun _ => true) v 5 [99] = .ok (a, 5) ∧
      ¬ a.liveSlotsInvariant ∧ index a 3 = .error .undefined_behaviour :=
  ⟨⟨some [some 10, some 20, some 30, none, none, none], 6, 3⟩,
    ⟨some [some 10, some 20, some 30, none, none, some 99], 6, 4⟩,
    by rfl, by rfl, by rfl, by rfl, by rfl, by rfl, by rfl, by rfl, by decide, by rfl⟩

/-- C16: every container a program can hold (what a constructor returns, what
a public operation called with any arguments leaves when it returns, the source
of a move, the target of a copy assignment that threw) has
`0 <= count <= capacity`. -/
theorem count_within_capacity (v : Vector T) (h : Reachable v) :
    0 ≤ size v ∧ size v ≤ capacity v :=
  ⟨Nat.zero_le _, (reachable_bounded h).1⟩

theorem count_within_capacity_witness :
    Reachable (⟨none, 3, 0⟩ : Vector Nat) ∧
    0 ≤ size (⟨none, 3, 0⟩ : Vector Nat) ∧
    size (⟨none, 3, 0⟩ : Vector Nat) ≤ capacity (⟨none, 3, 0⟩ : Vector Nat) :=
  have hr : Reachable (⟨none, 3, 0⟩ : Vector Nat) :=
    Reachable.ctor_move_source ⟨some [some 1, some 2, some 3], 3, 3⟩
      (Reachable.ctor_initializer_list (fun _ => true) [1, 2, 3] _ rfl)
  ⟨hr, count_within_capacity _ hr⟩

/-- C20: there is a constant `c` (four will do) such that, for every allocator
and every `N` that is a `size_t` value, the element relocations made by
reallocation over `N` consecutive `push_back` calls on a default-constructed
container number at most `c * N`. -/
theorem push_back_amortized :
    ∃ c : Nat, c ≤ 4 ∧ ∀ (ok : Nat → Bool) (xs : List T), xs.length < SIZE_MOD →
      push_back_all_relocations ok xs Vector.ctor_default ≤ c * xs.length := by
  refine ⟨4, Nat.le_refl _, fun ok xs hN => ?_⟩
  have := push_back_all_relocations_le ok xs (Vector.ctor_default : Vector T) [] default_holds
    (by simp [Vector.ctor_default]) (by simpa using hN)
  simp only [List.length_nil] at this
  omega

theorem push_back_amortized_witness :
    ∃ c : Nat, push_back_all_relocations (fun _ => true) ([1, 2, 3, 4, 5] : List Nat)
      Vector.ctor_default ≤ c * 5 :=
  let ⟨c, _, h⟩ := push_back_amortized
  ⟨c, h (fun _ => true) [1, 2, 3, 4, 5] (by decide)⟩

/-- C22, failing input: `Vector<T> target{1}; target.reserve(3);
Vector<T> source{7, 8, 9}; target = source;` (target of size 1 and capacity 4,
source of capacity 3).  The claim has source element 1, which lies at the
target's previous count, copy-constructed; the loop test
`m_elemCount >= elemCount` holds for it, so it is copy-assigned to slot 1 of the
target, a raw slot, and the call has no defined behaviour.  Whenever the
target's capacity (`r + d`) is at least the source's (`r`), the test holds
exactly for the indices up to and including the count. -/
theorem copy_assign_test_includes_count :
    ∃ target source : Vector Nat,
      (Vector.ctor_initializer_list (fun _ => true) [1] >>= fun w =>
        reserve (fun _ => true) w 3) = .ok target ∧
      Vector.ctor_initializer_list (fun _ => true) [7, 8, 9] = .ok source ∧
      size target = 1 ∧ capacity source ≤ capacity target ∧
      copyAssignTest (size target) (capacity target) (capacity source) 1 = true ∧
      ¬ (1 < size target) ∧ target.block[1]? = some none ∧
      copy_assign_op (fun _ => true) false source target = .undefined ∧
      (∀ m r d i : Nat, copyAssignTest m (r + d) r i = true ↔ i ≤ m) :=
  ⟨⟨some [some 1, none, none, none], 4, 1⟩, ⟨some [some 7, some 8, some 9], 3, 3⟩,
    by rfl, by rfl, by rfl, by decide, by rfl, by decide, by rfl, by rfl,
    fun m r d i => copyAssignTest_iff m (r + d) r i (Nat.le_add_right r d)⟩

/-- C23, failing input: copy construction from the container built from
`{10, 20, 30}` when the copy of element 1 throws.  The claim has the handler
destruct slot 0 of the new block and release the block; the `try` block leaves
`bufferStart` at slot 2 with `elemCount` 1, so the handler visits slot 2, which
holds no object (no defined behaviour), and never slot 0.  When the copy of
element 0 throws the handler visits nothing and the exception leaves, but `free`
is handed the null `m_data` of the object under construction, so the new block
is not released. -/
theorem copy_failure_cleanup_visits_raw_slots :
    ∃ (source : Vector Nat) (st : CopyLocals Nat),
      Vector.ctor_initializer_list (fun _ => true) [10, 20, 30] = .ok source ∧
      copyTryLoop (fun i => i == 1) source.m_elemCount 0
        ⟨0, 0, List.replicate source.m_capacity none, false⟩ source.block = .ok st ∧
      st.caught = true ∧ st.block = [some 10, none, none] ∧
      cleanupSlots st = [2] ∧ cleanupSlots st ≠ List.range 1 ∧ st.block[2]? = some none ∧
      Vector.ctor_copy_throwing (fun _ => true) (fun i => i == 1) source = .undefined ∧
      Vector.ctor_copy_throwing (fun _ => true) (fun i => i == 0) source
        = .rethrown [none, none, none] none :=
  ⟨⟨some [some 10, some 20, some 30], 3, 3⟩, ⟨2, 1, [some 10, none, none], true⟩,
    by rfl, by rfl, by rfl, by rfl, by rfl, by decide, by rfl, by rfl, by rfl⟩

/-- C24 as stated fails: `reserve(2 ^ 64 - 1)` on the container built from
`{1, 2}` (size 2, capacity 2) returns with capacity 2, below the size plus the
request, because the sum `m_elemCount + elemCount` wraps around to 1; and the
very next `push_back` reallocates, to capacity 3. -/
theorem reserve_room_sum_wraps :
    ∃ (v v1 v2 : Vector Nat) (n : Nat),
      Vector.ctor_initializer_list (fun _ => true) [1, 2] = .ok v ∧ n < SIZE_MOD ∧
      reserve (fun _ => true) v n = .ok v1 ∧ ¬ (size v + n ≤ capacity v1) ∧
      push_back (fun _ => true) v1 5 = .ok v2 ∧ capacity v2 ≠ capacity v1 ∧
      Exact.reserve (fun _ => true) 8 v n = .ok v1 ∧
      Exact.push_back (fun _ => true) 8 v1 (.object 5) = .ok v2 :=
  ⟨⟨some [some 1, some 2], 2, 2⟩, ⟨some [some 1, some 2], 2, 2⟩,
    ⟨some [some 1, some 2, some 5], 3, 3⟩, 2 ^ 64 - 1,
    by rfl, by decide, by rfl, by decide, by rfl, by decide, by rfl, by rfl⟩

/-- C5, failing input: `Vector<T> v{1, 2, 3}; v.push_back(v[0]);` (size 3,
capacity 3, `sizeof(T)` 4).  The claim has the container hold `1, 2, 3, 1`
afterwards.  `insertElem` calls `growIfNeeded(1)` first, which moves the
elements to a new block, destructs the old ones and frees the old block, and
only then copy-constructs from `value`, a reference into the freed block: the
call has no defined behaviour.  The same call with an object outside the
container appends it, and so does the call with `v[0]` when the capacity is 4
and nothing is reallocated.  On the moved-from source of a move construction, which
keeps capacity 3 over a null buffer, `push_back` writes through the null pointer. -/
theorem push_back_reads_relocated_argument :
    ∃ v moved : Vector Nat,
      Vector.ctor_initializer_list (fun _ => true) [1, 2, 3] = .ok v ∧ v.holds [1, 2, 3] ∧
      index v 0 = .ok 1 ∧ shouldResizeBuffer v 1 = true ∧
      Exact.push_back (fun _ => true) 4 v (.element 0) = .error .undefined_behaviour ∧
      (∃ w, Exact.push_back (fun _ => true) 4 v (.object 1) = .ok w ∧ w.holds [1, 2, 3, 1]) ∧
      (∃ w, Exact.push_back (fun _ => true) 4 ⟨some [some 1, some 2, some 3, none], 4, 3⟩
        (.element 0) = .ok w ∧ w.holds [1, 2, 3, 1]) ∧
      (Vector.ctor_move v).2 = moved ∧ size moved = 0 ∧
      Exact.push_back (fun _ => true) 4 moved (.object 9) = .error .undefined_behaviour :=
  ⟨⟨some [some 1, some 2, some 3], 3, 3⟩, ⟨none, 3, 0⟩, by rfl, by decide, by rfl, by rfl,
    by rfl, ⟨⟨some [some 1, some 2, some 3, some 1], 4, 4⟩, by rfl, by decide⟩,
    ⟨⟨some [some 1, some 2, some 3, some 1], 4, 4⟩, by rfl, by decide⟩, by rfl,
    by rfl, by rfl⟩

/-- C9, amended: on a container that holds `s` in a block of `capacity()` slots,
for every `n` such that `size() + n` does not wrap and, when the capacity has to
grow, the byte count of the request (the larger of the `double` product
`capacity() * 1.5` and `size() + n`, times `sizeof(T)`) does not wrap either,
`reserve(n)`, with its allocation succeeding when one is made, returns with a
capacity at least the previous capacity and at least `n` (indeed at least
`size() + n`), the size and the element sequence unchanged. -/
theorem reserve_grows_and_keeps (ok : Nat → Bool) (sz : Nat) (v : Vector T) (s : List T)
    (n : Nat) (h : v.holds s) (hw : s.length + n < SIZE_MOD) (hsz : 0 < sz)
    (hb : capacity v < size v + n →
      max (growthProduct (capacity v)) (size v + n) * sz < SIZE_MOD)
    (hok : capacity v < size v + n →
      ok (max (growthProduct (capacity v)) (size v + n) * sz) = true) :
    ∃ v1, Exact.reserve ok sz v n = .ok v1 ∧ v1.holds s ∧ size v1 = size v ∧
      capacity v ≤ capacity v1 ∧ n ≤ capacity v1 ∧ size v + n ≤ capacity v1 := by
  have hc : size v = s.length := h.1
  simp only [capacity, hc] at hb hok
  obtain ⟨v1, hv1, hh, hcap⟩ := exact_growIfNeeded_holds ok sz v s n h hw hsz hb hok
  have hc1 : size v1 = s.length := hh.1
  refine ⟨v1, hv1, hh, by rw [hc, hc1], ?_, ?_, ?_⟩ <;>
    (simp only [capacity, hc]; rw [hcap]; split_ifs <;> omega)

theorem reserve_grows_and_keeps_witness :
    (⟨some [some 7], 1, 1⟩ : Vector Nat).holds [7] ∧
    ∃ v1, Exact.reserve (fun _ => true) 8 (⟨some [some 7], 1, 1⟩ : Vector Nat) 50 = .ok v1 ∧
      v1.holds [7] ∧ 50 ≤ capacity v1 :=
  ⟨by decide,
    let ⟨v1, h1, h2, _, _, h5, _⟩ :=
      reserve_grows_and_keeps (fun _ => true) 8 ⟨some [some 7], 1, 1⟩ [7] 50 (by decide)
        (by decide) (by decide) (fun _ => by decide) (fun _ => rfl)
    ⟨v1, h1, h2, h5⟩⟩

/-- C11: copy construction from a source that holds `s`, source and copy lying
in one heap and the allocation succeeding, returns a container that holds
exactly `s` (same size, same elements in the same order) with the source's
capacity and leaves the source as it was; the copy points to a block of its
own, and after any number of calls of public mutating members on the copy, or
copy assignments to it, the source is still the container it was, with its size,
capacity and elements. -/
theorem copy_constructor_independent (ok : Nat → Bool) (h : Heap T) (other : Object)
    (s : List T) (hs : (h.load other).holds s)
    (hp : ∀ a, other.m_data = some a → a < h.length) (hok : ok other.m_capacity = true) :
    ∃ h1 c, Heap.ctor_copy ok h other = .ok (h1, c) ∧
      (h1.load c).holds s ∧ size (h1.load c) = size (h.load other) ∧
      capacity (h1.load c) = capacity (h.load other) ∧
      traverse (h1.load c) = traverse (h.load other) ∧
      (∀ i, i < size (h.load other) → index (h1.load c) i = index (h.load other) i) ∧
      h1.load other = h.load other ∧ c.m_data ≠ other.m_data ∧
      ∀ h2 c2, HeapSteps h1 c h2 c2 → h2.load other = h.load other := by
  obtain ⟨cv, hcv, hh, hcap, hcount⟩ := ctor_copy_holds ok (h.load other) s hs hok
  obtain ⟨h1, c, hrun, hload, hcd, hlen, hsame⟩ := heap_ctor_copy_spec ok h other cv hp hcv
  have hne : ∀ b, other.m_data = some b → c.m_data ≠ some b := by
    intro b hb
    have := hp b hb
    rw [hcd]
    simp only [ne_eq, Option.some.injEq]
    omega
  refine ⟨h1, c, hrun, by rw [hload]; exact hh, by rw [hload]; exact hcount,
    by rw [hload]; exact hcap, ?_, ?_, hsame, ?_, ?_⟩
  · rw [hload, traverse_of_holds hh, traverse_of_holds hs]
  · intro i hi
    have hi2 : i < s.length := by simp only [size] at hi; rw [hs.1] at hi; exact hi
    rw [hload, index_of_holds hh i hi2, index_of_holds hs i hi2]
  · intro heq
    cases ho : other.m_data with
    | none => rw [ho, hcd] at heq; cases heq
    | some b => exact hne b ho (by rw [heq, ho])
  · intro h2 c2 hsteps
    rw [← hsame]
    apply load_eq_of_deref
    intro b hb
    exact (heapSteps_frame hsteps b (by rw [hlen]; have := hp b hb; omega) (hne b hb)).1

theorem copy_constructor_independent_witness :
    (Heap.load ([some [some 4, some 5, none]] : Heap Nat) ⟨some 0, 3, 2⟩).holds [4, 5] ∧
    ∃ h1 c, Heap.ctor_copy (fun _ => true) ([some [some 4, some 5, none]] : Heap Nat)
        ⟨some 0, 3, 2⟩ = .ok (h1, c) ∧ (h1.load c).holds [4, 5] ∧
      c.m_data ≠ (⟨some 0, 3, 2⟩ : Object).m_data :=
  ⟨by decide,
    let ⟨h1, c, r1, r2, _, _, _, _, _, r8, _⟩ :=
      copy_constructor_independent (fun _ => true) ([some [some 4, some 5, none]] : Heap Nat)
        ⟨some 0, 3, 2⟩ [4, 5] (by decide) (by decide) rfl
    ⟨h1, c, r1, r2, r8⟩⟩

/-- C24, amended: on a container that holds `s` in a block of `capacity()`
slots, for every `n` such that `size() + n` does not wrap and, when the capacity
has to grow, the byte count of the request (the larger of the `double` product
`capacity() * 1.5` and `size() + n`, times `sizeof(T)`) does not wrap either,
`reserve(n)`, with its allocation succeeding when one is made, returns with the
elements unchanged and a capacity of at least `size() + n`, greater than before
whenever `size() + n` exceeded the old capacity (also when `n` itself did not);
and every run of at most `n` `push_back` calls that follows, each of an object
outside the container or of an element the container then holds, returns with
the values appended and the capacity unchanged, whatever the allocator would
answer. -/
theorem reserve_then_push_back_fits (ok ok2 : Nat → Bool) (sz : Nat) (v : Vector T)
    (s : List T) (n : Nat) (h : v.holds s) (hw : s.length + n < SIZE_MOD) (hsz : 0 < sz)
    (hb : capacity v < size v + n →
      max (growthProduct (capacity v)) (size v + n) * sz < SIZE_MOD)
    (hok : capacity v < size v + n →
      ok (max (growthProduct (capacity v)) (size v + n) * sz) = true) :
    ∃ v1, Exact.reserve ok sz v n = .ok v1 ∧ v1.holds s ∧ size v + n ≤ capacity v1 ∧
      (capacity v < size v + n → capacity v < capacity v1) ∧
      ∀ (args : List (Arg T)) (xs : List T), args.length ≤ n →
        appendedValues s args = some xs →
        ∃ v2, Exact.push_back_all ok2 sz args v1 = .ok v2 ∧ v2.holds (s ++ xs) ∧
          capacity v2 = capacity v1 := by
  have hc : size v = s.length := h.1
  simp only [capacity, hc] at hb hok ⊢
  obtain ⟨v1, hv1, hh, hcap⟩ := exact_growIfNeeded_holds ok sz v s n h hw hsz hb hok
  have hroom : s.length + n ≤ v1.m_capacity := by
    rw [hcap]; split_ifs <;> omega
  refine ⟨v1, hv1, hh, hroom, fun hlt => by omega, fun args xs hargs hval => ?_⟩
  exact exact_push_back_all_fit ok2 sz args xs v1 s hh (by omega) (by omega) hsz hval

theorem reserve_then_push_back_fits_witness :
    (⟨some [some 1, some 2, none], 3, 2⟩ : Vector Nat).holds [1, 2] ∧
    2 ≤ capacity (⟨some [some 1, some 2, none], 3, 2⟩ : Vector Nat) ∧
    ∃ v1, Exact.reserve (fun _ => true) 8 (⟨some [some 1, some 2, none], 3, 2⟩ : Vector Nat) 2
        = .ok v1 ∧ 3 < capacity v1 ∧
      ∃ v2, Exact.push_back_all (fun _ => false) 8 [.object 8, .element 0] v1 = .ok v2 ∧
        v2.holds [1, 2, 8, 1] ∧ capacity v2 = capacity v1 :=
  ⟨by decide, by decide,
    let ⟨v1, h1, _, _, h4, h5⟩ :=
      reserve_then_push_back_fits (fun _ => true) (fun _ => false) 8
        (⟨some [some 1, some 2, none], 3, 2⟩ : Vector Nat) [1, 2] 2 (by decide) (by decide)
        (by decide) (fun _ => by decide) (fun _ => rfl)
    let ⟨v2, h6, h7, h8⟩ := h5 [.object 8, .element 0] [8, 1] (by decide) (by rfl)
    ⟨v1, h1, h4 (by decide), v2, h6, h7, h8⟩⟩

end Claims

end CppVector
